import Mathlib

/-!
# Grocery-Vision: response normalisation

A shallow embedding of the text-handling code of the repository:

* `frontend/src/App.jsx`: `parseTextToItems`, `parseTextToProduce`;
* `backend/controllers/detectionController.js`: the "Parse JSON" step of
  `detectItems` and `detectFreshness`.

JavaScript strings are sequences of UTF-16 code units; the built-ins the code
calls (`String.prototype.trim`, `split`, `includes`, `indexOf`, `substring`,
`replace`, `parseInt`, `JSON.parse`) are modelled after ECMA-262 / ECMA-404.
`new Date().toISOString()` is an input of the model (`now`).
-/

namespace GroceryVision

/-! ## JavaScript strings -/

/-- A JavaScript string, as the list of its UTF-16 code units. -/
abbrev Str := List Nat

/-- UTF-16 code units of one Unicode scalar value. -/
def encodeUnits (c : Nat) : List Nat :=
  if c < 65536 then [c]
  else [55296 + (c - 65536) / 1024, 56320 + (c - 65536) % 1024]

/-- The JavaScript string written as the Lean literal `s`. -/
def js (s : String) : Str := s.data.flatMap (fun c => encodeUnits c.toNat)

/-- Code unit of `[`. -/
def LBRACKET : Nat := 91
/-- Code unit of `]`. -/
def RBRACKET : Nat := 93
/-- Code unit of `|`. -/
def PIPE : Nat := 124
/-- Code unit of the line feed `\n`. -/
def NEWLINE : Nat := 10
/-- Code unit of the backtick. -/
def BACKTICK : Nat := 96

/-- ECMA-262 `WhiteSpace` and `LineTerminator` code units: what `trim` and
`parseInt` strip. -/
def isWhiteSpace (c : Nat) : Bool :=
  c == 9 || c == 10 || c == 11 || c == 12 || c == 13 || c == 32 || c == 160 ||
  c == 5760 || (8192 ≤ c && c ≤ 8202) || c == 8232 || c == 8233 || c == 8239 ||
  c == 8287 || c == 12288 || c == 65279

/-- Strip leading white space (`String.prototype.trimStart`). -/
def trimStart (s : Str) : Str := s.dropWhile isWhiteSpace

/-- Strip trailing white space (`String.prototype.trimEnd`). -/
def trimEnd (s : Str) : Str := (s.reverse.dropWhile isWhiteSpace).reverse

/-- `String.prototype.trim`. -/
def trim (s : Str) : Str := trimEnd (trimStart s)

/-- Whether `p` occurs at the start of `s` (`s.startsWith(p)`). -/
def startsWith : Str → Str → Bool
  | _, [] => true
  | [], _ :: _ => false
  | c :: s, d :: p => c == d && startsWith s p

/-- `s.endsWith(p)`. -/
def endsWith (s p : Str) : Bool := startsWith s.reverse p.reverse

/-- `s.includes(p)`: `p` occurs somewhere in `s`. -/
def includes : Str → Str → Bool
  | [], p => startsWith [] p
  | c :: s, p => startsWith (c :: s) p || includes s p

/-- `s.split(sep)` for a separator of one code unit. -/
def split (sep : Nat) : Str → List Str
  | [] => [[]]
  | c :: s =>
    if c = sep then [] :: split sep s
    else
      match split sep s with
      | [] => [[c]]
      | seg :: segs => (c :: seg) :: segs

/-- `s.indexOf(c)` for one code unit; `-1` when `c` does not occur. -/
def indexOf (c : Nat) : Str → Int
  | [] => -1
  | d :: s => if d = c then 0 else if indexOf c s = -1 then -1 else indexOf c s + 1

/-- `s.lastIndexOf(c)` for one code unit; `-1` when `c` does not occur. -/
def lastIndexOf (c : Nat) : Str → Int
  | [] => -1
  | d :: s =>
    if lastIndexOf c s = -1 then (if d = c then 0 else -1) else lastIndexOf c s + 1

/-- `s.substring(a, b)`: a negative index counts as 0, an index beyond the end
as the length, and the two are swapped when `a > b`. -/
def substring (s : Str) (a b : Int) : Str :=
  (s.drop (min a.toNat b.toNat)).take (max a.toNat b.toNat - min a.toNat b.toNat)

/-- `lines.findIndex(p)`; `-1` when no line satisfies `p`. -/
def findIndex (p : Str → Bool) : List Str → Int
  | [] => -1
  | l :: ls => if p l then 0 else if findIndex p ls = -1 then -1 else findIndex p ls + 1

/-- Lower case of one code unit, for the code units whose lower case has a
letter `a`-`z` in it (ASCII capitals, U+212A KELVIN SIGN, U+0130); the other
code units are kept, so containment of an ASCII word is as in JavaScript. -/
def lowerUnit (c : Nat) : List Nat :=
  if 65 ≤ c ∧ c ≤ 90 then [c + 32]
  else if c = 8490 then [107]
  else if c = 304 then [105, 775]
  else [c]

/-- `s.toLowerCase()`, see `lowerUnit`. -/
def toLowerCase (s : Str) : Str := s.flatMap lowerUnit

/-! ## JavaScript values -/

/-- A JavaScript Number, as far as the code produces them. -/
inductive JsNum where
  /-- A finite Number whose value is the integer `z` (`-0` is `0`). -/
  | int (z : Int)
  /-- `Infinity` (`neg = false`) or `-Infinity`. -/
  | infinity (neg : Bool)
  /-- The Number denoted by a JSON literal that has a fraction or an exponent,
  kept as its text. -/
  | literal (lexeme : Str)
  deriving DecidableEq, Repr

/-- A JavaScript value of the kind `JSON.parse` and the table tier build.
An object is the list of its own properties. -/
inductive JsVal where
  | null
  | bool (b : Bool)
  | num (n : JsNum)
  | str (s : Str)
  | arr (items : List JsVal)
  | obj (fields : List (Str × JsVal))
  deriving Repr

/-- The exceptions the modelled code can throw. -/
inductive JsError where
  | SyntaxError
  | TypeError
  deriving DecidableEq, Repr

/-- Own property `key` of an object: `none` stands for `undefined` (also for a
value that is not an object). -/
def JsVal.get (key : Str) : JsVal → Option JsVal
  | .obj fields => (fields.find? (fun kv => kv.1 == key)).map (·.2)
  | _ => none

/-- Define or overwrite the property `key` (`CreateDataProperty`): a repeated
key keeps its place and takes the last value. -/
def setField (key : Str) (v : JsVal) : List (Str × JsVal) → List (Str × JsVal)
  | [] => [(key, v)]
  | kv :: rest => if kv.1 = key then (key, v) :: rest else kv :: setField key v rest

/-! ## Numbers -/

/-- Decimal digit `0`-`9`. -/
def isDigit (c : Nat) : Bool := 48 ≤ c && c ≤ 57

/-- Value of a run of decimal digits. -/
def digitsValue (ds : Str) : Nat := ds.foldl (fun acc d => 10 * acc + (d - 48)) 0

/-- Value of a hexadecimal digit. -/
def hexValue (c : Nat) : Option Nat :=
  if 48 ≤ c ∧ c ≤ 57 then some (c - 48)
  else if 65 ≤ c ∧ c ≤ 70 then some (c - 55)
  else if 97 ≤ c ∧ c ≤ 102 then some (c - 87)
  else none

/-- Value of a run of hexadecimal digits. -/
def hexDigitsValue (ds : Str) : Nat :=
  ds.foldl (fun acc d => 16 * acc + (hexValue d).getD 0) 0

/-- Least `e` from `e` on with `m < 2 ^ (53 + e)`, searched for `fuel` steps. -/
def excessBits : Nat → Nat → Nat → Nat
  | 0, e, _ => e
  | fuel + 1, e, m => if m < 2 ^ (53 + e) then e else excessBits fuel (e + 1) m

/-- The Number value of a natural number: the nearest IEEE 754 binary64 value,
ties to even; `none` stands for `Infinity`. A value of `53 + e` bits keeps its
53 leading bits `q`; the largest finite value is `(2 ^ 53 - 1) * 2 ^ 971`. -/
def roundToDouble (m : Nat) : Option Nat :=
  if m < 2 ^ 53 then some m
  else
    let e := excessBits m 0 m
    let q := m / 2 ^ e
    let r := m % 2 ^ e
    let half := 2 ^ (e - 1)
    let q1 := if half < r ∨ (r = half ∧ q % 2 = 1) then q + 1 else q
    if e < 971 ∨ (e = 971 ∧ q1 < 2 ^ 53) then some (q1 * 2 ^ e) else none

/-- The Number with sign `neg` and magnitude `m`. -/
def toNumber (neg : Bool) (m : Nat) : JsNum :=
  match roundToDouble m with
  | some v => .int (if neg then -(v : Int) else (v : Int))
  | none => .infinity neg

/-- Steps 8-14 of `parseInt` (ECMA-262 19.2.5) on the text `s` after its white
space and sign: a `0x`/`0X` start selects radix 16, and the longest run of
digits is the value; `none` stands for `NaN`, otherwise the result is the sign
and the magnitude before rounding to a Number. -/
def parseIntDigits (neg : Bool) (s : Str) : Option (Bool × Nat) :=
  if startsWith s [48, 120] || startsWith s [48, 88] then
    if (s.drop 2).takeWhile (fun c => (hexValue c).isSome) = [] then none
    else some (neg, hexDigitsValue ((s.drop 2).takeWhile (fun c => (hexValue c).isSome)))
  else
    if s.takeWhile isDigit = [] then none
    else some (neg, digitsValue (s.takeWhile isDigit))

/-- `parseInt(s)` with no radix argument: leading white space is skipped and a
sign `-` or `+` is read, then `parseIntDigits`. -/
def parseInt (s : Str) : Option (Bool × Nat) :=
  parseIntDigits (startsWith (trimStart s) [45])
    (if startsWith (trimStart s) [45] || startsWith (trimStart s) [43]
      then (trimStart s).drop 1 else trimStart s)

/-- The expression `parseInt(s) || 1`: `NaN` and zero are falsy. -/
def parseIntOr1 (s : Str) : JsNum :=
  match parseInt s with
  | none => .int 1
  | some (neg, m) => if m = 0 then .int 1 else toNumber neg m

/-! ## `JSON.parse` (ECMA-404 grammar) -/

/-- JSON white space: tab, line feed, carriage return, space. -/
def isJsonWs (c : Nat) : Bool := c == 9 || c == 10 || c == 13 || c == 32

/-- Skip JSON white space. -/
def skipWs (s : Str) : Str := s.dropWhile isJsonWs

/-- The JSON text without the white space around its value. -/
def jsonTrim (s : Str) : Str := ((skipWs s).reverse.dropWhile isJsonWs).reverse

/-- Put `c` in front of the string value of a parse result. -/
def consUnit (c : Nat) : Option (Str × Str) → Option (Str × Str)
  | none => none
  | some (v, rest) => some (c :: v, rest)

/-- The code unit of a two-character escape `\e`, for `e` one of
`" \ / b f n r t`. -/
def simpleEscape (e : Nat) : Option Nat :=
  if e = 34 then some 34
  else if e = 92 then some 92
  else if e = 47 then some 47
  else if e = 98 then some 8
  else if e = 102 then some 12
  else if e = 110 then some 10
  else if e = 114 then some 13
  else if e = 116 then some 9
  else none

/-- The code unit of the escape `\uXXXX` with the four hexadecimal digits given. -/
def hexEscape (h1 h2 h3 h4 : Nat) : Option Nat :=
  match hexValue h1, hexValue h2, hexValue h3, hexValue h4 with
  | some a, some b, some c, some d => some (4096 * a + 256 * b + 16 * c + d)
  | _, _, _, _ => none

/-- A JSON string after its opening quote: the value and what follows the
closing quote. A code unit below U+0020 is not allowed unescaped. -/
def parseStringBody : Str → Option (Str × Str)
  | [] => none
  | c :: r =>
    if c = 34 then some ([], r)
    else if c = 92 then
      match r with
      | [] => none
      | e :: r1 =>
        if e = 117 then
          match r1 with
          | h1 :: h2 :: h3 :: h4 :: r2 =>
            match hexEscape h1 h2 h3 h4 with
            | some u => consUnit u (parseStringBody r2)
            | none => none
          | _ => none
        else
          match simpleEscape e with
          | some u => consUnit u (parseStringBody r1)
          | none => none
    else if c < 32 then none
    else consUnit c (parseStringBody r)

/-- Fraction of a JSON number: its text (empty when there is none) and the
rest; `none` when a `.` has no digit after it. -/
def parseFraction (s : Str) : Option (Str × Str) :=
  match s with
  | [] => some ([], [])
  | c :: r =>
    if c = 46 then
      if r.takeWhile isDigit = [] then none
      else some (c :: r.takeWhile isDigit, r.dropWhile isDigit)
    else some ([], c :: r)

/-- Sign of an exponent: its text and the rest. -/
def parseExpSign (s : Str) : Str × Str :=
  match s with
  | [] => ([], [])
  | c :: r => if c = 43 ∨ c = 45 then ([c], r) else ([], c :: r)

/-- Exponent of a JSON number: its text (empty when there is none) and the
rest; `none` when `e`/`E` has no digit after it. -/
def parseExponent (s : Str) : Option (Str × Str) :=
  match s with
  | [] => some ([], [])
  | c :: r =>
    if c = 101 ∨ c = 69 then
      if (parseExpSign r).2.takeWhile isDigit = [] then none
      else some (c :: (parseExpSign r).1 ++ (parseExpSign r).2.takeWhile isDigit,
                 (parseExpSign r).2.dropWhile isDigit)
    else some ([], c :: r)

/-- Integer part of a JSON number: `0`, or a digit `1`-`9` and more digits. -/
def parseIntPart (s : Str) : Option (Str × Str) :=
  match s with
  | [] => none
  | d :: r =>
    if d = 48 then some ([d], r)
    else if isDigit d then some (d :: r.takeWhile isDigit, r.dropWhile isDigit)
    else none

/-- A JSON number after its sign `neg`. -/
def parseUnsigned (neg : Bool) (s : Str) : Option (JsNum × Str) :=
  match parseIntPart s with
  | none => none
  | some (ip, s1) =>
    match parseFraction s1 with
    | none => none
    | some (fp, s2) =>
      match parseExponent s2 with
      | none => none
      | some (ep, s3) =>
        if fp = [] ∧ ep = [] then some (toNumber neg (digitsValue ip), s3)
        else some (.literal ((if neg then [45] else []) ++ ip ++ fp ++ ep), s3)

/-- A JSON number. -/
def parseNumber (s : Str) : Option (JsNum × Str) :=
  match s with
  | [] => none
  | c :: r => if c = 45 then parseUnsigned true r else parseUnsigned false (c :: r)

/-- The word `true`. -/
def TRUE : Str := [116, 114, 117, 101]
/-- The word `false`. -/
def FALSE : Str := [102, 97, 108, 115, 101]
/-- The word `null`. -/
def NULL : Str := [110, 117, 108, 108]

mutual
/-- A JSON value at the start of `s`: the value and what follows it. `fuel`
bounds the nesting. -/
def parseValue : Nat → Str → Option (JsVal × Str)
  | 0, _ => none
  | fuel + 1, s =>
    match s with
    | [] => none
    | c :: r =>
      if c = 91 then
        match skipWs r with
        | [] => none
        | d :: r1 =>
          if d = 93 then some (.arr [], r1) else parseElements fuel (d :: r1) []
      else if c = 123 then
        match skipWs r with
        | [] => none
        | d :: r1 =>
          if d = 125 then some (.obj [], r1) else parseMembers fuel (d :: r1) []
      else if c = 34 then
        match parseStringBody r with
        | none => none
        | some (v, rest) => some (.str v, rest)
      else if startsWith (c :: r) TRUE then some (.bool true, r.drop 3)
      else if startsWith (c :: r) FALSE then some (.bool false, r.drop 4)
      else if startsWith (c :: r) NULL then some (.null, r.drop 3)
      else
        match parseNumber (c :: r) with
        | none => none
        | some (n, rest) => some (.num n, rest)

/-- The elements of an array from the start of an element on, `acc` being the
elements read so far. -/
def parseElements : Nat → Str → List JsVal → Option (JsVal × Str)
  | 0, _, _ => none
  | fuel + 1, s, acc =>
    match parseValue fuel s with
    | none => none
    | some (v, rest) =>
      match skipWs rest with
      | [] => none
      | d :: r =>
        if d = 44 then parseElements fuel (skipWs r) (acc ++ [v])
        else if d = 93 then some (.arr (acc ++ [v]), r)
        else none

/-- The members of an object from the start of a key on, `acc` being the
properties read so far. -/
def parseMembers : Nat → Str → List (Str × JsVal) → Option (JsVal × Str)
  | 0, _, _ => none
  | fuel + 1, s, acc =>
    match s with
    | [] => none
    | c :: r =>
      if c = 34 then
        match parseStringBody r with
        | none => none
        | some (key, rest) =>
          match skipWs rest with
          | [] => none
          | d :: r1 =>
            if d = 58 then
              match parseValue fuel (skipWs r1) with
              | none => none
              | some (v, rest2) =>
                match skipWs rest2 with
                | [] => none
                | d2 :: r2 =>
                  if d2 = 44 then parseMembers fuel (skipWs r2) (setField key v acc)
                  else if d2 = 125 then some (.obj (setField key v acc), r2)
                  else none
            else none
      else none
end

/-- `JSON.parse(s)`: the value of the JSON text `s`, or a `SyntaxError`. The
fuel `2 * length + 2` is never used up (`parse_fuel`): every two nested calls
read at least one code unit. -/
def jsonParse (s : Str) : Except JsError JsVal :=
  match parseValue (2 * (jsonTrim s).length + 2) (jsonTrim s) with
  | some (v, []) => .ok v
  | _ => .error .SyntaxError

/-! ## Frontend: `parseTextToItems` and `parseTextToProduce` (App.jsx) -/

/-- The rest of the pattern `/\[[\s\S]*\]/` after its `[`: the longest start
of `s` that ends with `]`. -/
def matchRest : Str → Option Str
  | [] => none
  | c :: s =>
    match matchRest s with
    | some m => some (c :: m)
    | none => if c = RBRACKET then some [c] else none

/-- The match `text.match(/\[[\s\S]*\]/)`: the matched text `jsonMatch[0]` of
the leftmost, longest match, `none` for `null`. -/
def matchJsonArray : Str → Option Str
  | [] => none
  | c :: s =>
    if c = LBRACKET then
      match matchRest s with
      | some m => some (c :: m)
      | none => matchJsonArray s
    else matchJsonArray s

/-- The JSON tier of both parsers: the value of `JSON.parse(jsonMatch[0])` when
the pattern matches and the match parses, `none` when control goes on to the
table tier. -/
def jsonTier (text : Str) : Option JsVal :=
  match matchJsonArray text with
  | none => none
  | some m =>
    match jsonParse m with
    | .ok v => some v
    | .error _ => none

/-- The lines `text.split("\n").filter((line) => line.trim().length > 0)`. -/
def nonBlankLines (text : Str) : List Str :=
  (split NEWLINE text).filter (fun line => decide ((trim line).length > 0))

/-- The columns `line.split("|").map((col) => col.trim()).filter(Boolean)`. -/
def columnsOf (line : Str) : List Str :=
  ((split PIPE line).map trim).filter (fun col => !col.isEmpty)

/-- Header test of `parseTextToItems`. -/
def isItemsHeader (line : Str) : Bool :=
  includes line (js "Item Name") || includes line (js "Count") ||
  includes line (js "Freshness")

/-- Header test of `parseTextToProduce`. -/
def isProduceHeader (line : Str) : Bool :=
  includes line (js "Produce") || includes line (js "Freshness") ||
  includes line (js "Expected Life") || includes line (js "Lifespan")

/-- The object `{ itemName, count, timestamp }`. -/
def itemRecord (itemName : Str) (count : JsNum) (timestamp : Str) : JsVal :=
  .obj [(js "itemName", .str itemName), (js "count", .num count),
        (js "timestamp", .str timestamp)]

/-- The object `{ produce, freshness, expectedLifespan, timestamp }`. -/
def produceRecord (produce freshness expectedLifespan timestamp : Str) : JsVal :=
  .obj [(js "produce", .str produce), (js "freshness", .str freshness),
        (js "expectedLifespan", .str expectedLifespan), (js "timestamp", .str timestamp)]

/-- The `for` loop of `parseTextToItems` over the lines after the header;
`items` is the array built so far. -/
def itemsLoop (timestamp : Str) : List Str → List JsVal → List JsVal
  | [], items => items
  | l :: rest, items =>
    if startsWith (trim l) [PIPE] && endsWith (trim l) [PIPE] then
      match columnsOf (trim l) with
      | itemName :: countStr :: _ =>
        itemsLoop timestamp rest
          (items ++ [itemRecord itemName (parseIntOr1 countStr) timestamp])
      | _ => itemsLoop timestamp rest items
    else itemsLoop timestamp rest items

/-- The skip test of `parseTextToProduce`: the row is kept when this holds. -/
def keepProduce (produce : Str) : Bool :=
  produce != js "N/A" && produce != js "-" &&
  !includes (toLowerCase produce) (js "packaged")

/-- The `for` loop of `parseTextToProduce` over the lines after the header. -/
def produceLoop (timestamp : Str) : List Str → List JsVal → List JsVal
  | [], produceItems => produceItems
  | l :: rest, produceItems =>
    if startsWith (trim l) [PIPE] && endsWith (trim l) [PIPE] then
      match columnsOf (trim l) with
      | produce :: freshness :: expectedLifespan :: _ =>
        if keepProduce produce then
          produceLoop timestamp rest
            (produceItems ++ [produceRecord produce freshness expectedLifespan timestamp])
        else produceLoop timestamp rest produceItems
      | _ => produceLoop timestamp rest produceItems
    else produceLoop timestamp rest produceItems

/-- The table tier of `parseTextToItems`; `now` is `new Date().toISOString()`. -/
def itemsTable (now text : Str) : JsVal :=
  if findIndex isItemsHeader (nonBlankLines text) = -1 then .arr []
  else
    .arr (itemsLoop now
      ((nonBlankLines text).drop (findIndex isItemsHeader (nonBlankLines text) + 1).toNat) [])

/-- The table tier of `parseTextToProduce`. -/
def produceTable (now text : Str) : JsVal :=
  if findIndex isProduceHeader (nonBlankLines text) = -1 then .arr []
  else
    .arr (produceLoop now
      ((nonBlankLines text).drop (findIndex isProduceHeader (nonBlankLines text) + 1).toNat) [])

/-- The body of the outer `try` of `parseTextToItems`. -/
def parseTextToItemsTry (now text : Str) : Except JsError JsVal :=
  match jsonTier text with
  | some v => .ok v
  | none => .ok (itemsTable now text)

/-- `parseTextToItems(text)`, called at the instant `now`: the outer `catch`
returns `[]`. -/
def parseTextToItems (now text : Str) : Except JsError JsVal :=
  match parseTextToItemsTry now text with
  | .ok v => .ok v
  | .error _ => .ok (.arr [])

/-- The body of the outer `try` of `parseTextToProduce`. -/
def parseTextToProduceTry (now text : Str) : Except JsError JsVal :=
  match jsonTier text with
  | some v => .ok v
  | none => .ok (produceTable now text)

/-- `parseTextToProduce(text)`, called at the instant `now`. -/
def parseTextToProduce (now text : Str) : Except JsError JsVal :=
  match parseTextToProduceTry now text with
  | .ok v => .ok v
  | .error _ => .ok (.arr [])

/-! ## Backend: the "Parse JSON" step of `detectItems` / `detectFreshness` -/

/-- The global replacement `s.replace(/```json|```/g, "")`, scanning left to
right; `skip` is the number of code units of the current match still to drop. -/
def stripFences : Nat → Str → Str
  | _, [] => []
  | skip + 1, _ :: s => stripFences skip s
  | 0, c :: s =>
    if startsWith (c :: s) (js "```json") then stripFences 6 s
    else if startsWith (c :: s) (js "```") then stripFences 2 s
    else c :: stripFences 0 s

/-- The candidate `jsonString` before cleaning: the slice from the first `[`
to the last `]` when the text has both, the text otherwise. -/
def sliceCandidate (text : Str) : Str :=
  if includes text [LBRACKET] && includes text [RBRACKET] then
    substring text (indexOf LBRACKET text) (lastIndexOf RBRACKET text + 1)
  else text

/-- The cleaned `jsonString` handed to `JSON.parse`. -/
def cleanJsonString (text : Str) : Str := trim (stripFences 0 (sliceCandidate text))

/-- An HTTP answer: status code and JSON body. -/
structure Response where
  status : Nat
  body : JsVal

/-- The answer `res.json({ message: "Success", result })` (status 200). -/
def successResponse (result : JsVal) : Response :=
  { status := 200, body := .obj [(js "message", .str (js "Success")), (js "result", result)] }

/-- The inner `try` block of `detectItems`: `parsedResponse.length` throws a
`TypeError` when `JSON.parse` gave `null`. -/
def detectItemsTry (text : Str) : Except JsError Response :=
  match jsonParse (cleanJsonString text) with
  | .error e => .error e
  | .ok .null => .error .TypeError
  | .ok parsedResponse => .ok (successResponse parsedResponse)

/-- The "Parse JSON" step of `detectItems` on the oracle text: the `catch`
answers with the original text. -/
def detectItemsParse (text : Str) : Response :=
  match detectItemsTry text with
  | .ok response => response
  | .error _ => successResponse (.str text)

/-- The inner `try` block of `detectFreshness`. -/
def detectFreshnessTry (text : Str) : Except JsError Response :=
  match jsonParse (cleanJsonString text) with
  | .error e => .error e
  | .ok .null => .error .TypeError
  | .ok parsedResponse => .ok (successResponse parsedResponse)

/-- The "Parse JSON" step of `detectFreshness` on the oracle text. -/
def detectFreshnessParse (text : Str) : Response :=
  match detectFreshnessTry text with
  | .ok response => response
  | .error _ => successResponse (.str text)

/-! ## Backend: `detectItems` / `detectFreshness` as a whole -/

/-- The uploaded file `req.file` as multer describes it. -/
structure Upload where
  path : Str
  originalname : Str
  mimetype : Str
  size : Nat

/-- What the calls of a request handler into its environment give: whether
`fs.existsSync(imagePath)` holds, the size `fs.statSync(imagePath).size` (or the
message of the error it throws), and the text of the oracle's answer (or the
message of the error thrown while reading the image or calling the oracle). -/
structure Env where
  fileExists : Bool
  statSize : Except Str Nat
  oracle : Except Str Str

/-- The answer `res.status(status).json({ message: "Error", error })`. -/
def errorResponse (status : Nat) (error : Str) : Response :=
  { status := status, body := .obj [(js "message", .str (js "Error")), (js "error", .str error)] }

/-- `detectItems(req, res)`: `file` is `req.file` (`none` for `undefined`). -/
def detectItems (file : Option Upload) (env : Env) : Response :=
  match file with
  | none => { status := 400, body := .obj [(js "error", .str (js "No image uploaded"))] }
  | some _ =>
    if !env.fileExists then
      errorResponse 400 (js "Uploaded file not found on server. Please try again.")
    else
      match env.statSize with
      | .error message => errorResponse 500 (js "Server error: " ++ message)
      | .ok size =>
        if size = 0 then
          errorResponse 400 (js "Uploaded file is empty. Please upload a valid image.")
        else
          match env.oracle with
          | .error message => errorResponse 500 (js "API Error: " ++ message)
          | .ok text => detectItemsParse text

/-- `detectFreshness(req, res)`. -/
def detectFreshness (file : Option Upload) (env : Env) : Response :=
  match file with
  | none => { status := 400, body := .obj [(js "error", .str (js "No image uploaded"))] }
  | some _ =>
    if !env.fileExists then
      errorResponse 400 (js "Uploaded file not found on server. Please try again.")
    else
      match env.statSize with
      | .error message => errorResponse 500 (js "Server error: " ++ message)
      | .ok size =>
        if size = 0 then
          errorResponse 400 (js "Uploaded file is empty. Please upload a valid image.")
        else
          match env.oracle with
          | .error message => errorResponse 500 (js "API Error: " ++ message)
          | .ok text => detectFreshnessParse text

/-! ## Backend: upload filter and upload error handler (server.js) -/

/-- An error handed to `handleUploadErrors`: a `multer.MulterError` with its
`code` and `message`, or any other error with its `message`. -/
inductive UploadError where
  | multer (code message : Str)
  | other (message : Str)

/-- Case folding of the pattern flag `i` (no `u` flag) on one code unit, as far
as ASCII letters go: no code unit above 127 folds to an ASCII letter. -/
def foldUnit (c : Nat) : Nat := if 97 ≤ c ∧ c ≤ 122 then c - 32 else c

/-- The test `file.originalname.match(/\.(jpg|jpeg|png|gif|webp)$/i)`: whether
the pattern matches. -/
def imageNamePattern (originalname : Str) : Bool :=
  endsWith (originalname.map foldUnit) (js ".JPG") ||
  endsWith (originalname.map foldUnit) (js ".JPEG") ||
  endsWith (originalname.map foldUnit) (js ".PNG") ||
  endsWith (originalname.map foldUnit) (js ".GIF") ||
  endsWith (originalname.map foldUnit) (js ".WEBP")

/-- The `fileFilter` of the multer upload: the error given to the callback, or
the acceptance flag. -/
def fileFilter (file : Upload) : Except UploadError Bool :=
  if !imageNamePattern file.originalname then
    .error (.other (js "Only image files are allowed!"))
  else .ok true

/-- `handleUploadErrors(err, req, res, next)`: the answer sent, or `none` when
`next()` is called. -/
def handleUploadErrors (err : Option UploadError) : Option Response :=
  match err with
  | some (.multer code message) =>
    if code = js "LIMIT_FILE_SIZE" then
      some { status := 413,
             body := .obj [(js "error", .str (js "File too large. Maximum size is 10MB."))] }
    else
      some { status := 400, body := .obj [(js "error", .str (js "Upload error: " ++ message))] }
  | some (.other message) =>
    some { status := 400, body := .obj [(js "error", .str message)] }
  | none => none

/-- The upload filter followed by the error handler of the route: the answer
sent for a rejected file, `none` for a file that passes. -/
def uploadFilterAnswer (file : Upload) : Option Response :=
  match fileFilter file with
  | .error err => handleUploadErrors (some err)
  | .ok _ => none

/-! ## Frontend: severity of a lifespan (FreshnessTable.jsx) -/

/-- The match `lifespan.match(/\d+/)?.[0]`: the first run of decimal digits,
`none` for `undefined`. -/
def firstDigitRun : Str → Option Str
  | [] => none
  | c :: s => if isDigit c then some ((c :: s).takeWhile isDigit) else firstDigitRun s

/-- A Number as `parseInt` returns it: `none` stands for `NaN`. -/
def parseIntNumber (s : Str) : Option JsNum :=
  match parseInt s with
  | none => none
  | some (neg, m) => some (toNumber neg m)

/-- The comparison `n <= k` of a Number with a small integer; `NaN` compares
false. -/
def numLe (n : Option JsNum) (k : Int) : Bool :=
  match n with
  | some (.int z) => decide (z ≤ k)
  | some (.infinity neg) => neg
  | _ => false

/-- The value `parseInt(lifespan.match(/\d+/)?.[0] || "0")`. -/
def lifespanDays (lifespan : Str) : Option JsNum :=
  match firstDigitRun lifespan with
  | some run => parseIntNumber run
  | none => parseIntNumber (js "0")

/-- The test `!lifespan` for a lifespan that is a string, `undefined` or `null`
(`none`): it holds for `none` and for the empty string. -/
def isAbsent (lifespan : Option Str) : Bool :=
  match lifespan with
  | none => true
  | some s => s.isEmpty

/-- `getFreshnessBadgeColors(lifespan)`. -/
def getFreshnessBadgeColors (darkMode : Bool) (lifespan : Option Str) : Str :=
  if isAbsent lifespan then
    (if darkMode then js "bg-gray-700 text-gray-300" else js "bg-gray-100 text-gray-800")
  else if numLe (lifespanDays (lifespan.getD [])) 1 then
    (if darkMode then js "bg-red-900 text-red-200" else js "bg-red-100 text-red-800")
  else if numLe (lifespanDays (lifespan.getD [])) 3 then
    (if darkMode then js "bg-yellow-900 text-yellow-200" else js "bg-yellow-100 text-yellow-800")
  else
    (if darkMode then js "bg-green-900 text-green-200" else js "bg-green-100 text-green-800")

/-- `getRowGradient(lifespan)`. -/
def getRowGradient (darkMode : Bool) (lifespan : Option Str) : Str :=
  if isAbsent lifespan then js ""
  else if numLe (lifespanDays (lifespan.getD [])) 1 then
    (if darkMode then js "bg-gradient-to-r from-transparent to-red-950/10"
     else js "bg-gradient-to-r from-transparent to-red-50")
  else if numLe (lifespanDays (lifespan.getD [])) 3 then
    (if darkMode then js "bg-gradient-to-r from-transparent to-yellow-950/10"
     else js "bg-gradient-to-r from-transparent to-yellow-50")
  else
    (if darkMode then js "bg-gradient-to-r from-transparent to-green-950/10"
     else js "bg-gradient-to-r from-transparent to-green-50")

/-- `getFreshnessEmoji(lifespan)`. The four literals are kept as the source
file holds them: the UTF-8 bytes of the magnifier, warning sign, hourglass and
check mark emoji read as Mac Roman text. -/
def getFreshnessEmoji (lifespan : Option Str) : Str :=
  if isAbsent lifespan then js "\uF8FFüîç"
  else if numLe (lifespanDays (lifespan.getD [])) 1 then
    js "‚ö†Ô∏è"
  else if numLe (lifespanDays (lifespan.getD [])) 3 then js "‚è≥"
  else js "‚úÖ"

/-! ## Backend: the global error handler (server.js) -/

/-- The test `err.message && (err.message.includes("API key") ||
err.message.includes("authentication") || err.message.includes("403"))`;
`message` is `err.message`, `none` for `undefined`. The empty string is falsy. -/
def isApiKeyError (message : Option Str) : Bool :=
  match message with
  | none => false
  | some m =>
    !m.isEmpty &&
      (includes m (js "API key") || includes m (js "authentication") || includes m (js "403"))

/-- The value `err.message || "Internal server error"`. -/
def messageOrDefault (message : Option Str) : Str :=
  match message with
  | none => js "Internal server error"
  | some m => if m.isEmpty then js "Internal server error" else m

/-- The global error handler `app.use((err, req, res, next) => ...)`. -/
def globalErrorHandler (message : Option Str) : Response :=
  if isApiKeyError message then
    { status := 401,
      body := .obj [(js "error", .str (js "API key issue. Please check your Gemini API key.")),
                    (js "details", .str (message.getD [])),
                    (js "status", .str (js "error"))] }
  else
    { status := 500,
      body := .obj [(js "error", .str (messageOrDefault message)),
                    (js "status", .str (js "error"))] }

/-! ## Notions of the specification -/

/-- ASCII lower case of a code unit. -/
def asciiLower (c : Nat) : Nat := if 65 ≤ c ∧ c ≤ 90 then c + 32 else c

/-- The string `s` contains `word` written in some letter case. -/
def ContainsAnyCase (s word : Str) : Prop :=
  ∃ pre w post, s = pre ++ w ++ post ∧ w.map asciiLower = word

/-- An optional sign: nothing, `+` or `-`. -/
def IsSign (sign : Str) : Prop := sign = [] ∨ sign = [43] ∨ sign = [45]

/-- A non-empty run of decimal digits. -/
def IsDigits (ds : Str) : Prop := ds ≠ [] ∧ ∀ d ∈ ds, isDigit d = true

/-- The integer with sign text `sign` and magnitude `v`. -/
def signedValue (sign : Str) (v : Nat) : Int := if sign = [45] then -(v : Int) else (v : Int)

/-- The number `n` written in decimal (for `n > 0`: no leading zero). -/
def decimal (n : Nat) : Str := ((Nat.digits 10 n).reverse).map (fun d => d + 48)

/-- The Number is not zero (and, being a Number of the model, not `NaN`). -/
def NonZero : JsNum → Prop
  | .int z => z ≠ 0
  | .infinity _ => True
  | .literal _ => False

/-- The Number is at least 1: a positive integer or `Infinity`. -/
def AtLeastOne : JsNum → Prop
  | .int z => 1 ≤ z
  | .infinity neg => neg = false
  | .literal _ => False

/-- The record `v` with its `timestamp` property set to `ts`. -/
def restamp (ts : Str) : JsVal → JsVal
  | .obj fields => .obj (setField (js "timestamp") (.str ts) fields)
  | v => v

/-- The name ends with `.jpg`, `.jpeg`, `.png`, `.gif` or `.webp`, in any
letter case. -/
def HasImageExtension (name : Str) : Prop :=
  ∃ stem ext, name = stem ++ 46 :: ext ∧
    ext.map asciiLower ∈ [js "jpg", js "jpeg", js "png", js "gif", js "webp"]

/-- The MIME type is an image type (`image/...`). -/
def isImageMime (mimetype : Str) : Bool := startsWith mimetype (js "image/")

/-- The record a line of a produce table yields, following the reference
definition: the trimmed line starts and ends with `|`, has at least 3
non-empty trimmed segments and a name that is not skipped. -/
def produceRowRef (timestamp line : Str) : Option JsVal :=
  if (trim line).head? = some PIPE ∧ (trim line).getLast? = some PIPE then
    match ((split PIPE (trim line)).map trim).filter (fun seg => decide (seg ≠ [])) with
    | produce :: freshness :: expectedLifespan :: _ =>
      if produce = js "N/A" ∨ produce = js "-" ∨
          includes (toLowerCase produce) (js "packaged") = true then none
      else some (produceRecord produce freshness expectedLifespan timestamp)
    | _ => none
  else none

/-- The reference definition of the table tier of `parseTextToProduce`: the
records of the lines strictly after the first header line, in order. -/
def produceTableRef (now text : Str) : JsVal :=
  .arr ((((split NEWLINE text).filter (fun line => decide (trim line ≠ []))).dropWhile
    (fun line => !(includes line (js "Produce") || includes line (js "Freshness") ||
      includes line (js "Expected Life") || includes line (js "Lifespan")))).tail.filterMap
    (produceRowRef now))

/-- The three severity buckets of a lifespan. -/
inductive Bucket where
  | severe
  | intermediate
  | fresh
  deriving DecidableEq, Repr

/-- The bucket of a number of days: severe up to 1, intermediate for 2 and 3,
fresh above 3. -/
def bucketOf (days : Nat) : Bucket :=
  if days ≤ 1 then .severe else if days ≤ 3 then .intermediate else .fresh

/-- A code unit is a decimal digit, `0` to `9`. -/
def IsDecimalDigit (c : Nat) : Prop := 48 ≤ c ∧ c ≤ 57

instance (c : Nat) : Decidable (IsDecimalDigit c) :=
  inferInstanceAs (Decidable (48 ≤ c ∧ c ≤ 57))

/-- The value of a run of decimal digits read in base ten, most significant
digit first; 0 for the empty run. -/
def decimalValue (run : Str) : Nat := Nat.ofDigits 10 (run.reverse.map (fun c => c - 48))

/-- The first run of decimal digits of a string: the digits that follow its
longest prefix without a digit; empty when the string has no digit. -/
def firstRun (s : Str) : Str :=
  (s.dropWhile (fun c => decide (¬ IsDecimalDigit c))).takeWhile
    (fun c => decide (IsDecimalDigit c))

/-- The days of a lifespan: the value of its first run of decimal digits, 0
when it has no digit. -/
def daysOf (lifespan : Str) : Nat := decimalValue (firstRun lifespan)

/-- The badge classes of a bucket: red, yellow, green. -/
def badgeOf (darkMode : Bool) : Bucket → Str
  | .severe => if darkMode then js "bg-red-900 text-red-200" else js "bg-red-100 text-red-800"
  | .intermediate =>
    if darkMode then js "bg-yellow-900 text-yellow-200" else js "bg-yellow-100 text-yellow-800"
  | .fresh =>
    if darkMode then js "bg-green-900 text-green-200" else js "bg-green-100 text-green-800"

/-- The row gradient of a bucket: red, yellow, green. -/
def gradientOf (darkMode : Bool) : Bucket → Str
  | .severe =>
    if darkMode then js "bg-gradient-to-r from-transparent to-red-950/10"
    else js "bg-gradient-to-r from-transparent to-red-50"
  | .intermediate =>
    if darkMode then js "bg-gradient-to-r from-transparent to-yellow-950/10"
    else js "bg-gradient-to-r from-transparent to-yellow-50"
  | .fresh =>
    if darkMode then js "bg-gradient-to-r from-transparent to-green-950/10"
    else js "bg-gradient-to-r from-transparent to-green-50"

/-- The emoji of a bucket: the warning sign (U+26A0 with the variation selector
U+FE0F), the hourglass (U+23F3), the check mark (U+2705). -/
def emojiOf : Bucket → Str
  | .severe => [0x26A0, 0xFE0F]
  | .intermediate => [0x23F3]
  | .fresh => [0x2705]

/-- The backend's fence cleaning of a candidate string:
`s.replace(/```json|```/g, "").trim()`. -/
def cleanFences (s : Str) : Str := trim (stripFences 0 s)

/-- A text field of a table record is clean: non-empty, no white space at
either end, no `|`. -/
def CleanField (s : Str) : Prop := s ≠ [] ∧ trim s = s ∧ PIPE ∉ s

/-- The line consists only of `|`, `-`, `:` and spaces. -/
def IsSeparatorLine (l : Str) : Prop := ∀ c ∈ l, c = PIPE ∨ c = 45 ∨ c = 58 ∨ c = 32

/-! ## Lemmas on `JSON.parse` -/

theorem parseElements_isArr : ∀ (fuel : Nat) (s : Str) (acc : List JsVal) (v : JsVal) (rest : Str),
    parseElements fuel s acc = some (v, rest) → ∃ xs, v = .arr xs := by
  intro fuel
  induction fuel with
  | zero => intro s acc v rest h; simp [parseElements] at h
  | succ n ih =>
    intro s acc v rest h
    rw [parseElements] at h
    split at h
    · simp at h
    · split at h
      · simp at h
      · split at h
        · exact ih _ _ _ _ h
        · split at h
          · simp only [Option.some.injEq, Prod.mk.injEq] at h
            exact ⟨_, h.1.symm⟩
          · simp at h

theorem parseValue_bracket_isArr (fuel : Nat) (r : Str) (v : JsVal) (rest : Str)
    (h : parseValue fuel (LBRACKET :: r) = some (v, rest)) : ∃ xs, v = .arr xs := by
  cases fuel with
  | zero => simp [parseValue] at h
  | succ n =>
    rw [parseValue] at h
    simp only [LBRACKET, if_true] at h
    split at h
    · simp at h
    · split at h
      · simp only [Option.some.injEq, Prod.mk.injEq] at h
        exact ⟨_, h.1.symm⟩
      · exact parseElements_isArr _ _ _ _ _ h

/-! ## Lemmas on lists of code units -/

theorem dropWhile_append_cons (p : Nat → Bool) (b : Nat) (hb : p b = false) :
    ∀ (xs t : List Nat), (xs ++ b :: t).dropWhile p = xs.dropWhile p ++ b :: t := by
  intro xs t
  induction xs with
  | nil => simp [List.dropWhile, hb]
  | cons x xs ih =>
    by_cases hx : p x = true
    · simp [List.dropWhile, hx, ih]
    · simp [List.dropWhile, hx]

theorem rdrop_cons (p : Nat → Bool) (a : Nat) (ha : p a = false) (r : List Nat) :
    ((a :: r).reverse.dropWhile p).reverse = a :: (r.reverse.dropWhile p).reverse := by
  rw [List.reverse_cons, dropWhile_append_cons p a ha]
  simp

theorem jsonTrim_cons (a : Nat) (ha : isJsonWs a = false) (r : Str) :
    jsonTrim (a :: r) = a :: (r.reverse.dropWhile isJsonWs).reverse := by
  unfold jsonTrim skipWs
  rw [show (a :: r).dropWhile isJsonWs = a :: r by simp [List.dropWhile, ha]]
  exact rdrop_cons _ _ ha _

theorem matchJsonArray_head : ∀ (s m : Str), matchJsonArray s = some m →
    ∃ r, m = LBRACKET :: r := by
  intro s
  induction s with
  | nil => intro m h; simp [matchJsonArray] at h
  | cons c s ih =>
    intro m h
    rw [matchJsonArray] at h
    split at h
    · rename_i hc
      split at h
      · simp only [Option.some.injEq] at h
        exact ⟨_, by rw [← h, hc]⟩
      · exact ih m h
    · exact ih m h

theorem jsonParse_bracket_isArr (r : Str) (v : JsVal)
    (h : jsonParse (LBRACKET :: r) = .ok v) : ∃ xs, v = .arr xs := by
  unfold jsonParse at h
  rw [jsonTrim_cons LBRACKET (by decide)] at h
  split at h
  · rename_i v1 hp
    simp only [Except.ok.injEq] at h
    subst h
    exact parseValue_bracket_isArr _ _ _ _ hp
  · simp at h

theorem jsonTier_isArr (text : Str) (v : JsVal) (h : jsonTier text = some v) :
    ∃ xs, v = .arr xs := by
  unfold jsonTier at h
  split at h
  · simp at h
  · rename_i m hm
    obtain ⟨r, rfl⟩ := matchJsonArray_head _ _ hm
    split at h
    · rename_i v1 hv
      simp only [Option.some.injEq] at h
      subst h
      exact jsonParse_bracket_isArr _ _ hv
    · simp at h

theorem parseTextToItems_json (now text : Str) (v : JsVal) (h : jsonTier text = some v) :
    parseTextToItems now text = .ok v := by
  simp [parseTextToItems, parseTextToItemsTry, h]

theorem parseTextToItems_table (now text : Str) (h : jsonTier text = none) :
    parseTextToItems now text = .ok (itemsTable now text) := by
  simp [parseTextToItems, parseTextToItemsTry, h]

theorem parseTextToProduce_json (now text : Str) (v : JsVal) (h : jsonTier text = some v) :
    parseTextToProduce now text = .ok v := by
  simp [parseTextToProduce, parseTextToProduceTry, h]

theorem parseTextToProduce_table (now text : Str) (h : jsonTier text = none) :
    parseTextToProduce now text = .ok (produceTable now text) := by
  simp [parseTextToProduce, parseTextToProduceTry, h]

theorem itemsTable_isArr (now text : Str) : ∃ items, itemsTable now text = .arr items := by
  unfold itemsTable
  split
  · exact ⟨[], rfl⟩
  · exact ⟨_, rfl⟩

theorem produceTable_isArr (now text : Str) : ∃ items, produceTable now text = .arr items := by
  unfold produceTable
  split
  · exact ⟨[], rfl⟩
  · exact ⟨_, rfl⟩

/-! ## Lemmas on the string built-ins -/

theorem startsWith_append (w : Str) : ∀ (b : Str), startsWith (w ++ b) w = true := by
  induction w with
  | nil => intro b; cases b <;> rfl
  | cons c w ih => intro b; simp [startsWith, ih]

theorem includes_of_startsWith (s p : Str) (h : startsWith s p = true) :
    includes s p = true := by
  cases s with
  | nil => simpa [includes] using h
  | cons c s => simp [includes, h]

theorem includes_append_left (p : Str) : ∀ (a s : Str), includes s p = true →
    includes (a ++ s) p = true := by
  intro a
  induction a with
  | nil => intro s h; simpa using h
  | cons c a ih => intro s h; simp [includes, ih s h]

theorem includes_mid (a w b : Str) : includes (a ++ w ++ b) w = true := by
  rw [List.append_assoc]
  exact includes_append_left _ _ _ (includes_of_startsWith _ _ (startsWith_append _ _))

theorem toLowerCase_append (a b : Str) :
    toLowerCase (a ++ b) = toLowerCase a ++ toLowerCase b := by
  simp [toLowerCase, List.flatMap_append]

theorem toLowerCase_of_letters : ∀ (w : Str),
    (∀ c ∈ w.map asciiLower, 97 ≤ c ∧ c ≤ 122) → toLowerCase w = w.map asciiLower := by
  intro w
  induction w with
  | nil => intro _; rfl
  | cons c w ih =>
    intro h
    have hc : 97 ≤ asciiLower c ∧ asciiLower c ≤ 122 := h _ (by simp)
    have hw : toLowerCase w = w.map asciiLower := ih (fun d hd => h d (by simp at hd ⊢; exact Or.inr hd))
    have h1 : lowerUnit c = [asciiLower c] := by
      unfold lowerUnit asciiLower
      unfold asciiLower at hc
      by_cases hu : 65 ≤ c ∧ c ≤ 90
      · simp [hu]
      · rw [if_neg hu] at hc
        rw [if_neg hu, if_neg hu, if_neg (by omega), if_neg (by omega)]
    show (c :: w).flatMap lowerUnit = _
    rw [List.flatMap_cons, h1]
    show [asciiLower c] ++ toLowerCase w = _
    rw [hw]
    rfl

theorem includes_lower_of_containsAnyCase (s : Str) (h : ContainsAnyCase s (js "packaged")) :
    includes (toLowerCase s) (js "packaged") = true := by
  obtain ⟨pre, w, post, rfl, hw⟩ := h
  rw [toLowerCase_append, toLowerCase_append, toLowerCase_of_letters w, hw]
  · exact includes_mid _ _ _
  · rw [hw]; decide

theorem matchJsonArray_none : ∀ (s : Str), LBRACKET ∉ s → matchJsonArray s = none := by
  intro s
  induction s with
  | nil => intro _; rfl
  | cons c s ih =>
    intro h
    simp only [List.mem_cons, not_or] at h
    rw [matchJsonArray, if_neg (fun hc => h.1 hc.symm)]
    exact ih h.2

theorem jsonTier_none (text : Str) (h : LBRACKET ∉ text) : jsonTier text = none := by
  simp [jsonTier, matchJsonArray_none text h]

theorem findIndex_none (p : Str → Bool) : ∀ (ls : List Str), (∀ l ∈ ls, p l = false) →
    findIndex p ls = -1 := by
  intro ls
  induction ls with
  | nil => intro _; rfl
  | cons l ls ih =>
    intro h
    have h1 : p l = false := h l (by simp)
    have h2 := ih (fun x hx => h x (by simp [hx]))
    simp [findIndex, h1, h2]

theorem mem_nonBlankLines (text line : Str) (h : line ∈ nonBlankLines text) :
    line ∈ split NEWLINE text := by
  unfold nonBlankLines at h
  exact (List.mem_filter.mp h).1

theorem matchRest_none : ∀ (s : Str), RBRACKET ∉ s → matchRest s = none := by
  intro s
  induction s with
  | nil => intro _; rfl
  | cons c s ih =>
    intro h
    simp only [List.mem_cons, not_or] at h
    have hc : ¬ c = RBRACKET := fun e => h.1 e.symm
    rw [matchRest, ih h.2]
    simp [hc]

theorem matchRest_append : ∀ (mid post : Str), RBRACKET ∉ post →
    matchRest (mid ++ RBRACKET :: post) = some (mid ++ [RBRACKET]) := by
  intro mid
  induction mid with
  | nil =>
    intro post h
    simp [matchRest, matchRest_none post h]
  | cons c mid ih =>
    intro post h
    rw [List.cons_append, matchRest, ih post h]
    rfl

theorem matchJsonArray_slice : ∀ (pre mid post : Str), LBRACKET ∉ pre → RBRACKET ∉ post →
    matchJsonArray (pre ++ LBRACKET :: (mid ++ RBRACKET :: post))
      = some (LBRACKET :: (mid ++ [RBRACKET])) := by
  intro pre
  induction pre with
  | nil =>
    intro mid post _ h
    simp [matchJsonArray, matchRest_append mid post h]
  | cons c pre ih =>
    intro mid post h1 h2
    simp only [List.mem_cons, not_or] at h1
    rw [List.cons_append, matchJsonArray, if_neg (fun hc => h1.1 hc.symm)]
    exact ih mid post h1.2 h2

theorem includes_unit (c : Nat) : ∀ (s : Str), includes s [c] = decide (c ∈ s) := by
  intro s
  induction s with
  | nil => rfl
  | cons d s ih =>
    rw [includes, ih]
    by_cases h : d = c
    · subst h
      cases s <;> simp [startsWith]
    · have h2 : ¬ c = d := fun e => h e.symm
      cases s <;> simp [startsWith, h, h2]

theorem indexOf_nonneg_or (c : Nat) : ∀ (s : Str), indexOf c s = -1 ∨ 0 ≤ indexOf c s := by
  intro s
  induction s with
  | nil => left; rfl
  | cons d s ih =>
    rw [indexOf]
    by_cases h : d = c
    · right; simp [h]
    · rw [if_neg h]
      rcases ih with h1 | h1
      · left; simp [h1]
      · right
        rw [if_neg (by omega)]
        omega

theorem indexOf_append (c : Nat) : ∀ (pre t : Str), c ∉ pre →
    indexOf c (pre ++ c :: t) = (pre.length : Int) := by
  intro pre
  induction pre with
  | nil => intro t _; simp [indexOf]
  | cons d pre ih =>
    intro t h
    simp only [List.mem_cons, not_or] at h
    have hd : ¬ d = c := fun e => h.1 e.symm
    rw [List.cons_append, indexOf, if_neg hd, ih t h.2]
    rw [if_neg (by omega)]
    simp

theorem lastIndexOf_none (c : Nat) : ∀ (s : Str), c ∉ s → lastIndexOf c s = -1 := by
  intro s
  induction s with
  | nil => intro _; rfl
  | cons d s ih =>
    intro h
    simp only [List.mem_cons, not_or] at h
    have hd : ¬ d = c := fun e => h.1 e.symm
    rw [lastIndexOf, ih h.2]
    simp [hd]

theorem lastIndexOf_append (c : Nat) : ∀ (s post : Str), c ∉ post →
    lastIndexOf c (s ++ c :: post) = (s.length : Int) := by
  intro s
  induction s with
  | nil =>
    intro post h
    simp [lastIndexOf, lastIndexOf_none c post h]
  | cons d s ih =>
    intro post h
    rw [List.cons_append, lastIndexOf, ih post h]
    rw [if_neg (by omega)]
    simp

theorem substring_slice (pre a post : Str) :
    substring (pre ++ (a ++ post)) (pre.length : Int) ((pre.length + a.length : Nat) : Int) = a := by
  unfold substring
  have h1 : ((pre.length : Nat) : Int).toNat = pre.length := by simp
  have h2 : ((pre.length + a.length : Nat) : Int).toNat = pre.length + a.length :=
    Int.toNat_ofNat _
  rw [h1, h2, Nat.min_eq_left (by omega), Nat.max_eq_right (by omega)]
  simp

theorem sliceCandidate_slice (pre mid post : Str) (h1 : LBRACKET ∉ pre) (h2 : RBRACKET ∉ post) :
    sliceCandidate (pre ++ LBRACKET :: (mid ++ RBRACKET :: post))
      = LBRACKET :: (mid ++ [RBRACKET]) := by
  unfold sliceCandidate
  have hi : includes (pre ++ LBRACKET :: (mid ++ RBRACKET :: post)) [LBRACKET] = true := by
    rw [includes_unit]; simp
  have hj : includes (pre ++ LBRACKET :: (mid ++ RBRACKET :: post)) [RBRACKET] = true := by
    rw [includes_unit]; simp
  rw [hi, hj]
  simp only [Bool.and_self, if_true]
  rw [indexOf_append LBRACKET pre _ h1]
  have e1 : pre ++ LBRACKET :: (mid ++ RBRACKET :: post)
      = (pre ++ LBRACKET :: mid) ++ RBRACKET :: post := by simp
  rw [e1, lastIndexOf_append RBRACKET _ post h2]
  have e2 : (pre ++ LBRACKET :: mid) ++ RBRACKET :: post
      = pre ++ ((LBRACKET :: (mid ++ [RBRACKET])) ++ post) := by simp
  have e3 : (((pre ++ LBRACKET :: mid).length : Nat) : Int) + 1
      = ((pre.length + (LBRACKET :: (mid ++ [RBRACKET])).length : Nat) : Int) := by
    simp; omega
  rw [e2, e3]
  exact substring_slice pre _ post

theorem bracketed_of_head_last (a : Str) (h1 : a.head? = some LBRACKET)
    (h2 : a.getLast? = some RBRACKET) : ∃ mid, a = LBRACKET :: (mid ++ [RBRACKET]) := by
  cases a with
  | nil => simp at h1
  | cons c r =>
    simp only [List.head?_cons, Option.some.injEq] at h1
    subst h1
    rcases List.eq_nil_or_concat r with h | ⟨mid, d, h⟩
    · subst h
      simp [LBRACKET, RBRACKET] at h2
    · subst h
      rw [List.concat_eq_append] at h2 ⊢
      rw [← List.cons_append, List.getLast?_append] at h2
      simp at h2
      subst h2
      exact ⟨mid, rfl⟩

theorem itemsLoop_records (timestamp : Str) : ∀ (ls : List Str) (items : List JsVal),
    (∀ x ∈ items, ∃ itemName count, x = itemRecord itemName count timestamp) →
    ∀ x ∈ itemsLoop timestamp ls items, ∃ itemName count, x = itemRecord itemName count timestamp := by
  intro ls
  induction ls with
  | nil => intro items h; simpa [itemsLoop] using h
  | cons l rest ih =>
    intro items h
    rw [itemsLoop]
    split
    · split
      · apply ih
        intro x hx
        rcases List.mem_append.mp hx with hx | hx
        · exact h x hx
        · simp only [List.mem_singleton] at hx
          exact ⟨_, _, hx⟩
      · exact ih items h
    · exact ih items h

theorem produceLoop_records (timestamp : Str) : ∀ (ls : List Str) (items : List JsVal),
    (∀ x ∈ items, ∃ produce freshness expectedLifespan,
      x = produceRecord produce freshness expectedLifespan timestamp) →
    ∀ x ∈ produceLoop timestamp ls items, ∃ produce freshness expectedLifespan,
      x = produceRecord produce freshness expectedLifespan timestamp := by
  intro ls
  induction ls with
  | nil => intro items h; simpa [produceLoop] using h
  | cons l rest ih =>
    intro items h
    rw [produceLoop]
    split
    · split
      · split
        · apply ih
          intro x hx
          rcases List.mem_append.mp hx with hx | hx
          · exact h x hx
          · simp only [List.mem_singleton] at hx
            exact ⟨_, _, _, hx⟩
        · exact ih items h
      · exact ih items h
    · exact ih items h

theorem itemsTable_records (now text : Str) (items : List JsVal)
    (h : itemsTable now text = .arr items) :
    ∀ x ∈ items, ∃ itemName count, x = itemRecord itemName count now := by
  unfold itemsTable at h
  split at h
  · simp only [JsVal.arr.injEq] at h
    subst h
    simp
  · simp only [JsVal.arr.injEq] at h
    subst h
    exact itemsLoop_records now _ [] (by simp)

theorem produceTable_records (now text : Str) (items : List JsVal)
    (h : produceTable now text = .arr items) :
    ∀ x ∈ items, ∃ produce freshness expectedLifespan,
      x = produceRecord produce freshness expectedLifespan now := by
  unfold produceTable at h
  split at h
  · simp only [JsVal.arr.injEq] at h
    subst h
    simp
  · simp only [JsVal.arr.injEq] at h
    subst h
    exact produceLoop_records now _ [] (by simp)

theorem isDigit_not_ws (d : Nat) (h : isDigit d = true) : isWhiteSpace d = false := by
  simp only [isDigit, Bool.and_eq_true, decide_eq_true_eq] at h
  obtain ⟨h1, h2⟩ := h
  interval_cases d <;> rfl

theorem trimStart_cons (c : Nat) (r : Str) (h : isWhiteSpace c = false) :
    trimStart (c :: r) = c :: r := by
  simp [trimStart, List.dropWhile, h]

theorem takeWhile_append_stop (p : Nat → Bool) : ∀ (ds tail : Str),
    (∀ d ∈ ds, p d = true) → (∀ c, tail.head? = some c → p c = false) →
    (ds ++ tail).takeWhile p = ds := by
  intro ds
  induction ds with
  | nil =>
    intro tail _ ht
    cases tail with
    | nil => rfl
    | cons c t => simp [List.takeWhile, ht c rfl]
  | cons d ds ih =>
    intro tail hall ht
    have hd : p d = true := hall d (by simp)
    simp [List.takeWhile, hd, ih tail (fun x hx => hall x (by simp [hx])) ht]

theorem startsWith_cons_unit (c d : Nat) (r : Str) : startsWith (c :: r) [d] = decide (c = d) := by
  have h : (c == d) = decide (c = d) := by
    by_cases e : c = d <;> simp [e]
  cases r <;> simp [startsWith, h]

theorem parseIntDigits_digits (neg : Bool) (ds tail : Str) (hne : ds ≠ [])
    (hall : ∀ d ∈ ds, isDigit d = true)
    (ht : ∀ c, tail.head? = some c → isDigit c = false)
    (hx : startsWith (ds ++ tail) [48, 120] = false ∧ startsWith (ds ++ tail) [48, 88] = false) :
    parseIntDigits neg (ds ++ tail) = some (neg, digitsValue ds) := by
  unfold parseIntDigits
  rw [hx.1, hx.2, takeWhile_append_stop _ _ _ hall ht]
  simp [hne]

theorem parseIntDigits_nan (neg : Bool) (s : Str)
    (hs : ∀ d, s.head? = some d → isDigit d = false) : parseIntDigits neg s = none := by
  cases s with
  | nil => rfl
  | cons d t =>
    have hd : isDigit d = false := hs d rfl
    have hd48 : ¬ d = 48 := by intro e; subst e; simp [isDigit] at hd
    have a1 : startsWith (d :: t) [48, 120] = false := by cases t <;> simp [startsWith, hd48]
    have a2 : startsWith (d :: t) [48, 88] = false := by cases t <;> simp [startsWith, hd48]
    have a3 : (d :: t).takeWhile isDigit = [] := by simp [List.takeWhile, hd]
    unfold parseIntDigits
    rw [a1, a2, a3]
    simp

theorem parseInt_digits (ds tail : Str) (hne : ds ≠ []) (hall : ∀ d ∈ ds, isDigit d = true)
    (ht : ∀ c, tail.head? = some c → isDigit c = false)
    (hx : startsWith (ds ++ tail) [48, 120] = false ∧ startsWith (ds ++ tail) [48, 88] = false) :
    parseInt (ds ++ tail) = some (false, digitsValue ds) := by
  cases ds with
  | nil => exact absurd rfl hne
  | cons d ds =>
    have hd : isDigit d = true := hall d (by simp)
    have hd2 : 48 ≤ d ∧ d ≤ 57 := by simpa [isDigit] using hd
    have h1 : trimStart (d :: ds ++ tail) = d :: ds ++ tail :=
      trimStart_cons d _ (isDigit_not_ws d hd)
    have h2 : startsWith (d :: ds ++ tail) [45] = false := by
      rw [List.cons_append, startsWith_cons_unit]; simp; omega
    have h3 : startsWith (d :: ds ++ tail) [43] = false := by
      rw [List.cons_append, startsWith_cons_unit]; simp; omega
    unfold parseInt
    rw [h1, h2, h3]
    exact parseIntDigits_digits false _ _ hne hall ht hx

theorem parseInt_signed_digits (c : Nat) (hc : c = 43 ∨ c = 45) (ds tail : Str) (hne : ds ≠ [])
    (hall : ∀ d ∈ ds, isDigit d = true)
    (ht : ∀ c, tail.head? = some c → isDigit c = false)
    (hx : startsWith (ds ++ tail) [48, 120] = false ∧ startsWith (ds ++ tail) [48, 88] = false) :
    parseInt (c :: (ds ++ tail)) = some (decide (c = 45), digitsValue ds) := by
  have hws : isWhiteSpace c = false := by rcases hc with h | h <;> subst h <;> rfl
  have h1 : trimStart (c :: (ds ++ tail)) = c :: (ds ++ tail) := trimStart_cons c _ hws
  have h2 : startsWith (c :: (ds ++ tail)) [45] = decide (c = 45) := startsWith_cons_unit _ _ _
  have h3 : startsWith (c :: (ds ++ tail)) [43] = decide (c = 43) := startsWith_cons_unit _ _ _
  have h5 : (decide (c = 45) || decide (c = 43)) = true := by
    rcases hc with h | h <;> subst h <;> rfl
  unfold parseInt
  rw [h1, h2, h3, h5, if_pos rfl]
  exact parseIntDigits_digits _ _ _ hne hall ht hx

theorem parseInt_nan (c : Nat) (r : Str) (hws : isWhiteSpace c = false) (hc : isDigit c = false)
    (hr : c = 43 ∨ c = 45 → ∀ d, r.head? = some d → isDigit d = false) :
    parseInt (c :: r) = none := by
  have h1 : trimStart (c :: r) = c :: r := trimStart_cons c _ hws
  have h2 : startsWith (c :: r) [45] = decide (c = 45) := startsWith_cons_unit _ _ _
  have h3 : startsWith (c :: r) [43] = decide (c = 43) := startsWith_cons_unit _ _ _
  unfold parseInt
  rw [h1, h2, h3]
  by_cases hs : c = 43 ∨ c = 45
  · have h5 : (decide (c = 45) || decide (c = 43)) = true := by
      rcases hs with h | h <;> subst h <;> rfl
    rw [h5, if_pos rfl]
    exact parseIntDigits_nan _ _ (hr hs)
  · have h5 : (decide (c = 45) || decide (c = 43)) = false := by
      simp only [not_or] at hs
      simp [hs.1, hs.2]
    rw [h5, if_neg (by simp)]
    exact parseIntDigits_nan _ _ (by intro d hd; simp at hd; subst hd; exact hc)

theorem digitsValue_singleton (d : Nat) : digitsValue [d] = d - 48 := by
  simp [digitsValue]

theorem startsWith_nil (s : Str) : startsWith s [] = true := by
  cases s <;> rfl

theorem startsWith_two (d c a b : Nat) (t : Str) :
    startsWith (d :: c :: t) [a, b] = (decide (d = a) && decide (c = b)) := by
  have h1 : (d == a) = decide (d = a) := by by_cases e : d = a <;> simp [e]
  have h2 : (c == b) = decide (c = b) := by by_cases e : c = b <;> simp [e]
  simp only [startsWith, startsWith_nil, h1, h2, Bool.and_true]

theorem no_hex_start (e : Nat) (he : isDigit e = false) (d : Nat) (ds tail : Str)
    (hall : ∀ x ∈ ds, isDigit x = true) (hz : d = 48 → ds = [] → tail.head? ≠ some e) :
    startsWith (d :: (ds ++ tail)) [48, e] = false := by
  cases ds with
  | nil =>
    cases tail with
    | nil => simp [startsWith]
    | cons c t =>
      rw [List.nil_append, startsWith_two]
      by_cases hd : d = 48
      · have hc : ¬ c = e := fun h => hz hd rfl (by simp [h])
        simp [hc]
      · simp [hd]
  | cons x xs =>
    have hx : isDigit x = true := hall x (by simp)
    have hc : ¬ x = e := by
      intro h
      rw [h, he] at hx
      exact absurd hx (by simp)
    rw [List.cons_append, startsWith_two]
    simp [hc]

theorem toNumber_small (neg : Bool) (m : Nat) (h : m < 2 ^ 53) :
    toNumber neg m = .int (if neg then -(m : Int) else (m : Int)) := by
  unfold toNumber roundToDouble
  rw [if_pos h]

theorem parseIntOr1_signed (sign ds tail : Str) (hs : IsSign sign) (hd : IsDigits ds)
    (ht : ∀ c, tail.head? = some c → isDigit c = false)
    (hpos : 0 < digitsValue ds) (hlt : digitsValue ds < 2 ^ 53) :
    parseIntOr1 (sign ++ ds ++ tail) = .int (signedValue sign (digitsValue ds)) := by
  obtain ⟨hne, hall⟩ := hd
  have hx : startsWith (ds ++ tail) [48, 120] = false ∧ startsWith (ds ++ tail) [48, 88] = false := by
    cases ds with
    | nil => exact absurd rfl hne
    | cons d ds =>
      have hall2 : ∀ x ∈ ds, isDigit x = true := fun x hx => hall x (by simp [hx])
      have hz : ∀ e, d = 48 → ds = [] → tail.head? ≠ some e := by
        intro e h1 h2
        subst h1; subst h2
        rw [digitsValue_singleton] at hpos
        omega
      exact ⟨no_hex_start 120 (by decide) d ds tail hall2 (hz 120),
        no_hex_start 88 (by decide) d ds tail hall2 (hz 88)⟩
  have hp : parseInt (sign ++ ds ++ tail) = some (decide (sign = [45]), digitsValue ds) := by
    rcases hs with h | h | h
    · subst h
      simpa using parseInt_digits ds tail hne hall ht hx
    · subst h
      have := parseInt_signed_digits 43 (Or.inl rfl) ds tail hne hall ht hx
      simpa using this
    · subst h
      have := parseInt_signed_digits 45 (Or.inr rfl) ds tail hne hall ht hx
      simpa using this
  unfold parseIntOr1
  rw [hp]
  simp only []
  rw [if_neg (by omega), toNumber_small _ _ hlt]
  unfold signedValue
  by_cases h : sign = [45] <;> simp [h]

theorem parseIntOr1_zero (sign ds : Str) (hs : IsSign sign) (hd : IsDigits ds)
    (hzero : digitsValue ds = 0) : parseIntOr1 (sign ++ ds) = .int 1 := by
  obtain ⟨hne, hall⟩ := hd
  have ht : ∀ c, ([] : Str).head? = some c → isDigit c = false := by simp
  have hx : startsWith (ds ++ []) [48, 120] = false ∧ startsWith (ds ++ []) [48, 88] = false := by
    cases ds with
    | nil => exact absurd rfl hne
    | cons d ds =>
      have hall2 : ∀ x ∈ ds, isDigit x = true := fun x hx => hall x (by simp [hx])
      exact ⟨no_hex_start 120 (by decide) d ds [] hall2 (by simp),
        no_hex_start 88 (by decide) d ds [] hall2 (by simp)⟩
  have hp : parseInt (sign ++ ds) = some (decide (sign = [45]), digitsValue ds) := by
    rcases hs with h | h | h
    · subst h
      simpa using parseInt_digits ds [] hne hall ht hx
    · subst h
      have := parseInt_signed_digits 43 (Or.inl rfl) ds [] hne hall ht hx
      simpa using this
    · subst h
      have := parseInt_signed_digits 45 (Or.inr rfl) ds [] hne hall ht hx
      simpa using this
  unfold parseIntOr1
  rw [hp]
  simp only []
  rw [if_pos hzero]

theorem parseIntOr1_nan (c : Nat) (r : Str) (hws : isWhiteSpace c = false)
    (hc : isDigit c = false)
    (hr : c = 43 ∨ c = 45 → ∀ d, r.head? = some d → isDigit d = false) :
    parseIntOr1 (c :: r) = .int 1 := by
  unfold parseIntOr1
  rw [parseInt_nan c r hws hc hr]

theorem dropWhile_head (p : Nat → Bool) : ∀ (l : List Nat) (a : Nat) (t : List Nat),
    l.dropWhile p = a :: t → p a = false := by
  intro l
  induction l with
  | nil => intro a t h; simp at h
  | cons x xs ih =>
    intro a t h
    by_cases hx : p x = true
    · rw [List.dropWhile_cons_of_pos hx] at h
      exact ih a t h
    · rw [List.dropWhile_cons_of_neg hx] at h
      simp only [List.cons.injEq] at h
      rw [← h.1]
      simpa using hx

theorem trim_head (x : Str) (c : Nat) (r : Str) (h : trim x = c :: r) :
    isWhiteSpace c = false := by
  unfold trim trimStart at h
  cases hy : x.dropWhile isWhiteSpace with
  | nil => rw [hy] at h; simp [trimEnd] at h
  | cons a t =>
    have ha : isWhiteSpace a = false := dropWhile_head _ _ _ _ hy
    rw [hy] at h
    unfold trimEnd at h
    rw [rdrop_cons _ _ ha] at h
    simp only [List.cons.injEq] at h
    rw [← h.1]
    exact ha

theorem columnsOf_head (line col : Str) (h : col ∈ columnsOf line) (c : Nat) (r : Str)
    (hc : col = c :: r) : isWhiteSpace c = false := by
  unfold columnsOf at h
  obtain ⟨h1, _⟩ := List.mem_filter.mp h
  obtain ⟨x, _, hx⟩ := List.mem_map.mp h1
  exact trim_head x c r (by rw [hx, hc])

theorem itemsLoop_row (timestamp l : Str) (rest : List Str) (items : List JsVal)
    (itemName countStr : Str) (more : List Str)
    (hrow : (startsWith (trim l) [PIPE] && endsWith (trim l) [PIPE]) = true)
    (hcols : columnsOf (trim l) = itemName :: countStr :: more) :
    itemsLoop timestamp (l :: rest) items
      = itemsLoop timestamp rest
          (items ++ [itemRecord itemName (parseIntOr1 countStr) timestamp]) := by
  rw [itemsLoop, if_pos hrow, hcols]

theorem split_no_sep (sep : Nat) : ∀ (s : Str), sep ∉ s → split sep s = [s] := by
  intro s
  induction s with
  | nil => intro _; rfl
  | cons c s ih =>
    intro h
    simp only [List.mem_cons, not_or] at h
    rw [split, if_neg (fun e => h.1 e.symm), ih h.2]

theorem split_append_sep (sep : Nat) : ∀ (a b : Str), sep ∉ a →
    split sep (a ++ sep :: b) = a :: split sep b := by
  intro a
  induction a with
  | nil => intro b _; simp [split]
  | cons c a ih =>
    intro b h
    simp only [List.mem_cons, not_or] at h
    rw [List.cons_append, split, if_neg (fun e => h.1 e.symm), ih b h.2]

theorem trimEnd_eq_rdropWhile (s : Str) : trimEnd s = List.rdropWhile isWhiteSpace s := rfl

theorem trimEnd_concat_ws (s : Str) (e : Nat) (he : isWhiteSpace e = true) :
    trimEnd (s ++ [e]) = trimEnd s := by
  rw [trimEnd_eq_rdropWhile, trimEnd_eq_rdropWhile]
  exact List.rdropWhile_concat_pos _ _ _ he

theorem trimEnd_concat (s : Str) (e : Nat) (he : isWhiteSpace e = false) :
    trimEnd (s ++ [e]) = s ++ [e] := by
  rw [trimEnd_eq_rdropWhile]
  exact List.rdropWhile_concat_neg _ _ _ (by simp [he])

theorem trim_of_ends (c e : Nat) (mid : Str) (hc : isWhiteSpace c = false)
    (he : isWhiteSpace e = false) : trim (c :: (mid ++ [e])) = c :: (mid ++ [e]) := by
  unfold trim
  rw [trimStart_cons c _ hc, ← List.cons_append]
  exact trimEnd_concat _ _ he

theorem trim_pad (a e : Nat) (s : Str) (ha : isWhiteSpace a = true) (he : isWhiteSpace e = true) :
    trim (a :: (s ++ [e])) = trim s := by
  unfold trim
  have h1 : trimStart (a :: (s ++ [e])) = trimStart (s ++ [e]) := by
    simp [trimStart, List.dropWhile, ha]
  rw [h1]
  unfold trimStart
  rw [List.dropWhile_append]
  split
  · rename_i hempty
    have h2 : s.dropWhile isWhiteSpace = [] := by simpa using hempty
    rw [h2]
    simp [List.dropWhile, he]
  · exact trimEnd_concat_ws _ _ he

theorem trim_digits (ds : Str) (hall : ∀ d ∈ ds, isDigit d = true) : trim ds = ds := by
  rcases List.eq_nil_or_concat ds with h | ⟨mid, e, h⟩
  · subst h; rfl
  · rw [List.concat_eq_append] at h
    subst h
    have he : isWhiteSpace e = false := isDigit_not_ws e (hall e (by simp))
    cases mid with
    | nil => simp [trim, trimStart, trimEnd, List.dropWhile, he]
    | cons c mid =>
      rw [List.cons_append]
      exact trim_of_ends c e mid (isDigit_not_ws c (hall c (by simp))) he

theorem findIndex_head (p : Str → Bool) (l : Str) (ls : List Str) (h : p l = true) :
    findIndex p (l :: ls) = 0 := by
  rw [findIndex, if_pos h]

theorem digitsValue_eq_ofDigits : ∀ (ds : Str),
    digitsValue ds = Nat.ofDigits 10 (ds.reverse.map (fun d => d - 48)) := by
  intro ds
  rw [Nat.ofDigits_eq_foldr, digitsValue, List.foldr_map, List.foldr_reverse]
  congr 1
  funext acc d
  simp [Nat.add_comm]

theorem decimal_isDigit (n d : Nat) (h : d ∈ decimal n) : isDigit d = true := by
  unfold decimal at h
  obtain ⟨x, hx, rfl⟩ := List.mem_map.mp h
  have hlt : x < 10 := Nat.digits_lt_base (by norm_num) (List.mem_reverse.mp hx)
  simp only [isDigit, Bool.and_eq_true, decide_eq_true_eq]
  omega

theorem decimal_ne_nil (n : Nat) (h : 0 < n) : decimal n ≠ [] := by
  unfold decimal
  have := (Nat.digits_ne_nil_iff_ne_zero (b := 10) (n := n)).mpr (by omega)
  simpa using this

theorem digitsValue_decimal (n : Nat) : digitsValue (decimal n) = n := by
  rw [digitsValue_eq_ofDigits]
  unfold decimal
  rw [← List.map_reverse, List.reverse_reverse, List.map_map]
  have : ((fun d => d - 48) ∘ fun d => d + 48) = (id : Nat → Nat) := by
    funext d; simp
  rw [this, List.map_id, Nat.ofDigits_digits]

theorem parseIntOr1_decimal (n : Nat) (hpos : 0 < n) (hlt : n < 2 ^ 53) :
    parseIntOr1 (decimal n) = .int (n : Int) := by
  have h := parseIntOr1_signed [] (decimal n) [] (Or.inl rfl)
    ⟨decimal_ne_nil n hpos, fun d hd => decimal_isDigit n d hd⟩ (by simp)
    (by rw [digitsValue_decimal]; exact hpos) (by rw [digitsValue_decimal]; exact hlt)
  rw [digitsValue_decimal] at h
  simpa [signedValue] using h

theorem not_mem_decimal (n c : Nat) (hc : isDigit c = false) : c ∉ decimal n := by
  intro h
  rw [decimal_isDigit n c h] at hc
  exact absurd hc (by simp)

theorem columnsOf_row (name ds : Str) (hname : trim name ≠ []) (hp : PIPE ∉ name)
    (hne : ds ≠ []) (hall : ∀ d ∈ ds, isDigit d = true) :
    columnsOf (PIPE :: ((32 :: (name ++ [32])) ++ PIPE :: ((32 :: (ds ++ [32])) ++ PIPE :: [])))
      = [trim name, ds] := by
  have hpd : PIPE ∉ ds := by
    intro h
    have := hall PIPE h
    simp [isDigit, PIPE] at this
  have h1 : PIPE ∉ (32 :: (name ++ [32])) := by
    simp only [List.mem_cons, List.mem_append, List.mem_singleton, not_or]
    exact ⟨by decide, hp, by decide, by simp⟩
  have h2 : PIPE ∉ (32 :: (ds ++ [32])) := by
    simp only [List.mem_cons, List.mem_append, List.mem_singleton, not_or]
    exact ⟨by decide, hpd, by decide, by simp⟩
  have hs : split PIPE (PIPE :: ((32 :: (name ++ [32])) ++ PIPE :: ((32 :: (ds ++ [32])) ++ PIPE :: [])))
      = [[], 32 :: (name ++ [32]), 32 :: (ds ++ [32]), []] := by
    have e0 := split_append_sep PIPE [] ((32 :: (name ++ [32])) ++ PIPE :: ((32 :: (ds ++ [32])) ++ PIPE :: [])) (by simp)
    rw [List.nil_append] at e0
    rw [e0, split_append_sep PIPE _ _ h1, split_append_sep PIPE _ _ h2]
    rfl
  unfold columnsOf
  rw [hs]
  simp only [List.map_cons, List.map_nil]
  rw [trim_pad 32 32 name (by rfl) (by rfl), trim_pad 32 32 ds (by rfl) (by rfl), trim_digits ds hall]
  have t0 : trim [] = [] := rfl
  have e1 : (!(trim name).isEmpty) = true := by
    cases h : trim name with
    | nil => exact absurd h hname
    | cons _ _ => rfl
  have e2 : (!ds.isEmpty) = true := by
    cases h : ds with
    | nil => exact absurd h hne
    | cons _ _ => rfl
  rw [t0]
  simp only [List.filter, e1, e2]
  rfl

theorem single_row_table (now name ds : Str) (hname : trim name ≠ []) (hp : PIPE ∉ name)
    (hb : LBRACKET ∉ name) (hnl : NEWLINE ∉ name)
    (hne : ds ≠ []) (hall : ∀ d ∈ ds, isDigit d = true) :
    parseTextToItems now (js "| Item Name | Count |\n| " ++ name ++ js " | " ++ ds ++ js " |")
      = .ok (.arr [itemRecord (trim name) (parseIntOr1 ds) now]) := by
  have hnd : ∀ c, isDigit c = false → c ∉ ds := by
    intro c hc h
    rw [hall c h] at hc
    exact absurd hc (by simp)
  have e1 : js "| Item Name | Count |\n| " = js "| Item Name | Count |" ++ NEWLINE :: [PIPE, 32] := by
    rfl
  have e2 : js " | " = [32, PIPE, 32] := by rfl
  have e3 : js " |" = [32, PIPE] := by rfl
  have etext : js "| Item Name | Count |\n| " ++ name ++ js " | " ++ ds ++ js " |"
      = js "| Item Name | Count |" ++ NEWLINE ::
          (PIPE :: ((32 :: (name ++ [32])) ++ PIPE :: ((32 :: (ds ++ [32])) ++ PIPE :: []))) := by
    rw [e1, e2, e3]
    simp
  have erow : PIPE :: ((32 :: (name ++ [32])) ++ PIPE :: ((32 :: (ds ++ [32])) ++ PIPE :: []))
      = PIPE :: (((32 :: (name ++ [32])) ++ PIPE :: (32 :: (ds ++ [32]))) ++ [PIPE]) := by
    simp
  rw [etext]
  generalize hrow : PIPE :: ((32 :: (name ++ [32])) ++ PIPE :: ((32 :: (ds ++ [32])) ++ PIPE :: []))
    = row at erow
  have hcols : columnsOf row = [trim name, ds] := by
    rw [← hrow]
    exact columnsOf_row name ds hname hp hne hall
  have hrb : LBRACKET ∉ row := by
    rw [← hrow]
    simp only [List.mem_cons, List.mem_append, List.mem_singleton, not_or, List.not_mem_nil,
      not_false_eq_true, and_true]
    exact ⟨by decide, ⟨by decide, hb, by decide⟩, by decide, ⟨by decide,
      hnd _ (by decide), by decide⟩, by decide⟩
  have hrn : NEWLINE ∉ row := by
    rw [← hrow]
    simp only [List.mem_cons, List.mem_append, List.mem_singleton, not_or, List.not_mem_nil,
      not_false_eq_true, and_true]
    exact ⟨by decide, ⟨by decide, hnl, by decide⟩, by decide, ⟨by decide,
      hnd _ (by decide), by decide⟩, by decide⟩
  have htrim : trim row = row := by
    rw [erow]
    exact trim_of_ends PIPE PIPE _ (by rfl) (by rfl)
  have hbt : LBRACKET ∉ js "| Item Name | Count |" ++ NEWLINE :: row := by
    simp only [List.mem_append, List.mem_cons, not_or]
    exact ⟨by decide, by decide, hrb⟩
  have hlines : nonBlankLines (js "| Item Name | Count |" ++ NEWLINE :: row)
      = [js "| Item Name | Count |", row] := by
    unfold nonBlankLines
    rw [split_append_sep NEWLINE _ _ (by decide), split_no_sep NEWLINE row hrn]
    have f1 : decide ((trim (js "| Item Name | Count |")).length > 0) = true := by decide
    have f2 : decide ((trim row).length > 0) = true := by
      rw [htrim, erow]
      simp
    simp only [List.filter, f1, f2]
  have hidx : findIndex isItemsHeader [js "| Item Name | Count |", row] = 0 :=
    findIndex_head _ _ _ (by decide)
  have hpipes : (startsWith (trim row) [PIPE] && endsWith (trim row) [PIPE]) = true := by
    rw [htrim]
    have a1 : startsWith row [PIPE] = true := by
      rw [erow, startsWith_cons_unit]
      simp
    have a2 : endsWith row [PIPE] = true := by
      unfold endsWith
      rw [erow, List.reverse_cons, List.reverse_append]
      simp [startsWith_cons_unit]
    rw [a1, a2]
    rfl
  rw [parseTextToItems_table _ _ (jsonTier_none _ hbt)]
  unfold itemsTable
  rw [hlines, hidx, if_neg (by decide)]
  have hdrop : List.drop ((0 : Int) + 1).toNat [js "| Item Name | Count |", row] = [row] := rfl
  rw [hdrop, itemsLoop_row now row [] [] (trim name) ds [] hpipes (by rw [htrim, hcols])]
  rfl

theorem consUnit_some (c : Nat) (o : Option (Str × Str)) (v rest : Str)
    (h : consUnit c o = some (v, rest)) : ∃ w, o = some (w, rest) := by
  cases o with
  | none => simp [consUnit] at h
  | some p =>
    obtain ⟨w, r⟩ := p
    simp only [consUnit, Option.some.injEq, Prod.mk.injEq] at h
    exact ⟨w, by rw [h.2]⟩

theorem parseStringBody_suffix : ∀ (n : Nat) (s v rest : Str), s.length ≤ n →
    parseStringBody s = some (v, rest) → rest <:+ s := by
  intro n
  induction n with
  | zero =>
    intro s v rest hlen h
    have : s = [] := List.length_eq_zero.mp (by omega)
    subst this
    simp [parseStringBody] at h
  | succ n ih =>
    intro s v rest hlen h
    have step : ∀ (u : Nat) (q : Str), q.length ≤ n → q <:+ s →
        consUnit u (parseStringBody q) = some (v, rest) → rest <:+ s := by
      intro u q hq hsuf hc
      obtain ⟨w, hw⟩ := consUnit_some _ _ _ _ hc
      exact (ih q w rest hq hw).trans hsuf
    match s, hlen, h, step with
    | [], _, h, _ => simp [parseStringBody] at h
    | [c], _, h, step =>
      rw [parseStringBody.eq_def] at h
      dsimp only at h
      by_cases h34 : c = 34
      · rw [if_pos h34] at h
        simp only [Option.some.injEq, Prod.mk.injEq] at h
        rw [← h.2]
        exact List.suffix_cons _ _
      · rw [if_neg h34] at h
        by_cases h92 : c = 92
        · rw [if_pos h92] at h
          cases h
        · rw [if_neg h92] at h
          by_cases h32 : c < 32
          · rw [if_pos h32] at h
            cases h
          · rw [if_neg h32] at h
            exact step c [] (by simp) (List.suffix_cons _ _) h
    | c :: e :: r1, hlen, h, step =>
      have hlen1 : r1.length + 1 ≤ n := Nat.le_of_succ_le_succ hlen
      rw [parseStringBody.eq_def] at h
      dsimp only at h
      by_cases h34 : c = 34
      · rw [if_pos h34] at h
        simp only [Option.some.injEq, Prod.mk.injEq] at h
        rw [← h.2]
        exact List.suffix_cons _ _
      · rw [if_neg h34] at h
        by_cases h92 : c = 92
        · rw [if_pos h92] at h
          by_cases hu : e = 117
          · rw [if_pos hu] at h
            match r1, hlen1, h, step with
            | h1 :: h2 :: h3 :: h4 :: r2, hlen1, h, step =>
              dsimp only at h
              cases hh : hexEscape h1 h2 h3 h4 with
              | none => rw [hh] at h; cases h
              | some u =>
                rw [hh] at h
                have hlen3 : r2.length + 1 + 1 + 1 + 1 + 1 ≤ n := hlen1
                exact step u r2 (by omega)
                  ((((List.suffix_cons _ _).trans (List.suffix_cons _ _)).trans
                    ((List.suffix_cons _ _).trans (List.suffix_cons _ _))).trans
                    ((List.suffix_cons _ _).trans (List.suffix_cons _ _))) h
            | [], _, h, _ => cases h
            | [_], _, h, _ => cases h
            | [_, _], _, h, _ => cases h
            | [_, _, _], _, h, _ => cases h
          · rw [if_neg hu] at h
            cases hs : simpleEscape e with
            | none => rw [hs] at h; cases h
            | some u =>
              rw [hs] at h
              exact step u r1 (by omega)
                ((List.suffix_cons _ _).trans (List.suffix_cons _ _)) h
        · rw [if_neg h92] at h
          by_cases h32 : c < 32
          · rw [if_pos h32] at h
            cases h
          · rw [if_neg h32] at h
            exact step c (e :: r1) (by simp; omega) (List.suffix_cons _ _) h

theorem parseIntPart_suffix (s ip rest : Str) (h : parseIntPart s = some (ip, rest)) :
    rest <:+ s := by
  unfold parseIntPart at h
  split at h
  · cases h
  · rename_i d r
    split at h
    · simp only [Option.some.injEq, Prod.mk.injEq] at h
      rw [← h.2]
      exact List.suffix_cons _ _
    · split at h
      · simp only [Option.some.injEq, Prod.mk.injEq] at h
        rw [← h.2]
        exact (List.dropWhile_suffix _).trans (List.suffix_cons _ _)
      · cases h

theorem parseFraction_suffix (s fp rest : Str) (h : parseFraction s = some (fp, rest)) :
    rest <:+ s := by
  unfold parseFraction at h
  split at h
  · simp only [Option.some.injEq, Prod.mk.injEq] at h
    rw [← h.2]
  · rename_i c r
    split at h
    · split at h
      · cases h
      · simp only [Option.some.injEq, Prod.mk.injEq] at h
        rw [← h.2]
        exact (List.dropWhile_suffix _).trans (List.suffix_cons _ _)
    · simp only [Option.some.injEq, Prod.mk.injEq] at h
      rw [← h.2]

theorem parseExpSign_suffix (s : Str) : (parseExpSign s).2 <:+ s := by
  unfold parseExpSign
  split
  · exact List.suffix_refl _
  · split
    · exact List.suffix_cons _ _
    · exact List.suffix_refl _

theorem parseExponent_suffix (s ep rest : Str) (h : parseExponent s = some (ep, rest)) :
    rest <:+ s := by
  unfold parseExponent at h
  split at h
  · simp only [Option.some.injEq, Prod.mk.injEq] at h
    rw [← h.2]
  · rename_i c r
    split at h
    · split at h
      · cases h
      · simp only [Option.some.injEq, Prod.mk.injEq] at h
        rw [← h.2]
        exact ((List.dropWhile_suffix _).trans (parseExpSign_suffix r)).trans (List.suffix_cons _ _)
    · simp only [Option.some.injEq, Prod.mk.injEq] at h
      rw [← h.2]

theorem parseUnsigned_suffix (neg : Bool) (s : Str) (n : JsNum) (rest : Str)
    (h : parseUnsigned neg s = some (n, rest)) : rest <:+ s := by
  unfold parseUnsigned at h
  split at h
  · cases h
  · rename_i ip s1 h1
    split at h
    · cases h
    · rename_i fp s2 h2
      split at h
      · cases h
      · rename_i ep s3 h3
        have hs : s3 <:+ s :=
          ((parseExponent_suffix _ _ _ h3).trans (parseFraction_suffix _ _ _ h2)).trans
            (parseIntPart_suffix _ _ _ h1)
        split at h
        · simp only [Option.some.injEq, Prod.mk.injEq] at h
          rw [← h.2]; exact hs
        · simp only [Option.some.injEq, Prod.mk.injEq] at h
          rw [← h.2]; exact hs

theorem parseNumber_suffix (s : Str) (n : JsNum) (rest : Str)
    (h : parseNumber s = some (n, rest)) : rest <:+ s := by
  unfold parseNumber at h
  split at h
  · cases h
  · rename_i c r
    split at h
    · exact (parseUnsigned_suffix _ _ _ _ h).trans (List.suffix_cons _ _)
    · exact parseUnsigned_suffix _ _ _ _ h

theorem skipWs_suffix (s : Str) : skipWs s <:+ s := List.dropWhile_suffix _

/-- What the three parsers leave is an end of their input; an array ends
with `]` just before what it leaves. -/
theorem parse_suffix : ∀ (fuel : Nat),
    (∀ (s : Str) (v : JsVal) (rest : Str), parseValue fuel s = some (v, rest) → rest <:+ s) ∧
    (∀ (s : Str) (acc : List JsVal) (v : JsVal) (rest : Str),
      parseElements fuel s acc = some (v, rest) → ∃ mid, s = mid ++ RBRACKET :: rest) ∧
    (∀ (s : Str) (acc : List (Str × JsVal)) (v : JsVal) (rest : Str),
      parseMembers fuel s acc = some (v, rest) → rest <:+ s) := by
  intro fuel
  induction fuel with
  | zero =>
    refine ⟨?_, ?_, ?_⟩
    · intro s v rest h; simp [parseValue] at h
    · intro s acc v rest h; simp [parseElements] at h
    · intro s acc v rest h; simp [parseMembers] at h
  | succ n ih =>
    obtain ⟨ihV, ihE, ihM⟩ := ih
    refine ⟨?_, ?_, ?_⟩
    · intro s v rest h
      cases s with
      | nil => simp [parseValue] at h
      | cons c r =>
        rw [parseValue] at h
        split at h
        · split at h
          · cases h
          · rename_i d r1 hsk
            have hr1 : d :: r1 <:+ c :: r := by
              rw [← hsk]
              exact (skipWs_suffix r).trans (List.suffix_cons _ _)
            split at h
            · simp only [Option.some.injEq, Prod.mk.injEq] at h
              rw [← h.2]
              exact (List.suffix_cons _ _).trans hr1
            · obtain ⟨mid, hm⟩ := ihE _ _ _ _ h
              refine List.IsSuffix.trans ?_ hr1
              rw [hm]
              exact (List.suffix_cons _ _).trans (List.suffix_append _ _)
        · split at h
          · split at h
            · cases h
            · rename_i d r1 hsk
              have hr1 : d :: r1 <:+ c :: r := by
                rw [← hsk]
                exact (skipWs_suffix r).trans (List.suffix_cons _ _)
              split at h
              · simp only [Option.some.injEq, Prod.mk.injEq] at h
                rw [← h.2]
                exact (List.suffix_cons _ _).trans hr1
              · exact (ihM _ _ _ _ h).trans hr1
          · split at h
            · split at h
              · cases h
              · rename_i w rest1 hsb
                simp only [Option.some.injEq, Prod.mk.injEq] at h
                rw [← h.2]
                exact (parseStringBody_suffix _ _ _ _ (Nat.le_refl _) hsb).trans
                  (List.suffix_cons _ _)
            · split at h
              · simp only [Option.some.injEq, Prod.mk.injEq] at h
                rw [← h.2]
                exact (List.drop_suffix _ _).trans (List.suffix_cons _ _)
              · split at h
                · simp only [Option.some.injEq, Prod.mk.injEq] at h
                  rw [← h.2]
                  exact (List.drop_suffix _ _).trans (List.suffix_cons _ _)
                · split at h
                  · simp only [Option.some.injEq, Prod.mk.injEq] at h
                    rw [← h.2]
                    exact (List.drop_suffix _ _).trans (List.suffix_cons _ _)
                  · split at h
                    · cases h
                    · rename_i num rest1 hnum
                      simp only [Option.some.injEq, Prod.mk.injEq] at h
                      rw [← h.2]
                      exact parseNumber_suffix _ _ _ hnum
    · intro s acc v rest h
      rw [parseElements] at h
      split at h
      · cases h
      · rename_i v1 rest1 hv
        obtain ⟨p1, hp1⟩ := ihV _ _ _ hv
        split at h
        · cases h
        · rename_i d r hsk
          obtain ⟨w1, hw1⟩ := skipWs_suffix rest1
          rw [hsk] at hw1
          split at h
          · obtain ⟨mid, hm⟩ := ihE _ _ _ _ h
            obtain ⟨w2, hw2⟩ := skipWs_suffix r
            refine ⟨p1 ++ w1 ++ d :: (w2 ++ mid), ?_⟩
            rw [← hp1, ← hw1, ← hw2, hm]
            simp
          · split at h
            · rename_i hd
              simp only [Option.some.injEq, Prod.mk.injEq] at h
              refine ⟨p1 ++ w1, ?_⟩
              rw [← hp1, ← hw1, ← h.2, hd]
              simp [RBRACKET]
            · cases h
    · intro s acc v rest h
      cases s with
      | nil => simp [parseMembers] at h
      | cons c r =>
        rw [parseMembers] at h
        split at h
        · split at h
          · cases h
          · rename_i key rest1 hsb
            have h1 : rest1 <:+ c :: r :=
              (parseStringBody_suffix _ _ _ _ (Nat.le_refl _) hsb).trans (List.suffix_cons _ _)
            split at h
            · cases h
            · rename_i d r1 hsk
              have h2 : r1 <:+ c :: r := by
                refine List.IsSuffix.trans ?_ h1
                refine List.IsSuffix.trans ?_ (skipWs_suffix rest1)
                rw [hsk]
                exact List.suffix_cons _ _
              split at h
              · split at h
                · cases h
                · rename_i v1 rest2 hv
                  have h3 : rest2 <:+ c :: r :=
                    ((ihV _ _ _ hv).trans (skipWs_suffix r1)).trans h2
                  split at h
                  · cases h
                  · rename_i d2 r2 hsk2
                    have h4 : r2 <:+ c :: r := by
                      refine List.IsSuffix.trans ?_ h3
                      refine List.IsSuffix.trans ?_ (skipWs_suffix rest2)
                      rw [hsk2]
                      exact List.suffix_cons _ _
                    split at h
                    · exact ((ihM _ _ _ _ h).trans (skipWs_suffix r2)).trans h4
                    · split at h
                      · simp only [Option.some.injEq, Prod.mk.injEq] at h
                        rw [← h.2]
                        exact h4
                      · cases h
              · cases h
        · cases h

theorem parseMembers_isObj : ∀ (fuel : Nat) (s : Str) (acc : List (Str × JsVal)) (v : JsVal)
    (rest : Str), parseMembers fuel s acc = some (v, rest) → ∃ fields, v = .obj fields := by
  intro fuel
  induction fuel with
  | zero => intro s acc v rest h; simp [parseMembers] at h
  | succ n ih =>
    intro s acc v rest h
    cases s with
    | nil => simp [parseMembers] at h
    | cons c r =>
      rw [parseMembers] at h
      split at h
      · split at h
        · cases h
        · split at h
          · cases h
          · split at h
            · split at h
              · cases h
              · split at h
                · cases h
                · split at h
                  · exact ih _ _ _ _ h
                  · split at h
                    · simp only [Option.some.injEq, Prod.mk.injEq] at h
                      exact ⟨_, h.1.symm⟩
                    · cases h
            · cases h
      · cases h

theorem parseValue_arr_head (fuel : Nat) (s : Str) (xs : List JsVal) (rest : Str)
    (h : parseValue fuel s = some (.arr xs, rest)) : ∃ r, s = LBRACKET :: r := by
  cases fuel with
  | zero => simp [parseValue] at h
  | succ n =>
    cases s with
    | nil => simp [parseValue] at h
    | cons c r =>
      rw [parseValue] at h
      split at h
      · rename_i hc
        exact ⟨r, by rw [hc]; rfl⟩
      · split at h
        · split at h
          · cases h
          · split at h
            · simp at h
            · obtain ⟨fields, hf⟩ := parseMembers_isObj _ _ _ _ _ h
              cases hf
        · split at h
          · split at h
            · cases h
            · simp at h
          · split at h
            · simp at h
            · split at h
              · simp at h
              · split at h
                · simp at h
                · split at h
                  · cases h
                  · simp at h

theorem parseValue_bracket_end (fuel : Nat) (r : Str) (v : JsVal) (rest : Str)
    (h : parseValue fuel (LBRACKET :: r) = some (v, rest)) :
    ∃ mid, r = mid ++ RBRACKET :: rest := by
  cases fuel with
  | zero => simp [parseValue] at h
  | succ n =>
    rw [parseValue] at h
    simp only [LBRACKET, if_true] at h
    obtain ⟨w, hw⟩ := skipWs_suffix r
    split at h
    · cases h
    · rename_i d r1 hsk
      rw [hsk] at hw
      split at h
      · rename_i hd
        simp only [Option.some.injEq, Prod.mk.injEq] at h
        exact ⟨w, by rw [← hw, ← h.2, hd]; rfl⟩
      · obtain ⟨mid, hm⟩ := (parse_suffix n).2.1 _ _ _ _ h
        exact ⟨w ++ mid, by rw [← hw, hm]; simp⟩

theorem rdrop_decomp (p : Nat → Bool) (l : List Nat) :
    ∃ w, l = (l.reverse.dropWhile p).reverse ++ w ∧ ∀ c ∈ w, p c = true := by
  refine ⟨(l.reverse.takeWhile p).reverse, ?_, ?_⟩
  · rw [← List.reverse_append, List.takeWhile_append_dropWhile, List.reverse_reverse]
  · intro c hc
    exact List.mem_takeWhile_imp (List.mem_reverse.mp hc)

theorem jsonTrim_decomp (text : Str) :
    ∃ w1 w2, text = w1 ++ (jsonTrim text ++ w2) ∧
      (∀ c ∈ w1, isJsonWs c = true) ∧ (∀ c ∈ w2, isJsonWs c = true) := by
  obtain ⟨w2, h2, hw2⟩ := rdrop_decomp isJsonWs (skipWs text)
  refine ⟨text.takeWhile isJsonWs, w2, ?_, ?_, hw2⟩
  · unfold jsonTrim
    rw [← h2]
    exact (List.takeWhile_append_dropWhile isJsonWs text).symm
  · intro c hc
    exact List.mem_takeWhile_imp hc

theorem jsonTrim_bracketed (mid : Str) :
    jsonTrim (LBRACKET :: (mid ++ [RBRACKET])) = LBRACKET :: (mid ++ [RBRACKET]) := by
  rw [jsonTrim_cons LBRACKET (by decide)]
  congr 1
  exact List.rdropWhile_concat_neg _ _ _ (by decide)

theorem startsWith_append_left : ∀ (p q s : Str), startsWith s (p ++ q) = true →
    startsWith s p = true := by
  intro p
  induction p with
  | nil => intro q s _; exact startsWith_nil s
  | cons c p ih =>
    intro q s h
    cases s with
    | nil => simp [startsWith] at h
    | cons d s =>
      simp only [List.cons_append, startsWith, Bool.and_eq_true] at h ⊢
      exact ⟨h.1, ih q s h.2⟩

theorem startsWith_append_right : ∀ (p s b : Str), startsWith s p = true →
    startsWith (s ++ b) p = true := by
  intro p
  induction p with
  | nil => intro s b _; exact startsWith_nil _
  | cons c p ih =>
    intro s b h
    cases s with
    | nil => simp [startsWith] at h
    | cons d s =>
      simp only [List.cons_append, startsWith, Bool.and_eq_true] at h ⊢
      exact ⟨h.1, ih s b h.2⟩

theorem includes_append_right (p : Str) : ∀ (s b : Str), includes s p = true →
    includes (s ++ b) p = true := by
  intro s
  induction s with
  | nil =>
    intro b h
    have hp : p = [] := by
      cases p with
      | nil => rfl
      | cons _ _ => simp [includes, startsWith] at h
    subst hp
    exact includes_of_startsWith _ _ (startsWith_nil _)
  | cons c s ih =>
    intro b h
    simp only [includes, Bool.or_eq_true] at h
    rw [List.cons_append, includes, Bool.or_eq_true]
    rcases h with h | h
    · left
      have := startsWith_append_right p (c :: s) b h
      simpa using this
    · right
      exact ih b h

theorem stripFences_noop : ∀ (s : Str), includes s (js "```") = false →
    stripFences 0 s = s := by
  intro s
  induction s with
  | nil => intro _; rfl
  | cons c s ih =>
    intro h
    simp only [includes, Bool.or_eq_false_iff] at h
    have h3 : startsWith (c :: s) (js "```") = false := h.1
    have h7 : startsWith (c :: s) (js "```json") = false := by
      cases hh : startsWith (c :: s) (js "```json") with
      | false => rfl
      | true =>
        have e : js "```json" = js "```" ++ js "json" := by rfl
        rw [e] at hh
        rw [startsWith_append_left _ _ _ hh] at h3
        cases h3
    rw [stripFences, h7, h3]
    simp only [Bool.false_eq_true, if_false]
    rw [ih h.2]

theorem jsonWs_not_bracket (w : Str) (h : ∀ c ∈ w, isJsonWs c = true) :
    LBRACKET ∉ w ∧ RBRACKET ∉ w := by
  constructor
  · intro hm
    have := h _ hm
    simp [isJsonWs, LBRACKET] at this
  · intro hm
    have := h _ hm
    simp [isJsonWs, RBRACKET] at this

/-- The cleaned string of a text that `JSON.parse` reads as an array and that
holds no fence marker is the text without the white space around it. -/
theorem cleanJsonString_of_array (text : Str) (xs : List JsVal)
    (hp : jsonParse text = .ok (.arr xs)) (hf : includes text (js "```") = false) :
    cleanJsonString text = jsonTrim text ∧ jsonTrim (jsonTrim text) = jsonTrim text := by
  unfold jsonParse at hp
  split at hp
  · rename_i v hv
    simp only [Except.ok.injEq] at hp
    subst hp
    obtain ⟨r, hr⟩ := parseValue_arr_head _ _ _ _ hv
    rw [hr] at hv
    obtain ⟨mid, hmid⟩ := parseValue_bracket_end _ _ _ _ hv
    have ht : jsonTrim text = LBRACKET :: (mid ++ [RBRACKET]) := by rw [hr, hmid]
    obtain ⟨w1, w2, hdec, hw1, hw2⟩ := jsonTrim_decomp text
    rw [ht] at hdec
    have hdec2 : text = w1 ++ LBRACKET :: (mid ++ RBRACKET :: w2) := by
      rw [hdec]; simp
    have hslice : sliceCandidate text = LBRACKET :: (mid ++ [RBRACKET]) := by
      rw [hdec2]
      exact sliceCandidate_slice w1 mid w2 (jsonWs_not_bracket w1 hw1).1
        (jsonWs_not_bracket w2 hw2).2
    have hinc : includes (LBRACKET :: (mid ++ [RBRACKET])) (js "```") = false := by
      cases hh : includes (LBRACKET :: (mid ++ [RBRACKET])) (js "```") with
      | false => rfl
      | true =>
        have := includes_append_left (js "```") w1 _
          (includes_append_right (js "```") _ w2 hh)
        rw [← hdec, hf] at this
        cases this
    constructor
    · unfold cleanJsonString
      rw [hslice, stripFences_noop _ hinc, ht]
      exact trim_of_ends LBRACKET RBRACKET mid (by rfl) (by rfl)
    · rw [ht]
      exact jsonTrim_bracketed mid
  · cases hp

theorem jsonParse_jsonTrim (text : Str) (h : jsonTrim (jsonTrim text) = jsonTrim text) :
    jsonParse (jsonTrim text) = jsonParse text := by
  unfold jsonParse
  rw [h]

/-! ## Claims -/

/-- C1. For every string `text` (and every instant `now` of the call),
`parseTextToItems(text)` and `parseTextToProduce(text)` complete without
raising and return an array (a possibly empty sequence). -/
theorem C1_parsers_total (now text : Str) :
    (∃ items, parseTextToItems now text = .ok (.arr items)) ∧
    (∃ items, parseTextToProduce now text = .ok (.arr items)) := by
  cases h : jsonTier text with
  | some v =>
    obtain ⟨xs, rfl⟩ := jsonTier_isArr _ _ h
    exact ⟨⟨xs, parseTextToItems_json _ _ _ h⟩, ⟨xs, parseTextToProduce_json _ _ _ h⟩⟩
  | none =>
    obtain ⟨xs, hx⟩ := itemsTable_isArr now text
    obtain ⟨ys, hy⟩ := produceTable_isArr now text
    exact ⟨⟨xs, by rw [parseTextToItems_table _ _ h, hx]⟩,
      ⟨ys, by rw [parseTextToProduce_table _ _ h, hy]⟩⟩

/-- C2. For every oracle text, the "Parse JSON" step of `detectItems` and of
`detectFreshness` answers with status 200 and a body whose `message` is
`"Success"`, whether or not the cleaned text parses as JSON. -/
theorem C2_parse_step_success (text : Str) :
    ((detectItemsParse text).status = 200 ∧
      (detectItemsParse text).body.get (js "message") = some (.str (js "Success"))) ∧
    ((detectFreshnessParse text).status = 200 ∧
      (detectFreshnessParse text).body.get (js "message") = some (.str (js "Success"))) := by
  have key : ∀ result : JsVal, (successResponse result).status = 200 ∧
      (successResponse result).body.get (js "message") = some (.str (js "Success")) := by
    intro result
    exact ⟨rfl, rfl⟩
  constructor
  · unfold detectItemsParse detectItemsTry
    split <;> rename_i h
    · split at h
      · simp at h
      · simp at h
      · simp only [Except.ok.injEq] at h
        subst h
        exact key _
    · exact key _
  · unfold detectFreshnessParse detectFreshnessTry
    split <;> rename_i h
    · split at h
      · simp at h
      · simp at h
      · simp only [Except.ok.injEq] at h
        subst h
        exact key _
    · exact key _

/-- C7. In the table tier of `parseTextToProduce`, a data row whose name column
is `"N/A"` or `"-"`, or contains `"packaged"` in any letter case, produces no
record: the loop goes on with the array unchanged. A produce table whose only
data row is `| N/A | - | - |` yields the empty array. -/
theorem C7_produce_rows_skipped :
    (∀ (timestamp l : Str) (rest : List Str) (produceItems : List JsVal)
        (produce : Str) (cols : List Str),
      columnsOf (trim l) = produce :: cols →
      (produce = js "N/A" ∨ produce = js "-" ∨ ContainsAnyCase produce (js "packaged")) →
      produceLoop timestamp (l :: rest) produceItems
        = produceLoop timestamp rest produceItems) ∧
    (∀ now : Str, parseTextToProduce now
        (js "| Produce | Freshness | Expected Lifespan |\n| N/A | - | - |") = .ok (.arr [])) := by
  constructor
  · intro timestamp l rest produceItems produce cols hcols hname
    have hkeep : keepProduce produce = false := by
      rcases hname with h | h | h
      · subst h; decide
      · subst h; decide
      · simp [keepProduce, includes_lower_of_containsAnyCase produce h]
    rw [produceLoop]
    split
    · rw [hcols]
      cases cols with
      | nil => rfl
      | cons f cols =>
        cases cols with
        | nil => rfl
        | cons e cols => simp [hkeep]
    · rfl
  · intro now
    rfl

/-- Witness of C7: the row `| PACKAGED rice | ok | 3 days |` is skipped. -/
theorem C7_produce_rows_skipped_witness :
    produceLoop (js "T") [js "| PACKAGED rice | ok | 3 days |"] [] = produceLoop (js "T") [] [] :=
  C7_produce_rows_skipped.1 (js "T") (js "| PACKAGED rice | ok | 3 days |") [] []
    (js "PACKAGED rice") [js "ok", js "3 days"] (by rfl)
    (Or.inr (Or.inr ⟨[], js "PACKAGED", js " rice", by rfl, by rfl⟩))

/-- C8. A text with no `[` and no line containing a marker phrase of the kind
("Item Name", "Count", "Freshness" for inventory; "Produce", "Freshness",
"Expected Life", "Lifespan" for produce) yields the empty array. -/
theorem C8_no_structure_empty (now text : Str) (hb : LBRACKET ∉ text) :
    ((∀ line ∈ split NEWLINE text,
        includes line (js "Item Name") = false ∧ includes line (js "Count") = false ∧
        includes line (js "Freshness") = false) →
      parseTextToItems now text = .ok (.arr [])) ∧
    ((∀ line ∈ split NEWLINE text,
        includes line (js "Produce") = false ∧ includes line (js "Freshness") = false ∧
        includes line (js "Expected Life") = false ∧ includes line (js "Lifespan") = false) →
      parseTextToProduce now text = .ok (.arr [])) := by
  constructor
  · intro h
    rw [parseTextToItems_table _ _ (jsonTier_none _ hb)]
    have hf : findIndex isItemsHeader (nonBlankLines text) = -1 := by
      apply findIndex_none
      intro l hl
      obtain ⟨h1, h2, h3⟩ := h l (mem_nonBlankLines _ _ hl)
      simp [isItemsHeader, h1, h2, h3]
    simp [itemsTable, hf]
  · intro h
    rw [parseTextToProduce_table _ _ (jsonTier_none _ hb)]
    have hf : findIndex isProduceHeader (nonBlankLines text) = -1 := by
      apply findIndex_none
      intro l hl
      obtain ⟨h1, h2, h3, h4⟩ := h l (mem_nonBlankLines _ _ hl)
      simp [isProduceHeader, h1, h2, h3, h4]
    simp [produceTable, hf]

/-- Witness of C8: two lines of prose. -/
theorem C8_no_structure_empty_witness :
    parseTextToItems (js "T") (js "I see some fruit.\nNothing else.") = .ok (.arr []) ∧
    parseTextToProduce (js "T") (js "I see some fruit.\nNothing else.") = .ok (.arr []) :=
  ⟨(C8_no_structure_empty (js "T") (js "I see some fruit.\nNothing else.") (by decide)).1
      (by decide),
   (C8_no_structure_empty (js "T") (js "I see some fruit.\nNothing else.") (by decide)).2
      (by decide)⟩

/-- C4. When the slice of the text from its first `[` (none in `pre`) to its
last `]` (none in `post`) parses as the empty JSON array, the JSON tier of
`parseTextToItems` returns the empty array and the table tier is not reached,
whatever `pre` and `post` contain; and `parseTextToItems("[]")` is empty. -/
theorem C4_empty_array_no_fallback :
    (∀ (now pre mid post : Str), LBRACKET ∉ pre → RBRACKET ∉ post →
      jsonParse (LBRACKET :: (mid ++ [RBRACKET])) = .ok (.arr []) →
      jsonTier (pre ++ LBRACKET :: (mid ++ RBRACKET :: post)) = some (.arr []) ∧
      parseTextToItems now (pre ++ LBRACKET :: (mid ++ RBRACKET :: post)) = .ok (.arr [])) ∧
    (∀ now : Str, parseTextToItems now (js "[]") = .ok (.arr [])) := by
  constructor
  · intro now pre mid post h1 h2 hp
    have ht : jsonTier (pre ++ LBRACKET :: (mid ++ RBRACKET :: post)) = some (.arr []) := by
      simp [jsonTier, matchJsonArray_slice pre mid post h1 h2, hp]
    exact ⟨ht, parseTextToItems_json _ _ _ ht⟩
  · intro now
    rfl

/-- Witness of C4: a table with a header and the data row `| Banana | 3 |`,
followed by `[ ]`; the table tier alone would give one record. -/
theorem C4_empty_array_no_fallback_witness :
    (jsonTier (js "| Item Name | Count |\n| Banana | 3 |\n" ++ LBRACKET :: (js " " ++ RBRACKET :: []))
        = some (.arr []) ∧
      parseTextToItems (js "T")
        (js "| Item Name | Count |\n| Banana | 3 |\n" ++ LBRACKET :: (js " " ++ RBRACKET :: []))
        = .ok (.arr [])) ∧
    itemsTable (js "T") (js "| Item Name | Count |\n| Banana | 3 |\n[ ]")
      = .arr [itemRecord (js "Banana") (.int 3) (js "T")] :=
  ⟨C4_empty_array_no_fallback.1 (js "T") (js "| Item Name | Count |\n| Banana | 3 |\n")
      (js " ") [] (by decide) (by decide) (by rfl), by rfl⟩

/-- C9, as the claim states it, fails: the JSON tier returns `JSON.parse` of the
match as it is. The entry `{"itemName":"Apple"}` has no `count` and no
`timestamp`, and it is returned, not dropped. -/
theorem C9_counterexample :
    parseTextToItems (js "T") (js "[\x7b\"itemName\":\"Apple\"\x7d]")
      = .ok (.arr [.obj [(js "itemName", .str (js "Apple"))]]) ∧
    (JsVal.obj [(js "itemName", .str (js "Apple"))]).get (js "count") = none ∧
    (JsVal.obj [(js "itemName", .str (js "Apple"))]).get (js "timestamp") = none :=
  ⟨by rfl, by rfl, by rfl⟩

/-- C9, amended. When the JSON tier does not return (no match, or the match does
not parse), every element returned by `parseTextToItems` has `itemName`, `count`
and `timestamp` defined, and every element returned by `parseTextToProduce` has
`produce`, `freshness`, `expectedLifespan` and `timestamp` defined; a table row
with fewer than 2 (for produce: 3) columns is dropped. -/
theorem C9_table_records_complete :
    (∀ (now text : Str) (items : List JsVal), jsonTier text = none →
      parseTextToItems now text = .ok (.arr items) →
      ∀ x ∈ items, ∃ itemName count,
        x.get (js "itemName") = some (.str itemName) ∧
        x.get (js "count") = some (.num count) ∧
        x.get (js "timestamp") = some (.str now)) ∧
    (∀ (now text : Str) (items : List JsVal), jsonTier text = none →
      parseTextToProduce now text = .ok (.arr items) →
      ∀ x ∈ items, ∃ produce freshness expectedLifespan,
        x.get (js "produce") = some (.str produce) ∧
        x.get (js "freshness") = some (.str freshness) ∧
        x.get (js "expectedLifespan") = some (.str expectedLifespan) ∧
        x.get (js "timestamp") = some (.str now)) ∧
    (∀ (timestamp l : Str) (rest : List Str) (items : List JsVal),
      (columnsOf (trim l)).length < 2 →
      itemsLoop timestamp (l :: rest) items = itemsLoop timestamp rest items) ∧
    (∀ (timestamp l : Str) (rest : List Str) (items : List JsVal),
      (columnsOf (trim l)).length < 3 →
      produceLoop timestamp (l :: rest) items = produceLoop timestamp rest items) := by
  refine ⟨?_, ?_, ?_, ?_⟩
  · intro now text items hj h x hx
    rw [parseTextToItems_table _ _ hj] at h
    simp only [Except.ok.injEq] at h
    obtain ⟨itemName, count, rfl⟩ := itemsTable_records now text items h x hx
    exact ⟨itemName, count, rfl, rfl, rfl⟩
  · intro now text items hj h x hx
    rw [parseTextToProduce_table _ _ hj] at h
    simp only [Except.ok.injEq] at h
    obtain ⟨produce, freshness, expectedLifespan, rfl⟩ := produceTable_records now text items h x hx
    exact ⟨produce, freshness, expectedLifespan, rfl, rfl, rfl, rfl⟩
  · intro timestamp l rest items hlen
    rw [itemsLoop]
    split
    · split
      · rename_i heq
        rw [heq] at hlen
        simp only [List.length_cons] at hlen
        omega
      · rfl
    · rfl
  · intro timestamp l rest items hlen
    rw [produceLoop]
    split
    · split
      · rename_i heq
        rw [heq] at hlen
        simp only [List.length_cons] at hlen
        omega
      · rfl
    · rfl

/-- Witness of the amended C9: a table with the row `| Banana | 3 |` and the
one-column row `| lonely |`. -/
theorem C9_table_records_complete_witness :
    ∃ itemName count,
      (itemRecord (js "Banana") (.int 3) (js "T")).get (js "itemName") = some (.str itemName) ∧
      (itemRecord (js "Banana") (.int 3) (js "T")).get (js "count") = some (.num count) ∧
      (itemRecord (js "Banana") (.int 3) (js "T")).get (js "timestamp") = some (.str (js "T")) :=
  C9_table_records_complete.1 (js "T") (js "| Item Name | Count |\n| Banana | 3 |\n| lonely |")
    [itemRecord (js "Banana") (.int 3) (js "T")] (by rfl) (by rfl)
    (itemRecord (js "Banana") (.int 3) (js "T")) (List.mem_singleton.mpr rfl)

/-- C10, as the claim states it, fails. The count column `0` is a valid integer
but the record gets count 1 (zero is falsy in `parseInt(countStr) || 1`), and
the column `12 pack` is not a valid integer but the record gets count 12
(`parseInt` reads the leading digits), where the claim says 0 and 1. -/
theorem C10_counterexample :
    itemsTable (js "T") (js "| Item Name | Count |\n| Milk | 0 |\n| Eggs | 12 pack |")
      = .arr [itemRecord (js "Milk") (.int 1) (js "T"),
              itemRecord (js "Eggs") (.int 12) (js "T")] := by
  rfl

/-- C10, amended. For an inventory table data row with name column `itemName`
and count column `countStr`, the emitted record has: the integer denoted by
the leading decimal integer of `countStr` (optional sign, digits up to the
first other character) when its magnitude is non-zero and below 2^53; count 1
when `countStr` is a decimal integer of value zero; and count 1 when `countStr`
starts with no digit after an optional sign (e.g. "abc" gives 1). -/
theorem C10_row_count (timestamp l : Str) (rest : List Str) (items : List JsVal)
    (itemName countStr : Str) (more : List Str)
    (hrow : (startsWith (trim l) [PIPE] && endsWith (trim l) [PIPE]) = true)
    (hcols : columnsOf (trim l) = itemName :: countStr :: more) :
    (∀ sign ds tail, countStr = sign ++ ds ++ tail → IsSign sign → IsDigits ds →
      (∀ c, tail.head? = some c → isDigit c = false) →
      0 < digitsValue ds → digitsValue ds < 2 ^ 53 →
      itemsLoop timestamp (l :: rest) items
        = itemsLoop timestamp rest
            (items ++ [itemRecord itemName (.int (signedValue sign (digitsValue ds))) timestamp])) ∧
    (∀ sign ds, countStr = sign ++ ds → IsSign sign → IsDigits ds → digitsValue ds = 0 →
      itemsLoop timestamp (l :: rest) items
        = itemsLoop timestamp rest (items ++ [itemRecord itemName (.int 1) timestamp])) ∧
    ((∀ c r, countStr = c :: r →
        isDigit c = false ∧ (c = 43 ∨ c = 45 → ∀ d, r.head? = some d → isDigit d = false)) →
      itemsLoop timestamp (l :: rest) items
        = itemsLoop timestamp rest (items ++ [itemRecord itemName (.int 1) timestamp])) := by
  have hstep := itemsLoop_row timestamp l rest items itemName countStr more hrow hcols
  refine ⟨?_, ?_, ?_⟩
  · intro sign ds tail hc hs hd ht hpos hlt
    rw [hstep, hc, parseIntOr1_signed sign ds tail hs hd ht hpos hlt]
  · intro sign ds hc hs hd hzero
    rw [hstep, hc, parseIntOr1_zero sign ds hs hd hzero]
  · intro h
    have hmem : countStr ∈ columnsOf (trim l) := by rw [hcols]; simp
    cases hcs : countStr with
    | nil =>
      rw [hstep, hcs]
      rfl
    | cons c r =>
      obtain ⟨h1, h2⟩ := h c r hcs
      rw [hstep, hcs, parseIntOr1_nan c r (columnsOf_head _ _ hmem c r hcs) h1 h2]

/-- Witness of the amended C10: the rows `| Eggs | 12 pack |` (count 12) and
`| Apple | abc |` (count 1). -/
theorem C10_row_count_witness :
    itemsLoop (js "T") [js "| Eggs | 12 pack |"] []
      = itemsLoop (js "T") []
          ([] ++ [itemRecord (js "Eggs") (.int (signedValue [] (digitsValue (js "12")))) (js "T")]) ∧
    itemsLoop (js "T") [js "| Apple | abc |"] []
      = itemsLoop (js "T") [] ([] ++ [itemRecord (js "Apple") (.int 1) (js "T")]) :=
  ⟨(C10_row_count (js "T") (js "| Eggs | 12 pack |") [] [] (js "Eggs") (js "12 pack") []
      (by rfl) (by rfl)).1 [] (js "12") (js " pack") (by rfl) (Or.inl rfl)
      ⟨by decide, by decide⟩ (by decide) (by decide) (by decide),
   (C10_row_count (js "T") (js "| Apple | abc |") [] [] (js "Apple") (js "abc") []
      (by rfl) (by rfl)).2.2 (by
        intro c r h
        have h2 : (97 :: [98, 99] : Str) = c :: r := h
        cases h2
        exact ⟨by decide, by decide⟩)⟩

/-- C6, as the claim states it, fails: the count is a JavaScript Number, and
for n = 9007199254740993 = 2^53 + 1 `parseInt` gives the nearest Number,
9007199254740992, not n. -/
theorem C6_counterexample :
    parseTextToItems (js "T") (js "| Item Name | Count |\n| Banana | 9007199254740993 |")
      = .ok (.arr [itemRecord (js "Banana") (.int 9007199254740992) (js "T")]) := by
  rfl

/-- C6, amended. For every item name that is non-empty after trimming and
contains no `|`, `[` or newline, and every positive integer `n` below 2^53
written in decimal, `parseTextToItems("| Item Name | Count |\n| <name> | <n> |")`
returns exactly one record, whose `itemName` is the trimmed name and whose
`count` is `n`. -/
theorem C6_single_row (now name : Str) (n : Nat) (hname : trim name ≠ [])
    (hp : PIPE ∉ name) (hb : LBRACKET ∉ name) (hnl : NEWLINE ∉ name)
    (hpos : 0 < n) (hlt : n < 2 ^ 53) :
    parseTextToItems now (js "| Item Name | Count |\n| " ++ name ++ js " | " ++ decimal n ++ js " |")
      = .ok (.arr [itemRecord (trim name) (.int (n : Int)) now]) := by
  rw [single_row_table now name (decimal n) hname hp hb hnl (decimal_ne_nil n hpos)
    (fun d hd => decimal_isDigit n d hd), parseIntOr1_decimal n hpos hlt]

/-- Witness of the amended C6: the row `| Banana | 3 |` of the specification. -/
theorem C6_single_row_witness :
    parseTextToItems (js "T")
        (js "| Item Name | Count |\n| " ++ js "Banana" ++ js " | " ++ decimal 3 ++ js " |")
      = .ok (.arr [itemRecord (trim (js "Banana")) (.int ((3 : Nat) : Int)) (js "T")]) :=
  C6_single_row (js "T") (js "Banana") 3 (by decide) (by decide) (by decide) (by decide)
    (by decide) (by decide)

/-- C3, as the claim states it, fails: the fence markers are removed from the
whole slice, also inside string values. The text `[{"itemName":"a```b"}]` is a
valid JSON array of one object whose `itemName` is "a```b", and the result of
the step holds "ab" instead. -/
theorem C3_counterexample :
    jsonParse (js "[\x7b\"itemName\":\"a```b\"\x7d]")
      = .ok (.arr [.obj [(js "itemName", .str (js "a```b"))]]) ∧
    detectItemsParse (js "[\x7b\"itemName\":\"a```b\"\x7d]")
      = successResponse (.arr [.obj [(js "itemName", .str (js "ab"))]]) ∧
    detectFreshnessParse (js "[\x7b\"itemName\":\"a```b\"\x7d]")
      = successResponse (.arr [.obj [(js "itemName", .str (js "ab"))]]) ∧
    js "ab" ≠ js "a```b" :=
  ⟨by rfl, by rfl, by rfl, by decide⟩

/-- C3, amended. For every oracle text that `JSON.parse` reads as an array and
that contains no fence marker (three backticks in a row), the "Parse JSON" step
of `detectItems` and of `detectFreshness` answers with exactly
`JSON.parse(text)` as `result`: same length, every value unchanged. -/
theorem C3_array_roundtrip (text : Str) (xs : List JsVal)
    (hp : jsonParse text = .ok (.arr xs)) (hf : includes text (js "```") = false) :
    detectItemsParse text = successResponse (.arr xs) ∧
    detectFreshnessParse text = successResponse (.arr xs) := by
  obtain ⟨hc, hj⟩ := cleanJsonString_of_array text xs hp hf
  constructor
  · unfold detectItemsParse detectItemsTry
    rw [hc, jsonParse_jsonTrim text hj, hp]
  · unfold detectFreshnessParse detectFreshnessTry
    rw [hc, jsonParse_jsonTrim text hj, hp]

/-- Witness of the amended C3: an array of two objects with white space around. -/
theorem C3_array_roundtrip_witness :
    detectItemsParse
        (js " [\x7b\"itemName\":\"Apple\",\"count\":2\x7d, \x7b\"itemName\":\"Milk [1l]\",\"count\":1\x7d]\n")
      = successResponse (.arr [
          .obj [(js "itemName", .str (js "Apple")), (js "count", .num (.int 2))],
          .obj [(js "itemName", .str (js "Milk [1l]")), (js "count", .num (.int 1))]]) ∧
    detectFreshnessParse
        (js " [\x7b\"itemName\":\"Apple\",\"count\":2\x7d, \x7b\"itemName\":\"Milk [1l]\",\"count\":1\x7d]\n")
      = successResponse (.arr [
          .obj [(js "itemName", .str (js "Apple")), (js "count", .num (.int 2))],
          .obj [(js "itemName", .str (js "Milk [1l]")), (js "count", .num (.int 1))]]) :=
  C3_array_roundtrip
    (js " [\x7b\"itemName\":\"Apple\",\"count\":2\x7d, \x7b\"itemName\":\"Milk [1l]\",\"count\":1\x7d]\n")
    _ (by rfl) (by decide)

theorem skipWs_length (s : Str) : (skipWs s).length ≤ s.length :=
  (skipWs_suffix s).length_le

/-- Fuel is never the reason of a failure: beyond `2 * length + 1` (for a
value) or `2 * length + 2` (for elements and members), more fuel gives the
same result. -/
theorem parse_fuel : ∀ (fuel : Nat),
    (∀ (s : Str) (k : Nat), 2 * s.length + 1 ≤ fuel →
      parseValue (fuel + k) s = parseValue fuel s) ∧
    (∀ (s : Str) (acc : List JsVal) (k : Nat), 2 * s.length + 2 ≤ fuel →
      parseElements (fuel + k) s acc = parseElements fuel s acc) ∧
    (∀ (s : Str) (acc : List (Str × JsVal)) (k : Nat), 2 * s.length + 2 ≤ fuel →
      parseMembers (fuel + k) s acc = parseMembers fuel s acc) := by
  intro fuel
  induction fuel with
  | zero =>
    refine ⟨?_, ?_, ?_⟩
    · intro s k h; omega
    · intro s acc k h; omega
    · intro s acc k h; omega
  | succ n ih =>
    obtain ⟨ihV, ihE, ihM⟩ := ih
    refine ⟨?_, ?_, ?_⟩
    · intro s k h
      have e : n + 1 + k = (n + k) + 1 := by omega
      rw [e]
      cases s with
      | nil => simp [parseValue]
      | cons c r =>
        simp only [List.length_cons] at h
        rw [parseValue, parseValue]
        have hsk := skipWs_length r
        by_cases h91 : c = 91
        · rw [if_pos h91, if_pos h91]
          cases hr : skipWs r with
          | nil => rfl
          | cons d r1 =>
            rw [hr] at hsk
            simp only [List.length_cons] at hsk
            dsimp only
            rw [ihE (d :: r1) [] k (by simp only [List.length_cons]; omega)]
        · rw [if_neg h91, if_neg h91]
          by_cases h123 : c = 123
          · rw [if_pos h123, if_pos h123]
            cases hr : skipWs r with
            | nil => rfl
            | cons d r1 =>
              rw [hr] at hsk
              simp only [List.length_cons] at hsk
              dsimp only
              rw [ihM (d :: r1) [] k (by simp only [List.length_cons]; omega)]
          · rw [if_neg h123, if_neg h123]
    · intro s acc k h
      have e : n + 1 + k = (n + k) + 1 := by omega
      rw [e, parseElements, parseElements, ihV s k (by omega)]
      cases hv : parseValue n s with
      | none => rfl
      | some p =>
        obtain ⟨v, rest⟩ := p
        have hrest : rest.length ≤ s.length := ((parse_suffix n).1 s v rest hv).length_le
        have hsk := skipWs_length rest
        dsimp only
        cases hr : skipWs rest with
        | nil => rfl
        | cons d r =>
          rw [hr] at hsk
          simp only [List.length_cons] at hsk
          have hsk2 := skipWs_length r
          dsimp only
          by_cases h44 : d = 44
          · rw [if_pos h44, if_pos h44, ihE (skipWs r) _ k (by omega)]
          · rw [if_neg h44, if_neg h44]
    · intro s acc k h
      have e : n + 1 + k = (n + k) + 1 := by omega
      rw [e]
      cases s with
      | nil => simp [parseMembers]
      | cons c r =>
        simp only [List.length_cons] at h
        rw [parseMembers, parseMembers]
        by_cases h34 : c = 34
        · rw [if_pos h34, if_pos h34]
          cases hs : parseStringBody r with
          | none => rfl
          | some p =>
            obtain ⟨key, rest⟩ := p
            have hrest : rest.length ≤ r.length :=
              (parseStringBody_suffix _ r key rest (Nat.le_refl _) hs).length_le
            have hsk := skipWs_length rest
            dsimp only
            cases hr : skipWs rest with
            | nil => rfl
            | cons d r1 =>
              rw [hr] at hsk
              simp only [List.length_cons] at hsk
              have hsk1 := skipWs_length r1
              dsimp only
              by_cases h58 : d = 58
              · rw [if_pos h58, if_pos h58, ihV (skipWs r1) k (by omega)]
                cases hv : parseValue n (skipWs r1) with
                | none => rfl
                | some q =>
                  obtain ⟨v, rest2⟩ := q
                  have hrest2 : rest2.length ≤ (skipWs r1).length :=
                    ((parse_suffix n).1 _ v rest2 hv).length_le
                  have hsk2 := skipWs_length rest2
                  dsimp only
                  cases hr2 : skipWs rest2 with
                  | nil => rfl
                  | cons d2 r2 =>
                    rw [hr2] at hsk2
                    simp only [List.length_cons] at hsk2
                    have hsk3 := skipWs_length r2
                    dsimp only
                    by_cases h44 : d2 = 44
                    · rw [if_pos h44, if_pos h44, ihM (skipWs r2) _ k (by omega)]
                    · rw [if_neg h44, if_neg h44]
              · rw [if_neg h58, if_neg h58]
        · rw [if_neg h34, if_neg h34]

/-- `JSON.parse` of the model does not depend on the fuel it takes: any larger
amount gives the same value. -/
theorem jsonParse_fuel (s : Str) (k : Nat) :
    parseValue (2 * (jsonTrim s).length + 2 + k) (jsonTrim s)
      = parseValue (2 * (jsonTrim s).length + 2) (jsonTrim s) :=
  (parse_fuel _).1 _ k (by omega)


/-! ## Lemmas for the counts, the order of the records and the JSON tier -/

theorem excessBits_spec : ∀ (fuel e m : Nat), 2 ^ (52 + e) ≤ m →
    2 ^ (52 + excessBits fuel e m) ≤ m := by
  intro fuel
  induction fuel with
  | zero => intro e m h; simpa [excessBits] using h
  | succ n ih =>
    intro e m h
    rw [excessBits]
    split
    · exact h
    · rename_i hlt
      apply ih
      have : 2 ^ (53 + e) ≤ m := Nat.le_of_not_lt hlt
      have e1 : 52 + (e + 1) = 53 + e := by omega
      rw [e1]
      exact this

theorem roundToDouble_pos (m v : Nat) (hm : 0 < m) (h : roundToDouble m = some v) : 0 < v := by
  unfold roundToDouble at h
  by_cases hlt : m < 2 ^ 53
  · rw [if_pos hlt] at h
    simp only [Option.some.injEq] at h
    omega
  · rw [if_neg hlt] at h
    have h53 : 2 ^ 53 ≤ m := Nat.le_of_not_lt hlt
    have hspec := excessBits_spec m 0 m (by
      have : (2 : Nat) ^ (52 + 0) ≤ 2 ^ 53 := by norm_num
      omega)
    generalize excessBits m 0 m = e at h hspec
    have hpe : 0 < 2 ^ e := Nat.two_pow_pos e
    have hle : 2 ^ e ≤ m := by
      have : 2 ^ e ≤ 2 ^ (52 + e) := Nat.pow_le_pow_right (by norm_num) (by omega)
      omega
    have hq : 0 < m / 2 ^ e := Nat.div_pos hle hpe
    dsimp only at h
    generalize hq1 : (if 2 ^ (e - 1) < m % 2 ^ e ∨ m % 2 ^ e = 2 ^ (e - 1) ∧ m / 2 ^ e % 2 = 1
      then m / 2 ^ e + 1 else m / 2 ^ e) = q1 at h
    have hq1pos : 0 < q1 := by
      rw [← hq1]
      split <;> omega
    by_cases hc : e < 971 ∨ e = 971 ∧ q1 < 2 ^ 53
    · rw [if_pos hc] at h
      simp only [Option.some.injEq] at h
      rw [← h]
      exact Nat.mul_pos hq1pos hpe
    · rw [if_neg hc] at h
      cases h

theorem parseIntDigits_sign (neg : Bool) (s : Str) (n : Bool) (m : Nat)
    (h : parseIntDigits neg s = some (n, m)) : n = neg := by
  unfold parseIntDigits at h
  split at h
  · split at h
    · cases h
    · simp only [Option.some.injEq, Prod.mk.injEq] at h
      exact h.1.symm
  · split at h
    · cases h
    · simp only [Option.some.injEq, Prod.mk.injEq] at h
      exact h.1.symm

theorem parseInt_sign (s : Str) (n : Bool) (m : Nat) (h : parseInt s = some (n, m)) :
    n = startsWith (trimStart s) [45] :=
  parseIntDigits_sign _ _ _ _ h

theorem toNumber_nonZero (neg : Bool) (m : Nat) (hm : m ≠ 0) : NonZero (toNumber neg m) := by
  unfold toNumber
  cases h : roundToDouble m with
  | none => exact True.intro
  | some v =>
    have hv : 0 < v := roundToDouble_pos m v (by omega) h
    show (if neg then -(v : Int) else (v : Int)) ≠ 0
    split <;> omega

theorem toNumber_atLeastOne (m : Nat) (hm : m ≠ 0) : AtLeastOne (toNumber false m) := by
  unfold toNumber
  cases h : roundToDouble m with
  | none => exact rfl
  | some v =>
    have hv : 0 < v := roundToDouble_pos m v (by omega) h
    show (1 : Int) ≤ (if false then -(v : Int) else (v : Int))
    simp only [Bool.false_eq_true, if_false]
    omega

theorem parseIntOr1_nonZero (s : Str) : NonZero (parseIntOr1 s) := by
  unfold parseIntOr1
  cases h : parseInt s with
  | none => show (1 : Int) ≠ 0; decide
  | some p =>
    obtain ⟨neg, m⟩ := p
    show NonZero (if m = 0 then JsNum.int 1 else toNumber neg m)
    split
    · show (1 : Int) ≠ 0; decide
    · rename_i hm
      exact toNumber_nonZero neg m hm

theorem parseIntOr1_atLeastOne (s : Str) (hs : startsWith (trimStart s) [45] = false) :
    AtLeastOne (parseIntOr1 s) := by
  unfold parseIntOr1
  cases h : parseInt s with
  | none => show (1 : Int) ≤ 1; decide
  | some p =>
    obtain ⟨neg, m⟩ := p
    have hneg : neg = false := by rw [parseInt_sign s neg m h, hs]
    subst hneg
    show AtLeastOne (if m = 0 then JsNum.int 1 else toNumber false m)
    split
    · show (1 : Int) ≤ 1; decide
    · rename_i hm
      exact toNumber_atLeastOne m hm

theorem itemsLoop_counts (timestamp : Str) : ∀ (ls : List Str) (items : List JsVal),
    (∀ x ∈ items, ∃ itemName countStr, x = itemRecord itemName (parseIntOr1 countStr) timestamp) →
    ∀ x ∈ itemsLoop timestamp ls items,
      ∃ itemName countStr, x = itemRecord itemName (parseIntOr1 countStr) timestamp := by
  intro ls
  induction ls with
  | nil => intro items h; simpa [itemsLoop] using h
  | cons l rest ih =>
    intro items h
    rw [itemsLoop]
    split
    · split
      · apply ih
        intro x hx
        rcases List.mem_append.mp hx with hx | hx
        · exact h x hx
        · simp only [List.mem_singleton] at hx
          exact ⟨_, _, hx⟩
      · exact ih items h
    · exact ih items h

theorem trimStart_column (line col : Str) (h : col ∈ columnsOf line) : trimStart col = col := by
  cases hc : col with
  | nil => rfl
  | cons c r => exact trimStart_cons c r (columnsOf_head line col h c r hc)


theorem array_text_decomp (text : Str) (xs : List JsVal) (hp : jsonParse text = .ok (.arr xs)) :
    ∃ w1 mid w2, text = w1 ++ LBRACKET :: (mid ++ RBRACKET :: w2) ∧
      jsonTrim text = LBRACKET :: (mid ++ [RBRACKET]) ∧ LBRACKET ∉ w1 ∧ RBRACKET ∉ w2 := by
  unfold jsonParse at hp
  split at hp
  · rename_i v hv
    simp only [Except.ok.injEq] at hp
    subst hp
    obtain ⟨r, hr⟩ := parseValue_arr_head _ _ _ _ hv
    rw [hr] at hv
    obtain ⟨mid, hmid⟩ := parseValue_bracket_end _ _ _ _ hv
    have ht : jsonTrim text = LBRACKET :: (mid ++ [RBRACKET]) := by rw [hr, hmid]
    obtain ⟨w1, w2, hdec, hw1, hw2⟩ := jsonTrim_decomp text
    rw [ht] at hdec
    refine ⟨w1, mid, w2, ?_, ht, (jsonWs_not_bracket w1 hw1).1, (jsonWs_not_bracket w2 hw2).2⟩
    rw [hdec]
    simp
  · cases hp

theorem jsonTier_of_array (text : Str) (xs : List JsVal) (hp : jsonParse text = .ok (.arr xs)) :
    jsonTier text = some (.arr xs) := by
  obtain ⟨w1, mid, w2, hdec, ht, h1, h2⟩ := array_text_decomp text xs hp
  have hm : matchJsonArray text = some (LBRACKET :: (mid ++ [RBRACKET])) := by
    rw [hdec]
    exact matchJsonArray_slice w1 mid w2 h1 h2
  have hj : jsonParse (LBRACKET :: (mid ++ [RBRACKET])) = .ok (.arr xs) := by
    rw [← ht, jsonParse_jsonTrim text (by rw [ht]; exact jsonTrim_bracketed mid)]
    exact hp
  simp [jsonTier, hm, hj]


theorem itemsLoop_acc (timestamp : Str) : ∀ (ls : List Str) (items : List JsVal),
    itemsLoop timestamp ls items = items ++ itemsLoop timestamp ls [] := by
  intro ls
  induction ls with
  | nil => intro items; simp [itemsLoop]
  | cons l rest ih =>
    intro items
    rw [itemsLoop, itemsLoop]
    split
    · split
      · rw [ih (items ++ _), ih ([] ++ _)]
        simp
      · exact ih items
    · exact ih items

theorem produceLoop_acc (timestamp : Str) : ∀ (ls : List Str) (items : List JsVal),
    produceLoop timestamp ls items = items ++ produceLoop timestamp ls [] := by
  intro ls
  induction ls with
  | nil => intro items; simp [produceLoop]
  | cons l rest ih =>
    intro items
    rw [produceLoop, produceLoop]
    split
    · split
      · split
        · rw [ih (items ++ _), ih ([] ++ _)]
          simp
        · exact ih items
      · exact ih items
    · exact ih items

theorem itemsLoop_cons (timestamp l : Str) (rest : List Str) :
    itemsLoop timestamp (l :: rest) [] = itemsLoop timestamp [l] [] ++ itemsLoop timestamp rest [] := by
  rw [itemsLoop, itemsLoop]
  split
  · split
    · rw [itemsLoop_acc timestamp rest]
      simp [itemsLoop]
    · simp [itemsLoop]
  · simp [itemsLoop]

theorem produceLoop_cons (timestamp l : Str) (rest : List Str) :
    produceLoop timestamp (l :: rest) []
      = produceLoop timestamp [l] [] ++ produceLoop timestamp rest [] := by
  rw [produceLoop, produceLoop]
  split
  · split
    · split
      · rw [produceLoop_acc timestamp rest]
        simp [produceLoop]
      · simp [produceLoop]
    · simp [produceLoop]
  · simp [produceLoop]

theorem itemsLoop_append (timestamp : Str) : ∀ (l1 l2 : List Str),
    itemsLoop timestamp (l1 ++ l2) [] = itemsLoop timestamp l1 [] ++ itemsLoop timestamp l2 [] := by
  intro l1
  induction l1 with
  | nil => intro l2; simp [itemsLoop]
  | cons l rest ih =>
    intro l2
    rw [List.cons_append, itemsLoop_cons, ih l2, itemsLoop_cons timestamp l rest]
    simp

theorem produceLoop_append (timestamp : Str) : ∀ (l1 l2 : List Str),
    produceLoop timestamp (l1 ++ l2) []
      = produceLoop timestamp l1 [] ++ produceLoop timestamp l2 [] := by
  intro l1
  induction l1 with
  | nil => intro l2; simp [produceLoop]
  | cons l rest ih =>
    intro l2
    rw [List.cons_append, produceLoop_cons, ih l2, produceLoop_cons timestamp l rest]
    simp

theorem itemsLoop_flatMap (timestamp : Str) : ∀ (ls : List Str),
    itemsLoop timestamp ls [] = ls.flatMap (fun l => itemsLoop timestamp [l] []) := by
  intro ls
  induction ls with
  | nil => rfl
  | cons l rest ih => rw [itemsLoop_cons, ih, List.flatMap_cons]

theorem produceLoop_flatMap (timestamp : Str) : ∀ (ls : List Str),
    produceLoop timestamp ls [] = ls.flatMap (fun l => produceLoop timestamp [l] []) := by
  intro ls
  induction ls with
  | nil => rfl
  | cons l rest ih => rw [produceLoop_cons, ih, List.flatMap_cons]

theorem itemsLoop_single_length (timestamp l : Str) :
    (itemsLoop timestamp [l] []).length ≤ 1 := by
  rw [itemsLoop]
  split
  · split <;> simp [itemsLoop]
  · simp [itemsLoop]

theorem produceLoop_single_length (timestamp l : Str) :
    (produceLoop timestamp [l] []).length ≤ 1 := by
  rw [produceLoop]
  split
  · split
    · split <;> simp [produceLoop]
    · simp [produceLoop]
  · simp [produceLoop]


theorem stripFences_bracket (s : Str) :
    stripFences 0 (LBRACKET :: s) = LBRACKET :: stripFences 0 s := by
  have e1 : js "```json" = 96 :: js "``json" := by rfl
  have e2 : js "```" = 96 :: js "``" := by rfl
  have h1 : startsWith (LBRACKET :: s) (js "```json") = false := by
    rw [e1]; simp [startsWith, LBRACKET]
  have h2 : startsWith (LBRACKET :: s) (js "```") = false := by
    rw [e2]; simp [startsWith, LBRACKET]
  rw [stripFences, h1, h2]
  simp

theorem trim_bracket (s : Str) : ∃ z, trim (LBRACKET :: s) = LBRACKET :: z := by
  unfold trim
  rw [trimStart_cons LBRACKET s (by rfl)]
  unfold trimEnd
  rw [rdrop_cons isWhiteSpace LBRACKET (by rfl)]
  exact ⟨_, rfl⟩

theorem cleanJsonString_bracket (pre mid post : Str) (h1 : LBRACKET ∉ pre) (h2 : RBRACKET ∉ post) :
    ∃ z, cleanJsonString (pre ++ LBRACKET :: (mid ++ RBRACKET :: post)) = LBRACKET :: z := by
  unfold cleanJsonString
  rw [sliceCandidate_slice pre mid post h1 h2, stripFences_bracket]
  exact trim_bracket _

theorem detectItemsParse_cases (text : Str) :
    (∃ v, v ≠ JsVal.null ∧ jsonParse (cleanJsonString text) = .ok v ∧
      detectItemsParse text = successResponse v ∧ detectFreshnessParse text = successResponse v) ∨
    (detectItemsParse text = successResponse (.str text) ∧
      detectFreshnessParse text = successResponse (.str text)) := by
  unfold detectItemsParse detectItemsTry detectFreshnessParse detectFreshnessTry
  cases h : jsonParse (cleanJsonString text) with
  | error e => right; exact ⟨rfl, rfl⟩
  | ok v =>
    cases v with
    | null => right; exact ⟨rfl, rfl⟩
    | bool b => left; exact ⟨_, by simp, rfl, rfl, rfl⟩
    | num n => left; exact ⟨_, by simp, rfl, rfl, rfl⟩
    | str s => left; exact ⟨_, by simp, rfl, rfl, rfl⟩
    | arr xs => left; exact ⟨_, by simp, rfl, rfl, rfl⟩
    | obj fs => left; exact ⟨_, by simp, rfl, rfl, rfl⟩


theorem successResponse_str_inj (a b : Str)
    (h : successResponse (.str a) = successResponse (.str b)) : a = b := by
  simpa [successResponse] using h

/-- C5, as the claim states it, fails: `[x]` begins with `[` and ends with `]`,
and the fenced text and `[x]` alone give the same cleaned string, but that
string is not JSON, so each call answers with its own original text: the
result of the fenced call is the whole fenced text, that of the bare call is
`[x]`. -/
theorem C5_counterexample :
    (js "[x]").head? = some LBRACKET ∧ (js "[x]").getLast? = some RBRACKET ∧
    cleanJsonString (js "```json\n" ++ js "[x]" ++ js "\n```") = cleanJsonString (js "[x]") ∧
    detectItemsParse (js "```json\n" ++ js "[x]" ++ js "\n```")
      = successResponse (.str (js "```json\n[x]\n```")) ∧
    detectItemsParse (js "[x]") = successResponse (.str (js "[x]")) ∧
    detectItemsParse (js "```json\n" ++ js "[x]" ++ js "\n```") ≠ detectItemsParse (js "[x]") := by
  refine ⟨by rfl, by rfl, by rfl, by rfl, by rfl, ?_⟩
  intro h
  have h1 : detectItemsParse (js "```json\n" ++ js "[x]" ++ js "\n```")
      = successResponse (.str (js "```json\n[x]\n```")) := by rfl
  have h2 : detectItemsParse (js "[x]") = successResponse (.str (js "[x]")) := by rfl
  rw [h1, h2] at h
  exact absurd (successResponse_str_inj _ _ h) (by decide)

/-- C5, amended. For every string `a` that begins with `[` and ends with `]`,
the backend extraction applied to `a` wrapped in markdown fences gives the same
cleaned JSON string as applied to `a` alone, hence the same outcome of the
`try` block of `detectItems` and of `detectFreshness`. When the cleaned string
parses, both calls answer with the same result, the parsed value. When it does
not parse, each call answers with its own original text, the fenced text in
one call and `a` in the other; so the two results are the same exactly when the
cleaned string parses. -/
theorem C5_fenced_same_as_bare (a : Str) (h1 : a.head? = some LBRACKET)
    (h2 : a.getLast? = some RBRACKET) :
    cleanJsonString (js "```json\n" ++ a ++ js "\n```") = cleanJsonString a ∧
    detectItemsTry (js "```json\n" ++ a ++ js "\n```") = detectItemsTry a ∧
    detectFreshnessTry (js "```json\n" ++ a ++ js "\n```") = detectFreshnessTry a ∧
    (∀ v, jsonParse (cleanJsonString a) = .ok v →
      detectItemsParse (js "```json\n" ++ a ++ js "\n```") = successResponse v ∧
      detectItemsParse a = successResponse v ∧
      detectFreshnessParse (js "```json\n" ++ a ++ js "\n```") = successResponse v ∧
      detectFreshnessParse a = successResponse v) ∧
    (∀ e, jsonParse (cleanJsonString a) = .error e →
      detectItemsParse (js "```json\n" ++ a ++ js "\n```")
        = successResponse (.str (js "```json\n" ++ a ++ js "\n```")) ∧
      detectItemsParse a = successResponse (.str a) ∧
      detectFreshnessParse (js "```json\n" ++ a ++ js "\n```")
        = successResponse (.str (js "```json\n" ++ a ++ js "\n```")) ∧
      detectFreshnessParse a = successResponse (.str a)) ∧
    (detectItemsParse (js "```json\n" ++ a ++ js "\n```") = detectItemsParse a ↔
      ∃ v, jsonParse (cleanJsonString a) = .ok v) ∧
    (detectFreshnessParse (js "```json\n" ++ a ++ js "\n```") = detectFreshnessParse a ↔
      ∃ v, jsonParse (cleanJsonString a) = .ok v) := by
  obtain ⟨mid, rfl⟩ := bracketed_of_head_last a h1 h2
  have e1 : sliceCandidate (js "```json\n" ++ (LBRACKET :: (mid ++ [RBRACKET])) ++ js "\n```")
      = LBRACKET :: (mid ++ [RBRACKET]) := by
    have := sliceCandidate_slice (js "```json\n") mid (js "\n```") (by decide) (by decide)
    simpa using this
  have e2 : sliceCandidate (LBRACKET :: (mid ++ [RBRACKET])) = LBRACKET :: (mid ++ [RBRACKET]) := by
    have := sliceCandidate_slice [] mid [] (by simp) (by simp)
    simpa using this
  have hc : cleanJsonString (js "```json\n" ++ (LBRACKET :: (mid ++ [RBRACKET])) ++ js "\n```")
      = cleanJsonString (LBRACKET :: (mid ++ [RBRACKET])) := by
    unfold cleanJsonString
    rw [e1, e2]
  obtain ⟨z, hz⟩ := cleanJsonString_bracket [] mid [] (by simp) (by simp)
  simp only [List.nil_append] at hz
  have hne : js "```json\n" ++ (LBRACKET :: (mid ++ [RBRACKET])) ++ js "\n```"
      ≠ LBRACKET :: (mid ++ [RBRACKET]) := by
    intro h
    have := congrArg List.length h
    simp only [List.length_append, List.length_cons] at this
    have l1 : (js "```json\n").length = 8 := by rfl
    have l2 : (js "\n```").length = 4 := by rfl
    omega
  have hok : ∀ v, jsonParse (cleanJsonString (LBRACKET :: (mid ++ [RBRACKET]))) = .ok v →
      detectItemsParse (js "```json\n" ++ (LBRACKET :: (mid ++ [RBRACKET])) ++ js "\n```")
        = successResponse v ∧
      detectItemsParse (LBRACKET :: (mid ++ [RBRACKET])) = successResponse v ∧
      detectFreshnessParse (js "```json\n" ++ (LBRACKET :: (mid ++ [RBRACKET])) ++ js "\n```")
        = successResponse v ∧
      detectFreshnessParse (LBRACKET :: (mid ++ [RBRACKET])) = successResponse v := by
    intro v hv
    have hv1 := hv
    rw [hz] at hv1
    obtain ⟨xs, rfl⟩ := jsonParse_bracket_isArr z v hv1
    unfold detectItemsParse detectItemsTry detectFreshnessParse detectFreshnessTry
    rw [hc, hv]
    exact ⟨rfl, rfl, rfl, rfl⟩
  have herr : ∀ e, jsonParse (cleanJsonString (LBRACKET :: (mid ++ [RBRACKET]))) = .error e →
      detectItemsParse (js "```json\n" ++ (LBRACKET :: (mid ++ [RBRACKET])) ++ js "\n```")
        = successResponse
            (.str (js "```json\n" ++ (LBRACKET :: (mid ++ [RBRACKET])) ++ js "\n```")) ∧
      detectItemsParse (LBRACKET :: (mid ++ [RBRACKET]))
        = successResponse (.str (LBRACKET :: (mid ++ [RBRACKET]))) ∧
      detectFreshnessParse (js "```json\n" ++ (LBRACKET :: (mid ++ [RBRACKET])) ++ js "\n```")
        = successResponse
            (.str (js "```json\n" ++ (LBRACKET :: (mid ++ [RBRACKET])) ++ js "\n```")) ∧
      detectFreshnessParse (LBRACKET :: (mid ++ [RBRACKET]))
        = successResponse (.str (LBRACKET :: (mid ++ [RBRACKET]))) := by
    intro e he
    unfold detectItemsParse detectItemsTry detectFreshnessParse detectFreshnessTry
    rw [hc, he]
    exact ⟨rfl, rfl, rfl, rfl⟩
  refine ⟨hc, ?_, ?_, hok, herr, ?_, ?_⟩
  · unfold detectItemsTry
    rw [hc]
  · unfold detectFreshnessTry
    rw [hc]
  · constructor
    · intro h
      cases hp : jsonParse (cleanJsonString (LBRACKET :: (mid ++ [RBRACKET]))) with
      | ok v => exact ⟨v, rfl⟩
      | error e =>
        obtain ⟨a1, a2, _, _⟩ := herr e hp
        rw [a1, a2] at h
        exact absurd (successResponse_str_inj _ _ h) hne
    · rintro ⟨v, hv⟩
      obtain ⟨a1, a2, _, _⟩ := hok v hv
      rw [a1, a2]
  · constructor
    · intro h
      cases hp : jsonParse (cleanJsonString (LBRACKET :: (mid ++ [RBRACKET]))) with
      | ok v => exact ⟨v, rfl⟩
      | error e =>
        obtain ⟨_, _, a1, a2⟩ := herr e hp
        rw [a1, a2] at h
        exact absurd (successResponse_str_inj _ _ h) hne
    · rintro ⟨v, hv⟩
      obtain ⟨_, _, a1, a2⟩ := hok v hv
      rw [a1, a2]

/-- Witness of the amended C5: the fenced array of the specification parses,
and both calls answer with the same result. -/
theorem C5_fenced_same_as_bare_witness :
    cleanJsonString (js "```json\n" ++ js "[\x7b\"itemName\":\"Apple\",\"count\":2\x7d]" ++ js "\n```")
      = cleanJsonString (js "[\x7b\"itemName\":\"Apple\",\"count\":2\x7d]") ∧
    detectItemsParse (js "```json\n" ++ js "[\x7b\"itemName\":\"Apple\",\"count\":2\x7d]" ++ js "\n```")
      = detectItemsParse (js "[\x7b\"itemName\":\"Apple\",\"count\":2\x7d]") ∧
    detectItemsParse (js "[\x7b\"itemName\":\"Apple\",\"count\":2\x7d]")
      = successResponse
          (.arr [.obj [(js "itemName", .str (js "Apple")), (js "count", .num (.int 2))]]) :=
  ⟨(C5_fenced_same_as_bare (js "[\x7b\"itemName\":\"Apple\",\"count\":2\x7d]")
      (by rfl) (by rfl)).1,
   (C5_fenced_same_as_bare (js "[\x7b\"itemName\":\"Apple\",\"count\":2\x7d]")
      (by rfl) (by rfl)).2.2.2.2.2.1.mpr ⟨_, by rfl⟩,
   by rfl⟩

theorem firstDigitRun_some : ∀ (s run : Str), firstDigitRun s = some run →
    s ≠ [] ∧ ∃ d r, run = d :: r ∧ isDigit d = true ∧ ∀ x ∈ r, isDigit x = true := by
  intro s
  induction s with
  | nil => intro run h; simp [firstDigitRun] at h
  | cons c s ih =>
    intro run h
    refine ⟨by simp, ?_⟩
    rw [firstDigitRun] at h
    split at h
    · rename_i hc
      simp only [Option.some.injEq] at h
      refine ⟨c, s.takeWhile isDigit, ?_, hc, fun x hx => List.mem_takeWhile_imp hx⟩
      rw [← h, List.takeWhile_cons_of_pos hc]
    · exact (ih run h).2

theorem isAbsent_some (s : Str) (h : s ≠ []) : isAbsent (some s) = false := by
  cases s with
  | nil => exact absurd rfl h
  | cons _ _ => rfl


theorem restamp_itemRecord (itemName : Str) (count : JsNum) (t1 t2 : Str) :
    restamp t2 (itemRecord itemName count t1) = itemRecord itemName count t2 := by
  have h1 : ¬ js "itemName" = js "timestamp" := by decide
  have h2 : ¬ js "count" = js "timestamp" := by decide
  simp [restamp, itemRecord, setField, h1, h2]

theorem restamp_produceRecord (produce freshness expectedLifespan t1 t2 : Str) :
    restamp t2 (produceRecord produce freshness expectedLifespan t1)
      = produceRecord produce freshness expectedLifespan t2 := by
  have h1 : ¬ js "produce" = js "timestamp" := by decide
  have h2 : ¬ js "freshness" = js "timestamp" := by decide
  have h3 : ¬ js "expectedLifespan" = js "timestamp" := by decide
  simp [restamp, produceRecord, setField, h1, h2, h3]

theorem itemsLoop_restamp (t1 t2 : Str) : ∀ (ls : List Str) (items : List JsVal),
    itemsLoop t2 ls (items.map (restamp t2)) = (itemsLoop t1 ls items).map (restamp t2) := by
  intro ls
  induction ls with
  | nil => intro items; simp [itemsLoop]
  | cons l rest ih =>
    intro items
    rw [itemsLoop, itemsLoop]
    split
    · split
      · rw [← ih]
        simp [restamp_itemRecord]
      · exact ih items
    · exact ih items

theorem produceLoop_restamp (t1 t2 : Str) : ∀ (ls : List Str) (items : List JsVal),
    produceLoop t2 ls (items.map (restamp t2)) = (produceLoop t1 ls items).map (restamp t2) := by
  intro ls
  induction ls with
  | nil => intro items; simp [produceLoop]
  | cons l rest ih =>
    intro items
    rw [produceLoop, produceLoop]
    split
    · split
      · split
        · rw [← ih]
          simp [restamp_produceRecord]
        · exact ih items
      · exact ih items
    · exact ih items

theorem itemsTable_restamp (t1 t2 text : Str) :
    ∃ xs, itemsTable t1 text = .arr xs ∧ itemsTable t2 text = .arr (xs.map (restamp t2)) := by
  unfold itemsTable
  split
  · exact ⟨[], rfl, rfl⟩
  · refine ⟨_, rfl, ?_⟩
    have := itemsLoop_restamp t1 t2
      ((nonBlankLines text).drop (findIndex isItemsHeader (nonBlankLines text) + 1).toNat) []
    simp only [List.map_nil] at this
    rw [this]

theorem produceTable_restamp (t1 t2 text : Str) :
    ∃ xs, produceTable t1 text = .arr xs ∧ produceTable t2 text = .arr (xs.map (restamp t2)) := by
  unfold produceTable
  split
  · exact ⟨[], rfl, rfl⟩
  · refine ⟨_, rfl, ?_⟩
    have := produceLoop_restamp t1 t2
      ((nonBlankLines text).drop (findIndex isProduceHeader (nonBlankLines text) + 1).toNat) []
    simp only [List.map_nil] at this
    rw [this]


theorem startsWith_iff : ∀ (p s : Str), startsWith s p = true ↔ ∃ t, s = p ++ t := by
  intro p
  induction p with
  | nil => intro s; simp [startsWith_nil]
  | cons d p ih =>
    intro s
    cases s with
    | nil => simp [startsWith]
    | cons c s =>
      simp only [startsWith, Bool.and_eq_true, beq_iff_eq, List.cons_append, List.cons.injEq]
      rw [ih s]
      constructor
      · rintro ⟨h1, t, h2⟩
        exact ⟨t, h1, h2⟩
      · rintro ⟨t, h1, h2⟩
        exact ⟨h1, t, h2⟩

theorem endsWith_iff (p s : Str) : endsWith s p = true ↔ ∃ t, s = t ++ p := by
  unfold endsWith
  rw [startsWith_iff]
  constructor
  · rintro ⟨t, h⟩
    refine ⟨t.reverse, ?_⟩
    have := congrArg List.reverse h
    simpa using this
  · rintro ⟨t, h⟩
    refine ⟨t.reverse, ?_⟩
    rw [h]
    simp

theorem asciiLower_foldUnit (c : Nat) : asciiLower (foldUnit c) = asciiLower c := by
  unfold asciiLower foldUnit
  split_ifs <;> omega

theorem foldUnit_asciiLower (c : Nat) : foldUnit (asciiLower c) = foldUnit c := by
  unfold asciiLower foldUnit
  split_ifs <;> omega

theorem foldUnit_dot (c : Nat) (h : foldUnit c = 46) : c = 46 := by
  unfold foldUnit at h
  split_ifs at h <;> omega

theorem asciiLower_letters : ∀ (e : Str), (∀ c ∈ e, 97 ≤ c ∧ c ≤ 122) →
    e.map asciiLower = e := by
  intro e
  induction e with
  | nil => intro _; rfl
  | cons c e ih =>
    intro h
    have hc := h c (by simp)
    rw [List.map_cons, ih (fun x hx => h x (by simp [hx]))]
    congr 1
    unfold asciiLower
    rw [if_neg (by omega)]

theorem endsWith_fold_iff (e name : Str) (he : ∀ c ∈ e, 97 ≤ c ∧ c ≤ 122) :
    endsWith (name.map foldUnit) (46 :: e.map foldUnit) = true ↔
      ∃ stem ext, name = stem ++ 46 :: ext ∧ ext.map asciiLower = e := by
  rw [endsWith_iff]
  constructor
  · rintro ⟨t, h⟩
    obtain ⟨stem, q, hname, _, hq⟩ := List.map_eq_append_iff.mp h
    cases q with
    | nil => simp at hq
    | cons c0 ext =>
      simp only [List.map_cons, List.cons.injEq] at hq
      refine ⟨stem, ext, ?_, ?_⟩
      · rw [hname, foldUnit_dot c0 hq.1]
      · have h1 : ext.map asciiLower = (ext.map foldUnit).map asciiLower := by
          rw [List.map_map]
          apply List.map_congr_left
          intro x _
          exact (asciiLower_foldUnit x).symm
        rw [h1, hq.2, List.map_map]
        have h2 : e.map (asciiLower ∘ foldUnit) = e.map asciiLower := by
          apply List.map_congr_left
          intro x _
          exact asciiLower_foldUnit x
        rw [h2, asciiLower_letters e he]
  · rintro ⟨stem, ext, hname, hext⟩
    refine ⟨stem.map foldUnit, ?_⟩
    rw [hname, List.map_append, List.map_cons]
    have h46 : foldUnit 46 = 46 := by decide
    rw [h46]
    congr 2
    rw [← hext, List.map_map]
    apply List.map_congr_left
    intro x _
    exact (foldUnit_asciiLower x).symm

theorem imageNamePattern_iff (name : Str) :
    imageNamePattern name = true ↔ HasImageExtension name := by
  have e1 : js ".JPG" = 46 :: (js "jpg").map foldUnit := by rfl
  have e2 : js ".JPEG" = 46 :: (js "jpeg").map foldUnit := by rfl
  have e3 : js ".PNG" = 46 :: (js "png").map foldUnit := by rfl
  have e4 : js ".GIF" = 46 :: (js "gif").map foldUnit := by rfl
  have e5 : js ".WEBP" = 46 :: (js "webp").map foldUnit := by rfl
  unfold imageNamePattern HasImageExtension
  simp only [Bool.or_eq_true]
  rw [e1, e2, e3, e4, e5, endsWith_fold_iff (js "jpg") name (by decide),
    endsWith_fold_iff (js "jpeg") name (by decide), endsWith_fold_iff (js "png") name (by decide),
    endsWith_fold_iff (js "gif") name (by decide), endsWith_fold_iff (js "webp") name (by decide)]
  constructor
  · rintro ((((⟨stem, ext, h1, h2⟩ | ⟨stem, ext, h1, h2⟩) | ⟨stem, ext, h1, h2⟩) |
      ⟨stem, ext, h1, h2⟩) | ⟨stem, ext, h1, h2⟩) <;>
      exact ⟨stem, ext, h1, by rw [h2]; simp⟩
  · rintro ⟨stem, ext, h1, h2⟩
    simp only [List.mem_cons, List.mem_singleton, List.not_mem_nil, or_false] at h2
    rcases h2 with h | h | h | h | h
    · exact Or.inl (Or.inl (Or.inl (Or.inl ⟨stem, ext, h1, h⟩)))
    · exact Or.inl (Or.inl (Or.inl (Or.inr ⟨stem, ext, h1, h⟩)))
    · exact Or.inl (Or.inl (Or.inr ⟨stem, ext, h1, h⟩))
    · exact Or.inl (Or.inr ⟨stem, ext, h1, h⟩)
    · exact Or.inr ⟨stem, ext, h1, h⟩


theorem startsWith_unit_iff (c : Nat) (s : Str) :
    startsWith s [c] = true ↔ s.head? = some c := by
  cases s with
  | nil => simp [startsWith]
  | cons d r =>
    rw [startsWith_cons_unit]
    simp

theorem endsWith_unit_iff (c : Nat) (s : Str) :
    endsWith s [c] = true ↔ s.getLast? = some c := by
  unfold endsWith
  rw [List.reverse_singleton, startsWith_unit_iff, List.head?_reverse]

theorem columnsOf_eq (line : Str) :
    columnsOf line = ((split PIPE line).map trim).filter (fun seg => decide (seg ≠ [])) := by
  unfold columnsOf
  congr 1
  funext col
  cases col <;> rfl

theorem keepProduce_eq (produce : Str) :
    keepProduce produce = true ↔
      ¬ (produce = js "N/A" ∨ produce = js "-" ∨
        includes (toLowerCase produce) (js "packaged") = true) := by
  unfold keepProduce
  simp only [Bool.and_eq_true, bne_iff_ne, ne_eq, Bool.not_eq_true', not_or, Bool.not_eq_true]
  constructor
  · rintro ⟨⟨h1, h2⟩, h3⟩
    exact ⟨h1, h2, h3⟩
  · rintro ⟨h1, h2, h3⟩
    exact ⟨⟨h1, h2⟩, h3⟩

theorem produceLoop_single (timestamp l : Str) :
    produceLoop timestamp [l] [] = (produceRowRef timestamp l).toList := by
  rw [produceLoop]
  unfold produceRowRef
  rw [← columnsOf_eq]
  by_cases hrow : (startsWith (trim l) [PIPE] && endsWith (trim l) [PIPE]) = true
  · have hrow2 : (trim l).head? = some PIPE ∧ (trim l).getLast? = some PIPE := by
      simp only [Bool.and_eq_true] at hrow
      exact ⟨(startsWith_unit_iff _ _).mp hrow.1, (endsWith_unit_iff _ _).mp hrow.2⟩
    rw [if_pos hrow, if_pos hrow2]
    generalize columnsOf (trim l) = cols
    rcases cols with _ | ⟨produce, _ | ⟨freshness, _ | ⟨expectedLifespan, more⟩⟩⟩
    · simp [produceLoop]
    · simp [produceLoop]
    · simp [produceLoop]
    · dsimp only
      by_cases hk : keepProduce produce = true
      · rw [if_pos hk, if_neg ((keepProduce_eq produce).mp hk)]
        simp [produceLoop]
      · rw [if_neg hk, if_pos (by
          by_contra hc
          exact hk ((keepProduce_eq produce).mpr hc))]
        simp [produceLoop]
  · have hrow2 : ¬ ((trim l).head? = some PIPE ∧ (trim l).getLast? = some PIPE) := by
      rintro ⟨h1, h2⟩
      apply hrow
      simp only [Bool.and_eq_true]
      exact ⟨(startsWith_unit_iff _ _).mpr h1, (endsWith_unit_iff _ _).mpr h2⟩
    rw [if_neg hrow, if_neg hrow2]
    simp [produceLoop]

theorem produceLoop_filterMap (timestamp : Str) : ∀ (ls : List Str),
    produceLoop timestamp ls [] = ls.filterMap (produceRowRef timestamp) := by
  intro ls
  induction ls with
  | nil => rfl
  | cons l rest ih =>
    rw [produceLoop_cons, ih, produceLoop_single, List.filterMap_cons]
    cases produceRowRef timestamp l <;> rfl

theorem nonBlankLines_eq (text : Str) :
    nonBlankLines text = (split NEWLINE text).filter (fun line => decide (trim line ≠ [])) := by
  unfold nonBlankLines
  congr 1
  funext line
  cases trim line <;> simp

theorem findIndex_dropWhile (p : Str → Bool) : ∀ (ls : List Str),
    (findIndex p ls = -1 ∧ ls.dropWhile (fun l => !p l) = []) ∨
    (0 ≤ findIndex p ls ∧
      ls.drop (findIndex p ls + 1).toNat = (ls.dropWhile (fun l => !p l)).tail) := by
  intro ls
  induction ls with
  | nil => left; exact ⟨rfl, rfl⟩
  | cons l rest ih =>
    by_cases hp : p l = true
    · right
      rw [findIndex, if_pos hp]
      refine ⟨by omega, ?_⟩
      rw [List.dropWhile_cons_of_neg (by simp [hp])]
      rfl
    · rw [findIndex, if_neg hp]
      rcases ih with ⟨h1, h2⟩ | ⟨h1, h2⟩
      · left
        rw [if_pos h1, List.dropWhile_cons_of_pos (by simpa using hp)]
        exact ⟨rfl, h2⟩
      · right
        rw [if_neg (by omega), List.dropWhile_cons_of_pos (by simpa using hp), ← h2]
        refine ⟨by omega, ?_⟩
        have e : (findIndex p rest + 1 + 1).toNat = (findIndex p rest + 1).toNat + 1 := by omega
        rw [e, List.drop_succ_cons]


/-- C11, as the claim states it, fails: the count column `-3` gives the record
count -3 (`parseInt("-3") || 1` is -3), which is not at least 1. -/
theorem C11_counterexample :
    itemsTable (js "T") (js "| Item Name | Count |\n| Apple | -3 |")
      = .arr [itemRecord (js "Apple") (.int (-3)) (js "T")] ∧
    ¬ AtLeastOne (.int (-3)) :=
  ⟨by rfl, by show ¬ ((1 : Int) ≤ -3); decide⟩

/-- C11, amended. Every record that `parseTextToItems` produces from a table
row has a count that is a Number other than zero (and other than `NaN`); for a
data row whose count column does not start with `-`, the count is at least 1
(a positive integer, or `Infinity` for a digit run beyond the range of a
Number). -/
theorem C11_count_nonzero :
    (∀ (now text : Str) (items : List JsVal), itemsTable now text = .arr items →
      ∀ x ∈ items, ∃ itemName count, x = itemRecord itemName count now ∧ NonZero count) ∧
    (∀ (timestamp l : Str) (rest : List Str) (items : List JsVal)
        (itemName countStr : Str) (more : List Str),
      (startsWith (trim l) [PIPE] && endsWith (trim l) [PIPE]) = true →
      columnsOf (trim l) = itemName :: countStr :: more →
      startsWith countStr [45] = false →
      ∃ count, AtLeastOne count ∧
        itemsLoop timestamp (l :: rest) items
          = itemsLoop timestamp rest (items ++ [itemRecord itemName count timestamp])) := by
  constructor
  · intro now text items h x hx
    have hall : ∀ x ∈ items, ∃ itemName countStr,
        x = itemRecord itemName (parseIntOr1 countStr) now := by
      unfold itemsTable at h
      split at h
      · simp only [JsVal.arr.injEq] at h
        subst h
        simp
      · simp only [JsVal.arr.injEq] at h
        subst h
        exact itemsLoop_counts now _ [] (by simp)
    obtain ⟨itemName, countStr, rfl⟩ := hall x hx
    exact ⟨itemName, _, rfl, parseIntOr1_nonZero countStr⟩
  · intro timestamp l rest items itemName countStr more hrow hcols hsign
    refine ⟨parseIntOr1 countStr, ?_, itemsLoop_row timestamp l rest items itemName countStr
      more hrow hcols⟩
    apply parseIntOr1_atLeastOne
    rw [trimStart_column (trim l) countStr (by rw [hcols]; simp)]
    exact hsign

/-- Witness of the amended C11: the table with the rows `| Banana | 3 |` and
`| Apple | abc |`, and the row `| Banana | 3 |` alone. -/
theorem C11_count_nonzero_witness :
    (∀ x ∈ [itemRecord (js "Banana") (.int 3) (js "T"), itemRecord (js "Apple") (.int 1) (js "T")],
      ∃ itemName count, x = itemRecord itemName count (js "T") ∧ NonZero count) ∧
    (∃ count, AtLeastOne count ∧
      itemsLoop (js "T") [js "| Banana | 3 |"] []
        = itemsLoop (js "T") [] ([] ++ [itemRecord (js "Banana") count (js "T")])) :=
  ⟨C11_count_nonzero.1 (js "T") (js "| Item Name | Count |\n| Banana | 3 |\n| Apple | abc |")
      [itemRecord (js "Banana") (.int 3) (js "T"), itemRecord (js "Apple") (.int 1) (js "T")]
      (by rfl),
   C11_count_nonzero.2 (js "T") (js "| Banana | 3 |") [] [] (js "Banana") (js "3") []
      (by rfl) (by rfl) (by rfl)⟩

/-- C12, as the claim states it, fails: neither the backend step nor the JSON
tier of the frontend parsers adds a timestamp. The array
`[{"itemName":"Apple","count":2}]` comes back as parsed, its record without a
`timestamp` property. -/
theorem C12_counterexample :
    detectItemsParse (js "[\x7b\"itemName\":\"Apple\",\"count\":2\x7d]")
      = successResponse
          (.arr [.obj [(js "itemName", .str (js "Apple")), (js "count", .num (.int 2))]]) ∧
    parseTextToItems (js "2025-01-01T00:00:00.000Z") (js "[\x7b\"itemName\":\"Apple\",\"count\":2\x7d]")
      = .ok (.arr [.obj [(js "itemName", .str (js "Apple")), (js "count", .num (.int 2))]]) ∧
    (JsVal.obj [(js "itemName", .str (js "Apple")), (js "count", .num (.int 2))]).get
      (js "timestamp") = none :=
  ⟨by rfl, by rfl, by rfl⟩

/-- C12, amended. For every oracle text that `JSON.parse` reads as an array
of values lacking a `timestamp` property, the JSON tier of `parseTextToItems`
and of `parseTextToProduce`, and (when the text holds no fence marker) the
backend "Parse JSON" step, return the array as parsed: the records of the
result are the source objects, and none of them has a `timestamp`. -/
theorem C12_json_records_as_parsed (now text : Str) (xs : List JsVal)
    (hp : jsonParse text = .ok (.arr xs))
    (hts : ∀ x ∈ xs, x.get (js "timestamp") = none) :
    (∃ ys, parseTextToItems now text = .ok (.arr ys) ∧ ys = xs ∧
      ∀ y ∈ ys, y.get (js "timestamp") = none) ∧
    (∃ ys, parseTextToProduce now text = .ok (.arr ys) ∧ ys = xs ∧
      ∀ y ∈ ys, y.get (js "timestamp") = none) ∧
    (includes text (js "```") = false →
      ∃ ys, detectItemsParse text = successResponse (.arr ys) ∧
        detectFreshnessParse text = successResponse (.arr ys) ∧ ys = xs ∧
        ∀ y ∈ ys, y.get (js "timestamp") = none) := by
  have hj := jsonTier_of_array text xs hp
  refine ⟨⟨xs, parseTextToItems_json now text _ hj, rfl, hts⟩,
    ⟨xs, parseTextToProduce_json now text _ hj, rfl, hts⟩, ?_⟩
  intro hf
  obtain ⟨hc, hjt⟩ := cleanJsonString_of_array text xs hp hf
  refine ⟨xs, ?_, ?_, rfl, hts⟩
  · unfold detectItemsParse detectItemsTry
    rw [hc, jsonParse_jsonTrim text hjt, hp]
  · unfold detectFreshnessParse detectFreshnessTry
    rw [hc, jsonParse_jsonTrim text hjt, hp]

/-- Witness of the amended C12: an array of one record without `timestamp`. -/
theorem C12_json_records_as_parsed_witness :
    ∃ ys, parseTextToItems (js "2025-01-01T00:00:00.000Z")
        (js "[\x7b\"itemName\":\"Apple\",\"count\":2\x7d]") = .ok (.arr ys) ∧
      ys = [.obj [(js "itemName", .str (js "Apple")), (js "count", .num (.int 2))]] ∧
      ∀ y ∈ ys, y.get (js "timestamp") = none :=
  (C12_json_records_as_parsed (js "2025-01-01T00:00:00.000Z")
    (js "[\x7b\"itemName\":\"Apple\",\"count\":2\x7d]")
    [.obj [(js "itemName", .str (js "Apple")), (js "count", .num (.int 2))]]
    (by rfl) (by
      intro x hx
      simp only [List.mem_singleton] at hx
      subst hx
      rfl)).1

/-- C13. In the table tier of `parseTextToItems` and of `parseTextToProduce`
the records come in the order of the lines: every line yields at most one
record, the output of the loop is the concatenation, line after line, of what
each line yields, and when row `a` precedes row `b` and both yield a record,
the record of `a` precedes the record of `b`. -/
theorem C13_order_preserved (timestamp : Str) :
    (∀ lines : List Str,
      itemsLoop timestamp lines [] = lines.flatMap (fun l => itemsLoop timestamp [l] []) ∧
      produceLoop timestamp lines [] = lines.flatMap (fun l => produceLoop timestamp [l] [])) ∧
    (∀ l : Str, (itemsLoop timestamp [l] []).length ≤ 1 ∧
      (produceLoop timestamp [l] []).length ≤ 1) ∧
    (∀ (pre : List Str) (a : Str) (mid : List Str) (b : Str) (post : List Str) (ra rb : JsVal),
      itemsLoop timestamp [a] [] = [ra] → itemsLoop timestamp [b] [] = [rb] →
      itemsLoop timestamp (pre ++ a :: (mid ++ b :: post)) []
        = itemsLoop timestamp pre [] ++
            ra :: (itemsLoop timestamp mid [] ++ rb :: itemsLoop timestamp post [])) ∧
    (∀ (pre : List Str) (a : Str) (mid : List Str) (b : Str) (post : List Str) (ra rb : JsVal),
      produceLoop timestamp [a] [] = [ra] → produceLoop timestamp [b] [] = [rb] →
      produceLoop timestamp (pre ++ a :: (mid ++ b :: post)) []
        = produceLoop timestamp pre [] ++
            ra :: (produceLoop timestamp mid [] ++ rb :: produceLoop timestamp post [])) := by
  refine ⟨fun lines => ⟨itemsLoop_flatMap timestamp lines, produceLoop_flatMap timestamp lines⟩,
    fun l => ⟨itemsLoop_single_length timestamp l, produceLoop_single_length timestamp l⟩, ?_, ?_⟩
  · intro pre a mid b post ra rb ha hb
    rw [itemsLoop_append, itemsLoop_cons, itemsLoop_append, itemsLoop_cons timestamp b post, ha, hb]
    simp
  · intro pre a mid b post ra rb ha hb
    rw [produceLoop_append, produceLoop_cons, produceLoop_append,
      produceLoop_cons timestamp b post, ha, hb]
    simp

/-- Witness of C13: the rows `| Banana | 3 |` and `| Apple | 2 |` with a line
of prose between them. -/
theorem C13_order_preserved_witness :
    itemsLoop (js "T") ([] ++ js "| Banana | 3 |" :: ([js "and"] ++ js "| Apple | 2 |" :: [])) []
      = itemsLoop (js "T") [] [] ++
          itemRecord (js "Banana") (.int 3) (js "T") ::
            (itemsLoop (js "T") [js "and"] [] ++
              itemRecord (js "Apple") (.int 2) (js "T") :: itemsLoop (js "T") [] []) :=
  (C13_order_preserved (js "T")).2.2.1 [] (js "| Banana | 3 |") [js "and"] (js "| Apple | 2 |") []
    (itemRecord (js "Banana") (.int 3) (js "T")) (itemRecord (js "Apple") (.int 2) (js "T"))
    (by rfl) (by rfl)

/-- C14. All records returned by one table-tier call of `parseTextToItems`
(or of `parseTextToProduce`) carry the same `timestamp`: the instant `now`,
taken once per call. -/
theorem C14_shared_timestamp (now text : Str) (items : List JsVal) :
    (itemsTable now text = .arr items →
      ∀ x ∈ items, x.get (js "timestamp") = some (.str now)) ∧
    (produceTable now text = .arr items →
      ∀ x ∈ items, x.get (js "timestamp") = some (.str now)) := by
  constructor
  · intro h x hx
    obtain ⟨itemName, count, rfl⟩ := itemsTable_records now text items h x hx
    rfl
  · intro h x hx
    obtain ⟨produce, freshness, expectedLifespan, rfl⟩ := produceTable_records now text items h x hx
    rfl

/-- Witness of C14: a table of two rows. -/
theorem C14_shared_timestamp_witness :
    (itemRecord (js "Banana") (.int 3) (js "2025-01-01T00:00:00.000Z")).get (js "timestamp")
      = some (.str (js "2025-01-01T00:00:00.000Z")) ∧
    (itemRecord (js "Apple") (.int 2) (js "2025-01-01T00:00:00.000Z")).get (js "timestamp")
      = some (.str (js "2025-01-01T00:00:00.000Z")) :=
  ⟨(C14_shared_timestamp (js "2025-01-01T00:00:00.000Z")
      (js "| Item Name | Count |\n| Banana | 3 |\n| Apple | 2 |")
      [itemRecord (js "Banana") (.int 3) (js "2025-01-01T00:00:00.000Z"),
       itemRecord (js "Apple") (.int 2) (js "2025-01-01T00:00:00.000Z")]).1 (by rfl)
      (itemRecord (js "Banana") (.int 3) (js "2025-01-01T00:00:00.000Z"))
      (List.mem_cons_self _ _),
   (C14_shared_timestamp (js "2025-01-01T00:00:00.000Z")
      (js "| Item Name | Count |\n| Banana | 3 |\n| Apple | 2 |")
      [itemRecord (js "Banana") (.int 3) (js "2025-01-01T00:00:00.000Z"),
       itemRecord (js "Apple") (.int 2) (js "2025-01-01T00:00:00.000Z")]).1 (by rfl)
      (itemRecord (js "Apple") (.int 2) (js "2025-01-01T00:00:00.000Z"))
      (List.mem_cons_of_mem _ (List.mem_singleton.mpr rfl))⟩

/-- C15, as the claim states it, fails: a text without brackets that is valid
JSON is parsed and returned whatever its kind. For the single object
`{"itemName":"Apple","count":2}` the `result` is an object, neither an array
nor a string. -/
theorem C15_counterexample :
    detectItemsParse (js "\x7b\"itemName\":\"Apple\",\"count\":2\x7d")
      = successResponse (.obj [(js "itemName", .str (js "Apple")), (js "count", .num (.int 2))]) ∧
    detectFreshnessParse (js "\x7b\"itemName\":\"Apple\",\"count\":2\x7d")
      = successResponse (.obj [(js "itemName", .str (js "Apple")), (js "count", .num (.int 2))]) :=
  ⟨by rfl, by rfl⟩

/-- C15, amended. For every oracle text, the `result` of the Success response
of `detectItems` / `detectFreshness` is either the value that `JSON.parse`
gives for the cleaned string, which is never `null`, or the raw oracle text (a
string); when the text has a `[` before its last `]`, a parsed result is an
array, so the result is an array or the raw text. -/
theorem C15_result_kinds (text : Str) :
    ((∃ v, v ≠ JsVal.null ∧ jsonParse (cleanJsonString text) = .ok v ∧
        detectItemsParse text = successResponse v ∧
        detectFreshnessParse text = successResponse v) ∨
      (detectItemsParse text = successResponse (.str text) ∧
        detectFreshnessParse text = successResponse (.str text))) ∧
    (∀ pre mid post : Str, LBRACKET ∉ pre → RBRACKET ∉ post →
      text = pre ++ LBRACKET :: (mid ++ RBRACKET :: post) →
      (∃ xs, detectItemsParse text = successResponse (.arr xs) ∧
        detectFreshnessParse text = successResponse (.arr xs)) ∨
      (detectItemsParse text = successResponse (.str text) ∧
        detectFreshnessParse text = successResponse (.str text))) := by
  refine ⟨detectItemsParse_cases text, ?_⟩
  intro pre mid post h1 h2 ht
  rcases detectItemsParse_cases text with ⟨v, _, hv, hi, hf⟩ | h
  · left
    obtain ⟨z, hz⟩ := cleanJsonString_bracket pre mid post h1 h2
    rw [ht, hz] at hv
    obtain ⟨xs, rfl⟩ := jsonParse_bracket_isArr z v hv
    exact ⟨xs, hi, hf⟩
  · right
    exact h

/-- Witness of the amended C15: prose around an array, and prose around
brackets that hold no JSON. -/
theorem C15_result_kinds_witness :
    ((∃ xs, detectItemsParse (js "Here: " ++ LBRACKET :: (js "1, 2" ++ RBRACKET :: js " done"))
          = successResponse (.arr xs) ∧
        detectFreshnessParse (js "Here: " ++ LBRACKET :: (js "1, 2" ++ RBRACKET :: js " done"))
          = successResponse (.arr xs)) ∨
      (detectItemsParse (js "Here: " ++ LBRACKET :: (js "1, 2" ++ RBRACKET :: js " done"))
          = successResponse (.str (js "Here: " ++ LBRACKET :: (js "1, 2" ++ RBRACKET :: js " done"))) ∧
        detectFreshnessParse (js "Here: " ++ LBRACKET :: (js "1, 2" ++ RBRACKET :: js " done"))
          = successResponse (.str (js "Here: " ++ LBRACKET :: (js "1, 2" ++ RBRACKET :: js " done"))))) ∧
    detectItemsParse (js "Here: [1, 2] done")
      = successResponse (.arr [.num (.int 1), .num (.int 2)]) ∧
    detectItemsParse (js "see [a] and [b]") = successResponse (.str (js "see [a] and [b]")) :=
  ⟨(C15_result_kinds (js "Here: " ++ LBRACKET :: (js "1, 2" ++ RBRACKET :: js " done"))).2
      (js "Here: ") (js "1, 2") (js " done") (by decide) (by decide) rfl,
   by rfl, by rfl⟩

/-- C16: the claim holds for every error response but one. With no upload
(`req.file` undefined) `detectItems` and `detectFreshness` answer status 400
with the body `{ error: "No image uploaded" }`, which has no `message`; with an
upload, the answer is the "Parse JSON" answer to the oracle text or an error
response of the shape `{ message: "Error", error }`. -/
theorem C16_missing_upload_body :
    (∀ env : Env,
      detectItems none env
        = { status := 400, body := .obj [(js "error", .str (js "No image uploaded"))] } ∧
      (detectItems none env).body.get (js "message") = none ∧
      detectFreshness none env
        = { status := 400, body := .obj [(js "error", .str (js "No image uploaded"))] } ∧
      (detectFreshness none env).body.get (js "message") = none) ∧
    (∀ (file : Upload) (env : Env),
      ((∃ text, detectItems (some file) env = detectItemsParse text) ∨
        (∃ status error, detectItems (some file) env = errorResponse status error)) ∧
      ((∃ text, detectFreshness (some file) env = detectFreshnessParse text) ∨
        (∃ status error, detectFreshness (some file) env = errorResponse status error))) := by
  constructor
  · intro env
    exact ⟨rfl, rfl, rfl, rfl⟩
  · intro file env
    constructor
    · unfold detectItems
      simp only []
      split
      · exact Or.inr ⟨_, _, rfl⟩
      · split
        · exact Or.inr ⟨_, _, rfl⟩
        · split
          · exact Or.inr ⟨_, _, rfl⟩
          · split
            · exact Or.inr ⟨_, _, rfl⟩
            · exact Or.inl ⟨_, rfl⟩
    · unfold detectFreshness
      simp only []
      split
      · exact Or.inr ⟨_, _, rfl⟩
      · split
        · exact Or.inr ⟨_, _, rfl⟩
        · split
          · exact Or.inr ⟨_, _, rfl⟩
          · split
            · exact Or.inr ⟨_, _, rfl⟩
            · exact Or.inl ⟨_, rfl⟩

/-- C18, as the claim states it, fails: the table tier stamps every record
with the instant of the call, so two calls on the same text at two instants
return records that differ in `timestamp`. -/
theorem C18_counterexample :
    parseTextToItems (js "2025-01-01T00:00:00.000Z") (js "| Item Name | Count |\n| Banana | 3 |")
      = .ok (.arr [itemRecord (js "Banana") (.int 3) (js "2025-01-01T00:00:00.000Z")]) ∧
    parseTextToItems (js "2025-01-01T00:00:01.000Z") (js "| Item Name | Count |\n| Banana | 3 |")
      = .ok (.arr [itemRecord (js "Banana") (.int 3) (js "2025-01-01T00:00:01.000Z")]) ∧
    (itemRecord (js "Banana") (.int 3) (js "2025-01-01T00:00:00.000Z")).get (js "timestamp")
      ≠ (itemRecord (js "Banana") (.int 3) (js "2025-01-01T00:00:01.000Z")).get (js "timestamp") := by
  refine ⟨by rfl, by rfl, ?_⟩
  intro h
  have h2 : some (JsVal.str (js "2025-01-01T00:00:00.000Z"))
      = some (JsVal.str (js "2025-01-01T00:00:01.000Z")) := h
  simp only [Option.some.injEq, JsVal.str.injEq] at h2
  exact absurd h2 (by decide)

/-- C18, amended. `parseTextToItems` and `parseTextToProduce` are functions of
the text and of the instant of the call. When the JSON tier returns, the result
does not depend on the instant; otherwise the results of two calls on the same
text have the same records in the same order up to `timestamp`: the result at
`now2` is the result at `now1` with every `timestamp` set to `now2`. -/
theorem C18_function_of_text_and_instant (now1 now2 text : Str) :
    (∀ v, jsonTier text = some v →
      parseTextToItems now1 text = parseTextToItems now2 text ∧
      parseTextToProduce now1 text = parseTextToProduce now2 text) ∧
    (jsonTier text = none →
      (∃ xs, parseTextToItems now1 text = .ok (.arr xs) ∧
        parseTextToItems now2 text = .ok (.arr (xs.map (restamp now2)))) ∧
      (∃ xs, parseTextToProduce now1 text = .ok (.arr xs) ∧
        parseTextToProduce now2 text = .ok (.arr (xs.map (restamp now2))))) := by
  constructor
  · intro v hv
    rw [parseTextToItems_json now1 text v hv, parseTextToItems_json now2 text v hv,
      parseTextToProduce_json now1 text v hv, parseTextToProduce_json now2 text v hv]
    exact ⟨rfl, rfl⟩
  · intro hn
    rw [parseTextToItems_table now1 text hn, parseTextToItems_table now2 text hn,
      parseTextToProduce_table now1 text hn, parseTextToProduce_table now2 text hn]
    obtain ⟨xs, h1, h2⟩ := itemsTable_restamp now1 now2 text
    obtain ⟨ys, h3, h4⟩ := produceTable_restamp now1 now2 text
    exact ⟨⟨xs, by rw [h1], by rw [h2]⟩, ⟨ys, by rw [h3], by rw [h4]⟩⟩

/-- Witness of the amended C18: a one-row table read at two instants. -/
theorem C18_function_of_text_and_instant_witness :
    ∃ xs, parseTextToItems (js "2025-01-01T00:00:00.000Z")
        (js "| Item Name | Count |\n| Banana | 3 |") = .ok (.arr xs) ∧
      parseTextToItems (js "2025-01-01T00:00:01.000Z")
        (js "| Item Name | Count |\n| Banana | 3 |")
        = .ok (.arr (xs.map (restamp (js "2025-01-01T00:00:01.000Z")))) :=
  ((C18_function_of_text_and_instant (js "2025-01-01T00:00:00.000Z")
    (js "2025-01-01T00:00:01.000Z") (js "| Item Name | Count |\n| Banana | 3 |")).2 (by rfl)).1

/-- C19, as the claim states it, fails: the filter looks at the file name, not
at the MIME type. `photo.bmp` of type `image/bmp` is rejected with status 400,
and `notes.png` of type `text/plain` passes. -/
theorem C19_counterexample :
    isImageMime (js "image/bmp") = true ∧
    uploadFilterAnswer
        { path := js "uploads/1", originalname := js "photo.bmp", mimetype := js "image/bmp",
          size := 1000 }
      = some { status := 400,
               body := .obj [(js "error", .str (js "Only image files are allowed!"))] } ∧
    isImageMime (js "text/plain") = false ∧
    uploadFilterAnswer
        { path := js "uploads/2", originalname := js "notes.png", mimetype := js "text/plain",
          size := 1000 }
      = none :=
  ⟨by rfl, by rfl, by rfl, by rfl⟩

/-- C19, amended. The upload filter accepts a file if and only if its original
name ends with `.jpg`, `.jpeg`, `.png`, `.gif` or `.webp` in any letter case:
such a file passes the filter, and every other upload is rejected with status
400 and the error "Only image files are allowed!". The MIME type is not
looked at. -/
theorem C19_filter_by_extension (file : Upload) :
    (fileFilter file = .ok true ↔ HasImageExtension file.originalname) ∧
    (HasImageExtension file.originalname → uploadFilterAnswer file = none) ∧
    (¬ HasImageExtension file.originalname →
      uploadFilterAnswer file
        = some { status := 400,
                 body := .obj [(js "error", .str (js "Only image files are allowed!"))] }) := by
  have key := imageNamePattern_iff file.originalname
  by_cases h : imageNamePattern file.originalname = true
  · have hx : HasImageExtension file.originalname := key.mp h
    have hf : fileFilter file = .ok true := by simp [fileFilter, h]
    refine ⟨⟨fun _ => hx, fun _ => hf⟩, fun _ => ?_, fun hn => absurd hx hn⟩
    simp [uploadFilterAnswer, hf]
  · have hx : ¬ HasImageExtension file.originalname := fun hh => h (key.mpr hh)
    have hf : fileFilter file = .error (.other (js "Only image files are allowed!")) := by
      simp [fileFilter, h]
    refine ⟨⟨fun hh => ?_, fun hh => absurd hh hx⟩, fun hh => absurd hh hx, fun _ => ?_⟩
    · rw [hf] at hh
      cases hh
    · simp [uploadFilterAnswer, hf, handleUploadErrors]

/-- Witness of the amended C19: `Photo.JPG` passes, whatever its MIME type. -/
theorem C19_filter_by_extension_witness :
    uploadFilterAnswer
        { path := js "uploads/3", originalname := js "Photo.JPG", mimetype := js "text/plain",
          size := 1000 } = none :=
  (C19_filter_by_extension
    { path := js "uploads/3", originalname := js "Photo.JPG", mimetype := js "text/plain",
      size := 1000 }).2.1 ⟨js "Photo", js "JPG", by rfl, by decide⟩

/-- C20. The table tier of `parseTextToProduce` is the reference definition:
of the non-blank lines, those strictly after the first header line that, once
trimmed, start and end with `|` are split on `|`, the segments trimmed and the
empty ones dropped; a line with at least 3 segments and a name that is not
skipped yields the record of its first three segments; every other line, and
every line up to the header, yields nothing. -/
theorem C20_produce_table_reference (now text : Str) :
    produceTable now text = produceTableRef now text := by
  unfold produceTable produceTableRef
  rw [← nonBlankLines_eq]
  have hfun : (fun line => !(includes line (js "Produce") || includes line (js "Freshness") ||
      includes line (js "Expected Life") || includes line (js "Lifespan")))
      = (fun l => !isProduceHeader l) := by
    funext line
    rfl
  rw [hfun]
  rcases findIndex_dropWhile isProduceHeader (nonBlankLines text) with ⟨h1, h2⟩ | ⟨h1, h2⟩
  · rw [if_pos h1, h2]
    rfl
  · rw [if_neg (by omega), h2, produceLoop_filterMap]

/-! ## Lemmas for the slice, the fences and the handlers -/

theorem lastIndexOf_nonneg_or (c : Nat) : ∀ (s : Str),
    lastIndexOf c s = -1 ∨ 0 ≤ lastIndexOf c s := by
  intro s
  induction s with
  | nil => left; rfl
  | cons d s ih =>
    rw [lastIndexOf]
    rcases ih with h | h
    · rw [if_pos h]
      by_cases hd : d = c
      · right; simp [hd]
      · left; simp [hd]
    · right
      rw [if_neg (by omega)]
      omega

theorem indexOf_decomp (c : Nat) : ∀ (s : Str), 0 ≤ indexOf c s →
    ∃ pre t, s = pre ++ c :: t ∧ c ∉ pre := by
  intro s
  induction s with
  | nil => intro h; simp [indexOf] at h
  | cons d s ih =>
    intro h
    by_cases hd : d = c
    · exact ⟨[], s, by rw [hd]; rfl, by simp⟩
    · rw [indexOf, if_neg hd] at h
      rcases indexOf_nonneg_or c s with h1 | h1
      · rw [if_pos h1] at h
        omega
      · obtain ⟨pre, t, hs, hpre⟩ := ih h1
        refine ⟨d :: pre, t, by rw [hs]; rfl, ?_⟩
        simp only [List.mem_cons, not_or]
        exact ⟨fun e => hd e.symm, hpre⟩

theorem lastIndexOf_decomp (c : Nat) : ∀ (s : Str), 0 ≤ lastIndexOf c s →
    ∃ u post, s = u ++ c :: post ∧ c ∉ post := by
  intro s
  induction s with
  | nil => intro h; simp [lastIndexOf] at h
  | cons d s ih =>
    intro h
    rcases lastIndexOf_nonneg_or c s with h1 | h1
    · rw [lastIndexOf, if_pos h1] at h
      by_cases hd : d = c
      · refine ⟨[], s, by rw [hd]; rfl, ?_⟩
        intro hm
        obtain ⟨pre, t, hs, _⟩ : ∃ pre t, s = pre ++ c :: t ∧ True := by
          obtain ⟨a, b, hab⟩ := List.append_of_mem hm
          exact ⟨a, b, hab, trivial⟩
        have hcontra : ∀ (a b : Str), lastIndexOf c (a ++ c :: b) ≠ -1 := by
          intro a
          induction a with
          | nil =>
            intro b
            rw [List.nil_append, lastIndexOf]
            rcases lastIndexOf_nonneg_or c b with hb | hb
            · rw [if_pos hb]; simp
            · rw [if_neg (by omega)]; omega
          | cons x a iha =>
            intro b
            rw [List.cons_append, lastIndexOf, if_neg (iha b)]
            rcases lastIndexOf_nonneg_or c (a ++ c :: b) with hb | hb
            · exact absurd hb (iha b)
            · omega
        rw [hs] at h1
        exact hcontra pre t h1
      · rw [if_neg hd] at h
        omega
    · obtain ⟨u, post, hs, hpost⟩ := ih h1
      exact ⟨d :: u, post, by rw [hs]; rfl, hpost⟩

theorem bracket_decomp (text : Str) (h0 : 0 ≤ indexOf LBRACKET text)
    (h : indexOf LBRACKET text < lastIndexOf RBRACKET text) :
    ∃ pre mid post, text = pre ++ LBRACKET :: (mid ++ RBRACKET :: post) ∧
      LBRACKET ∉ pre ∧ RBRACKET ∉ post := by
  obtain ⟨pre, t, h1, hpre⟩ := indexOf_decomp LBRACKET text h0
  obtain ⟨u, post, h2, hpost⟩ := lastIndexOf_decomp RBRACKET text (by omega)
  have hi : indexOf LBRACKET text = (pre.length : Int) := by
    rw [h1]; exact indexOf_append LBRACKET pre t hpre
  have hj : lastIndexOf RBRACKET text = (u.length : Int) := by
    rw [h2]; exact lastIndexOf_append RBRACKET u post hpost
  rw [hi, hj] at h
  have hlen : pre.length < u.length := by omega
  have heq : pre ++ LBRACKET :: t = u ++ RBRACKET :: post := by rw [← h1, ← h2]
  rcases List.append_eq_append_iff.mp heq with ⟨a, ha1, ha2⟩ | ⟨a, ha1, _⟩
  · cases a with
    | nil =>
      rw [ha1] at hlen
      simp at hlen
    | cons x mid =>
      simp only [List.cons_append, List.cons.injEq] at ha2
      exact ⟨pre, mid, post, by rw [h1, ha2.2], hpre, hpost⟩
  · rw [ha1] at hlen
    simp at hlen

theorem substring_brackets (pre mid post : Str) (h1 : LBRACKET ∉ pre) (h2 : RBRACKET ∉ post) :
    substring (pre ++ LBRACKET :: (mid ++ RBRACKET :: post))
        (indexOf LBRACKET (pre ++ LBRACKET :: (mid ++ RBRACKET :: post)))
        (lastIndexOf RBRACKET (pre ++ LBRACKET :: (mid ++ RBRACKET :: post)) + 1)
      = LBRACKET :: (mid ++ [RBRACKET]) := by
  rw [indexOf_append LBRACKET pre _ h1]
  have e1 : pre ++ LBRACKET :: (mid ++ RBRACKET :: post)
      = (pre ++ LBRACKET :: mid) ++ RBRACKET :: post := by simp
  rw [e1, lastIndexOf_append RBRACKET _ post h2]
  have e2 : (pre ++ LBRACKET :: mid) ++ RBRACKET :: post
      = pre ++ ((LBRACKET :: (mid ++ [RBRACKET])) ++ post) := by simp
  have e3 : (((pre ++ LBRACKET :: mid).length : Nat) : Int) + 1
      = ((pre.length + (LBRACKET :: (mid ++ [RBRACKET])).length : Nat) : Int) := by
    simp; omega
  rw [e2, e3]
  exact substring_slice pre _ post


/-- C21, as the claim states it, fails: a text can hold both brackets with its
last `]` before its first `[`. For `"] ["` the two indices are swapped by
`substring` and the candidate is the space between the brackets. -/
theorem C21_counterexample :
    includes (js "] [") [LBRACKET] = true ∧ includes (js "] [") [RBRACKET] = true ∧
    sliceCandidate (js "] [") = js " " ∧
    (sliceCandidate (js "] [")).head? ≠ some LBRACKET :=
  ⟨by rfl, by rfl, by rfl, by decide⟩

/-- C21, amended. For every oracle text whose first `[` comes before its last
`]`, the candidate string the backend takes before fence stripping is the
substring from the first `[` through the last `]` inclusive: it begins with
`[` and ends with `]`. -/
theorem C21_candidate_is_slice (text : Str) (h0 : 0 ≤ indexOf LBRACKET text)
    (h : indexOf LBRACKET text < lastIndexOf RBRACKET text) :
    sliceCandidate text
      = substring text (indexOf LBRACKET text) (lastIndexOf RBRACKET text + 1) ∧
    (sliceCandidate text).head? = some LBRACKET ∧
    (sliceCandidate text).getLast? = some RBRACKET ∧
    (∃ pre mid post, text = pre ++ sliceCandidate text ++ post ∧
      sliceCandidate text = LBRACKET :: (mid ++ [RBRACKET]) ∧
      LBRACKET ∉ pre ∧ RBRACKET ∉ post) := by
  obtain ⟨pre, mid, post, ht, h1, h2⟩ := bracket_decomp text h0 h
  have hs : sliceCandidate text = LBRACKET :: (mid ++ [RBRACKET]) := by
    rw [ht]; exact sliceCandidate_slice pre mid post h1 h2
  have hsub : substring text (indexOf LBRACKET text) (lastIndexOf RBRACKET text + 1)
      = LBRACKET :: (mid ++ [RBRACKET]) := by
    rw [ht]; exact substring_brackets pre mid post h1 h2
  refine ⟨by rw [hs, hsub], by rw [hs]; rfl, ?_, ⟨pre, mid, post, ?_, hs, h1, h2⟩⟩
  · rw [hs, ← List.cons_append, List.getLast?_append]
    rfl
  · rw [hs, ht]
    simp

/-- Witness of the amended C21: prose around an array. -/
theorem C21_candidate_is_slice_witness :
    sliceCandidate (js "Here you go: [1, [2]] - done ]?")
      = substring (js "Here you go: [1, [2]] - done ]?")
          (indexOf LBRACKET (js "Here you go: [1, [2]] - done ]?"))
          (lastIndexOf RBRACKET (js "Here you go: [1, [2]] - done ]?") + 1) ∧
    sliceCandidate (js "Here you go: [1, [2]] - done ]?") = js "[1, [2]] - done ]" :=
  ⟨(C21_candidate_is_slice (js "Here you go: [1, [2]] - done ]?") (by decide) (by decide)).1,
   by rfl⟩

/-- C22. Whenever the cleaned candidate string fails to parse as JSON, the
`result` of the Success response of `detectItems` and of `detectFreshness` is
the oracle's original text itself, not the sliced or cleaned string. -/
theorem C22_failure_returns_original (text : Str) (e : JsError)
    (h : jsonParse (cleanJsonString text) = .error e) :
    detectItemsParse text = successResponse (.str text) ∧
    detectFreshnessParse text = successResponse (.str text) ∧
    (detectItemsParse text).body.get (js "result") = some (.str text) ∧
    (detectFreshnessParse text).body.get (js "result") = some (.str text) := by
  have h1 : detectItemsParse text = successResponse (.str text) := by
    simp [detectItemsParse, detectItemsTry, h]
  have h2 : detectFreshnessParse text = successResponse (.str text) := by
    simp [detectFreshnessParse, detectFreshnessTry, h]
  refine ⟨h1, h2, ?_, ?_⟩
  · rw [h1]; rfl
  · rw [h2]; rfl

/-- Witness of C22: a fenced text whose slice is not JSON; the cleaned string
is `[apples, pears]`, the result is the whole original text. -/
theorem C22_failure_returns_original_witness :
    cleanJsonString (js "```json\n[apples, pears]\n```") = js "[apples, pears]" ∧
    detectItemsParse (js "```json\n[apples, pears]\n```")
      = successResponse (.str (js "```json\n[apples, pears]\n```")) :=
  ⟨by rfl,
   (C22_failure_returns_original (js "```json\n[apples, pears]\n```") .SyntaxError (by rfl)).1⟩

theorem isApiKeyError_iff (message : Option Str) :
    isApiKeyError message = true ↔
      ∃ m, message = some m ∧
        (includes m (js "API key") = true ∨ includes m (js "authentication") = true ∨
          includes m (js "403") = true) := by
  cases message with
  | none => simp [isApiKeyError]
  | some m =>
    cases m with
    | nil =>
      have h1 : includes [] (js "API key") = false := by rfl
      have h2 : includes [] (js "authentication") = false := by rfl
      have h3 : includes [] (js "403") = false := by rfl
      simp [isApiKeyError, h1, h2, h3]
    | cons c r =>
      simp [isApiKeyError, or_assoc]

/-- C23. The global error handler answers with status 401 and the message
"API key issue. Please check your Gemini API key." exactly when the error's
message contains "API key", "authentication" or "403"; for every other error
it answers with status 500 and the error's message, or "Internal server
error" when the message is empty or missing. -/
theorem C23_global_error_handler (message : Option Str) :
    ((globalErrorHandler message).status = 401 ↔
      ∃ m, message = some m ∧
        (includes m (js "API key") = true ∨ includes m (js "authentication") = true ∨
          includes m (js "403") = true)) ∧
    ((globalErrorHandler message).status = 401 →
      (globalErrorHandler message).body.get (js "error")
        = some (.str (js "API key issue. Please check your Gemini API key."))) ∧
    ((globalErrorHandler message).status ≠ 401 →
      (globalErrorHandler message).status = 500 ∧
      (globalErrorHandler message).body.get (js "error")
        = some (.str (match message with
            | some (c :: r) => c :: r
            | _ => js "Internal server error"))) := by
  by_cases h : isApiKeyError message = true
  · have hr : globalErrorHandler message
        = { status := 401,
            body := .obj [(js "error", .str (js "API key issue. Please check your Gemini API key.")),
                          (js "details", .str (message.getD [])),
                          (js "status", .str (js "error"))] } := by
      simp [globalErrorHandler, h]
    refine ⟨⟨fun _ => (isApiKeyError_iff message).mp h, fun _ => by rw [hr]⟩,
      fun _ => by rw [hr]; rfl, fun hn => ?_⟩
    rw [hr] at hn
    exact absurd rfl hn
  · have hr : globalErrorHandler message
        = { status := 500,
            body := .obj [(js "error", .str (messageOrDefault message)),
                          (js "status", .str (js "error"))] } := by
      simp [globalErrorHandler, h]
    refine ⟨⟨fun hs => ?_, fun hm => absurd ((isApiKeyError_iff message).mpr hm) h⟩,
      fun hs => ?_, fun _ => ⟨by rw [hr], ?_⟩⟩
    · rw [hr] at hs
      cases hs
    · rw [hr] at hs
      cases hs
    · rw [hr]
      cases message with
      | none => rfl
      | some m =>
        cases m with
        | nil => rfl
        | cons c r => rfl

/-- Witness of C23: an authentication failure and a plain error. -/
theorem C23_global_error_handler_witness :
    (globalErrorHandler (some (js "Request failed: 403 Forbidden"))).body.get (js "error")
      = some (.str (js "API key issue. Please check your Gemini API key.")) ∧
    ((globalErrorHandler (some (js "disk full"))).status = 500 ∧
      (globalErrorHandler (some (js "disk full"))).body.get (js "error")
        = some (.str (match some (js "disk full") with
            | some (c :: r) => c :: r
            | _ => js "Internal server error"))) :=
  ⟨(C23_global_error_handler (some (js "Request failed: 403 Forbidden"))).2.1 (by rfl),
   (C23_global_error_handler (some (js "disk full"))).2.2 (by decide)⟩

/-- C24. `handleUploadErrors` answers a multer error of code `LIMIT_FILE_SIZE`
with status 413, any other multer error with status 400, any other error with
status 400 and the error's message, and without an error it calls `next()`
and sends nothing. -/
theorem C24_upload_error_mapping :
    (∀ message : Str,
      handleUploadErrors (some (.multer (js "LIMIT_FILE_SIZE") message))
        = some { status := 413,
                 body := .obj [(js "error", .str (js "File too large. Maximum size is 10MB."))] }) ∧
    (∀ code message : Str, code ≠ js "LIMIT_FILE_SIZE" →
      handleUploadErrors (some (.multer code message))
        = some { status := 400,
                 body := .obj [(js "error", .str (js "Upload error: " ++ message))] }) ∧
    (∀ message : Str,
      handleUploadErrors (some (.other message))
        = some { status := 400, body := .obj [(js "error", .str message)] }) ∧
    handleUploadErrors none = none := by
  refine ⟨fun message => by simp [handleUploadErrors], fun code message h => ?_,
    fun message => rfl, rfl⟩
  simp [handleUploadErrors, h]

/-- Witness of C24: a multer error of code `LIMIT_UNEXPECTED_FILE`. -/
theorem C24_upload_error_mapping_witness :
    handleUploadErrors (some (.multer (js "LIMIT_UNEXPECTED_FILE") (js "Unexpected field")))
      = some { status := 400,
               body := .obj [(js "error", .str (js "Upload error: " ++ js "Unexpected field"))] } :=
  C24_upload_error_mapping.2.1 (js "LIMIT_UNEXPECTED_FILE") (js "Unexpected field") (by decide)

theorem fence3_eq : js "```" = [BACKTICK, BACKTICK, BACKTICK] := by rfl

theorem fence7_eq : js "```json" = BACKTICK :: BACKTICK :: BACKTICK :: js "json" := by rfl

theorem startsWith_cons_cons (c d : Nat) (s p : Str) :
    startsWith (c :: s) (d :: p) = (c == d && startsWith s p) := rfl

theorem startsWith_head_ne (c d : Nat) (s p : Str) (h : c ≠ d) :
    startsWith (c :: s) (d :: p) = false := by
  rw [startsWith_cons_cons]
  simp [h]

theorem stripFences_nil (k : Nat) : stripFences k [] = [] := by
  cases k <;> rfl

theorem stripFences_keep (x : Nat) (s : Str) (hx : x ≠ BACKTICK) :
    stripFences 0 (x :: s) = x :: stripFences 0 s := by
  rw [stripFences, fence7_eq, fence3_eq, startsWith_head_ne x _ _ _ hx,
    startsWith_head_ne x _ _ _ hx]
  simp

theorem stripFences_keep_tick (s : Str) (hs : startsWith s [BACKTICK] = false) :
    stripFences 0 (BACKTICK :: s) = BACKTICK :: stripFences 0 s := by
  have h2 : ∀ p : Str, startsWith s (BACKTICK :: p) = false := by
    intro p
    cases s with
    | nil => rfl
    | cons y t =>
      rw [startsWith_cons_unit] at hs
      have hy : y ≠ BACKTICK := by simpa using hs
      exact startsWith_head_ne y _ _ _ hy
  rw [stripFences, fence7_eq, fence3_eq, startsWith_cons_cons, startsWith_cons_cons, h2, h2]
  simp

theorem stripFences_two_ticks (s : Str) (h : startsWith s [BACKTICK, BACKTICK] = false) :
    startsWith (stripFences 0 s) [BACKTICK, BACKTICK] = false := by
  cases s with
  | nil => rfl
  | cons x t =>
    by_cases hx : x = BACKTICK
    · subst hx
      rw [startsWith_cons_cons] at h
      have ht : startsWith t [BACKTICK] = false := by simpa using h
      rw [stripFences_keep_tick t ht, startsWith_cons_cons]
      cases t with
      | nil => rfl
      | cons y u =>
        rw [startsWith_cons_unit] at ht
        have hy : y ≠ BACKTICK := by simpa using ht
        rw [stripFences_keep y u hy, startsWith_head_ne y _ _ _ hy]
        simp
    · rw [stripFences_keep x t hx, startsWith_head_ne x _ _ _ hx]

theorem stripFences_no_fence : ∀ (s : Str) (k : Nat),
    includes (stripFences k s) (js "```") = false := by
  intro s
  induction s with
  | nil => intro k; rw [stripFences_nil]; rfl
  | cons c s ih =>
    intro k
    cases k with
    | succ k => rw [stripFences]; exact ih k
    | zero =>
      rw [stripFences]
      by_cases h7 : startsWith (c :: s) (js "```json") = true
      · rw [if_pos h7]; exact ih 6
      · rw [if_neg h7]
        by_cases h3 : startsWith (c :: s) (js "```") = true
        · rw [if_pos h3]; exact ih 2
        · rw [if_neg h3, includes, ih 0, Bool.or_false]
          rw [fence3_eq] at h3 ⊢
          by_cases hc : c = BACKTICK
          · subst hc
            rw [startsWith_cons_cons] at h3 ⊢
            have hs : startsWith s [BACKTICK, BACKTICK] = false := by simpa using h3
            rw [stripFences_two_ticks s hs]
            simp
          · exact startsWith_head_ne c _ _ _ hc

theorem trim_infix (x : Str) : ∃ a b, x = a ++ trim x ++ b := by
  obtain ⟨w, hw, _⟩ := rdrop_decomp isWhiteSpace (trimStart x)
  refine ⟨x.takeWhile isWhiteSpace, w, ?_⟩
  have h1 : x = x.takeWhile isWhiteSpace ++ trimStart x :=
    (List.takeWhile_append_dropWhile isWhiteSpace x).symm
  have h2 : trimStart x = trim x ++ w := hw
  rw [List.append_assoc, ← h2, ← h1]

theorem includes_trim_false (x p : Str) (h : includes x p = false) :
    includes (trim x) p = false := by
  cases ht : includes (trim x) p with
  | false => rfl
  | true =>
    obtain ⟨a, b, hx⟩ := trim_infix x
    have := includes_append_right p _ b (includes_append_left p a _ ht)
    rw [← hx, h] at this
    cases this

theorem trim_idem (x : Str) : trim (trim x) = trim x := by
  have h1 : trimStart (trim x) = trim x := by
    cases ht : trim x with
    | nil => rfl
    | cons c r => exact trimStart_cons c r (trim_head x c r ht)
  have h2 : trimEnd (trim x) = trim x := by
    show List.rdropWhile isWhiteSpace (List.rdropWhile isWhiteSpace (trimStart x))
      = List.rdropWhile isWhiteSpace (trimStart x)
    exact List.rdropWhile_idempotent _ _
  show trimEnd (trimStart (trim x)) = trim x
  rw [h1, h2]


/-- C25. For every string `s`, the backend's fence cleaning (every match of
"```json" or "```" removed, scanning left to right, then trimmed) returns a
string with no three backticks in a row; hence cleaning a cleaned string
changes nothing. -/
theorem C25_clean_has_no_fence (s : Str) :
    includes (cleanFences s) (js "```") = false ∧
    cleanFences (cleanFences s) = cleanFences s ∧
    cleanJsonString s = cleanFences (sliceCandidate s) := by
  have h1 : includes (cleanFences s) (js "```") = false :=
    includes_trim_false _ _ (stripFences_no_fence s 0)
  refine ⟨h1, ?_, rfl⟩
  show trim (stripFences 0 (cleanFences s)) = cleanFences s
  rw [stripFences_noop _ h1]
  exact trim_idem _

theorem mem_split (sep : Nat) : ∀ (s seg : Str), seg ∈ split sep s →
    ∀ c ∈ seg, c ∈ s ∧ c ≠ sep := by
  intro s
  induction s with
  | nil =>
    intro seg h c hc
    simp only [split, List.mem_singleton] at h
    subst h
    simp at hc
  | cons d s ih =>
    intro seg h c hc
    rw [split] at h
    by_cases hd : d = sep
    · rw [if_pos hd] at h
      rcases List.mem_cons.mp h with h1 | h1
      · subst h1
        simp at hc
      · obtain ⟨h2, h3⟩ := ih seg h1 c hc
        exact ⟨List.mem_cons_of_mem _ h2, h3⟩
    · rw [if_neg hd] at h
      cases hsp : split sep s with
      | nil =>
        rw [hsp] at h
        simp only [List.mem_singleton] at h
        subst h
        simp only [List.mem_singleton] at hc
        subst hc
        exact ⟨by simp, hd⟩
      | cons hseg t =>
        rw [hsp] at h
        rcases List.mem_cons.mp h with h1 | h1
        · subst h1
          rcases List.mem_cons.mp hc with h2 | h2
          · subst h2
            exact ⟨by simp, hd⟩
          · obtain ⟨h3, h4⟩ := ih hseg (by rw [hsp]; simp) c h2
            exact ⟨List.mem_cons_of_mem _ h3, h4⟩
        · obtain ⟨h3, h4⟩ := ih seg (by rw [hsp]; exact List.mem_cons_of_mem _ h1) c hc
          exact ⟨List.mem_cons_of_mem _ h3, h4⟩

theorem mem_trim (x : Str) (c : Nat) (h : c ∈ trim x) : c ∈ x := by
  obtain ⟨a, b, hx⟩ := trim_infix x
  rw [hx]
  simp [h]

theorem mem_columnsOf (line col : Str) (h : col ∈ columnsOf line) :
    col ≠ [] ∧ trim col = col ∧ ∀ c ∈ col, c ∈ line ∧ c ≠ PIPE := by
  unfold columnsOf at h
  obtain ⟨h1, h2⟩ := List.mem_filter.mp h
  obtain ⟨seg, hseg, hx⟩ := List.mem_map.mp h1
  refine ⟨?_, ?_, ?_⟩
  · intro e
    rw [e] at h2
    simp at h2
  · rw [← hx]
    exact trim_idem seg
  · intro c hc
    rw [← hx] at hc
    exact mem_split PIPE line seg hseg c (mem_trim seg c hc)

theorem itemsLoop_length (timestamp : Str) : ∀ (ls : List Str),
    (∀ l ∈ ls, (startsWith (trim l) [PIPE] && endsWith (trim l) [PIPE]) = true ∧
      2 ≤ (columnsOf (trim l)).length) →
    (itemsLoop timestamp ls []).length = ls.length := by
  intro ls
  induction ls with
  | nil => intro _; rfl
  | cons l rest ih =>
    intro h
    obtain ⟨hrow, hlen⟩ := h l (by simp)
    rw [itemsLoop_cons, List.length_append, ih (fun x hx => h x (by simp [hx]))]
    have h1 : (itemsLoop timestamp [l] []).length = 1 := by
      rcases hc : columnsOf (trim l) with _ | ⟨a, _ | ⟨b, more⟩⟩
      · rw [hc] at hlen; simp at hlen
      · rw [hc] at hlen; simp at hlen
      · rw [itemsLoop_row timestamp l [] [] a b more hrow hc]
        simp [itemsLoop]
    rw [h1, List.length_cons]
    omega

theorem separator_count (line b : Str) (c : Nat) (r : Str) (hb : b ∈ columnsOf line)
    (hcr : b = c :: r) (hsep : IsSeparatorLine line) : parseIntOr1 b = .int 1 := by
  obtain ⟨_, _, hchars⟩ := mem_columnsOf line b hb
  have hset : ∀ x ∈ b, x = 45 ∨ x = 58 ∨ x = 32 := by
    intro x hx
    obtain ⟨h1, h2⟩ := hchars x hx
    rcases hsep x h1 with e | e | e | e
    · exact absurd e h2
    · exact Or.inl e
    · exact Or.inr (Or.inl e)
    · exact Or.inr (Or.inr e)
  have hnd : ∀ x ∈ b, isDigit x = false := by
    intro x hx
    rcases hset x hx with e | e | e <;> subst e <;> rfl
  rw [hcr]
  apply parseIntOr1_nan c r (columnsOf_head line b hb c r hcr)
  · exact hnd c (by rw [hcr]; simp)
  · intro _ d hd
    cases r with
    | nil => simp at hd
    | cons y t =>
      simp only [List.head?_cons, Option.some.injEq] at hd
      subst hd
      exact hnd y (by rw [hcr]; simp)


/-- C26. For every text in which the first `[` occurs before the last `]`,
the text matched by the frontend pattern `/\[[\s\S]*\]/` is the backend's slice
`text.substring(text.indexOf("["), text.lastIndexOf("]") + 1)`. -/
theorem C26_match_equals_slice (text : Str) (h0 : 0 ≤ indexOf LBRACKET text)
    (h : indexOf LBRACKET text < lastIndexOf RBRACKET text) :
    matchJsonArray text
      = some (substring text (indexOf LBRACKET text) (lastIndexOf RBRACKET text + 1)) ∧
    matchJsonArray text = some (sliceCandidate text) := by
  obtain ⟨pre, mid, post, ht, h1, h2⟩ := bracket_decomp text h0 h
  have hm : matchJsonArray text = some (LBRACKET :: (mid ++ [RBRACKET])) := by
    rw [ht]; exact matchJsonArray_slice pre mid post h1 h2
  have hsub : substring text (indexOf LBRACKET text) (lastIndexOf RBRACKET text + 1)
      = LBRACKET :: (mid ++ [RBRACKET]) := by
    rw [ht]; exact substring_brackets pre mid post h1 h2
  have hs : sliceCandidate text = LBRACKET :: (mid ++ [RBRACKET]) := by
    rw [ht]; exact sliceCandidate_slice pre mid post h1 h2
  exact ⟨by rw [hm, hsub], by rw [hm, hs]⟩

/-- Witness of C26: a text with brackets before, inside and after the array. -/
theorem C26_match_equals_slice_witness :
    matchJsonArray (js "a]b[c]d]e[f")
      = some (substring (js "a]b[c]d]e[f") (indexOf LBRACKET (js "a]b[c]d]e[f"))
          (lastIndexOf RBRACKET (js "a]b[c]d]e[f") + 1)) ∧
    matchJsonArray (js "a]b[c]d]e[f") = some (sliceCandidate (js "a]b[c]d]e[f")) :=
  C26_match_equals_slice (js "a]b[c]d]e[f") (by decide) (by decide)

/-- C27, as the claim states it, fails: nothing skips the separator line. For
the header, the separator `|---|---|` and the one data row `| Banana | 3 |`,
`parseTextToItems` returns two records, the first one read from the separator:
`itemName` "---" and `count` 1. -/
theorem C27_counterexample :
    IsSeparatorLine (js "|---|---|") ∧
    parseTextToItems (js "T") (js "| Item Name | Count |\n|---|---|\n| Banana | 3 |")
      = .ok (.arr [itemRecord (js "---") (.int 1) (js "T"),
                   itemRecord (js "Banana") (.int 3) (js "T")]) :=
  ⟨by unfold IsSeparatorLine; decide, by rfl⟩

/-- C27, amended. For a markdown table made of a header line, a separator line
consisting only of `|`, `-`, `:` and spaces that has at least two cells, and n
data rows with a name and a count column, `parseTextToItems` returns n + 1
records: the separator line is read as a data row, and its record has the
first cell as `itemName` and the `count` 1. -/
theorem C27_separator_is_a_row :
    (∀ (timestamp sep : Str) (rest : List Str) (items : List JsVal) (a b : Str)
        (more : List Str),
      (startsWith (trim sep) [PIPE] && endsWith (trim sep) [PIPE]) = true →
      columnsOf (trim sep) = a :: b :: more → IsSeparatorLine sep →
      itemsLoop timestamp (sep :: rest) items
        = itemsLoop timestamp rest (items ++ [itemRecord a (.int 1) timestamp])) ∧
    (∀ (now text header sep : Str) (rows : List Str),
      LBRACKET ∉ text → nonBlankLines text = header :: sep :: rows →
      isItemsHeader header = true →
      (∀ l ∈ sep :: rows, (startsWith (trim l) [PIPE] && endsWith (trim l) [PIPE]) = true ∧
        2 ≤ (columnsOf (trim l)).length) →
      ∃ items, parseTextToItems now text = .ok (.arr items) ∧
        items.length = rows.length + 1) := by
  constructor
  · intro timestamp sep rest items a b more hrow hcols hsep
    rw [itemsLoop_row timestamp sep rest items a b more hrow hcols]
    have hb : b ∈ columnsOf (trim sep) := by rw [hcols]; simp
    have hsep2 : IsSeparatorLine (trim sep) := fun c hc => hsep c (mem_trim sep c hc)
    obtain ⟨hne, _, _⟩ := mem_columnsOf (trim sep) b hb
    cases hbc : b with
    | nil => exact absurd hbc hne
    | cons c r =>
      rw [← hbc, separator_count (trim sep) b c r hb hbc hsep2]
  · intro now text header sep rows hbr hlines hhead hrows
    refine ⟨itemsLoop now (sep :: rows) [], ?_, ?_⟩
    · rw [parseTextToItems_table now text (jsonTier_none text hbr)]
      unfold itemsTable
      rw [hlines, findIndex_head isItemsHeader header (sep :: rows) hhead, if_neg (by decide)]
      rfl
    · rw [itemsLoop_length now (sep :: rows) hrows]
      rfl

/-- Witness of the amended C27: the table of the counterexample. -/
theorem C27_separator_is_a_row_witness :
    itemsLoop (js "T") [js "|---|---|"] []
      = itemsLoop (js "T") [] ([] ++ [itemRecord (js "---") (.int 1) (js "T")]) ∧
    (∃ items, parseTextToItems (js "T")
        (js "| Item Name | Count |\n|---|---|\n| Banana | 3 |\n| Apple | 2 |") = .ok (.arr items) ∧
      items.length = [js "| Banana | 3 |", js "| Apple | 2 |"].length + 1) :=
  ⟨C27_separator_is_a_row.1 (js "T") (js "|---|---|") [] [] (js "---") (js "---") []
      (by rfl) (by rfl) (by unfold IsSeparatorLine; decide),
   C27_separator_is_a_row.2 (js "T")
      (js "| Item Name | Count |\n|---|---|\n| Banana | 3 |\n| Apple | 2 |")
      (js "| Item Name | Count |") (js "|---|---|") [js "| Banana | 3 |", js "| Apple | 2 |"]
      (by decide) (by rfl) (by rfl) (by decide)⟩

theorem itemsLoop_source (timestamp : Str) : ∀ (ls : List Str) (items : List JsVal)
    (x : JsVal), x ∈ itemsLoop timestamp ls items →
    x ∈ items ∨ ∃ l ∈ ls, ∃ itemName countStr more,
      columnsOf (trim l) = itemName :: countStr :: more ∧
      x = itemRecord itemName (parseIntOr1 countStr) timestamp := by
  intro ls
  induction ls with
  | nil => intro items x h; left; simpa [itemsLoop] using h
  | cons l rest ih =>
    intro items x h
    rw [itemsLoop] at h
    have lift : (x ∈ items ∨ ∃ l' ∈ rest, ∃ itemName countStr more,
        columnsOf (trim l') = itemName :: countStr :: more ∧
        x = itemRecord itemName (parseIntOr1 countStr) timestamp) →
        (x ∈ items ∨ ∃ l' ∈ l :: rest, ∃ itemName countStr more,
        columnsOf (trim l') = itemName :: countStr :: more ∧
        x = itemRecord itemName (parseIntOr1 countStr) timestamp) := by
      rintro (h1 | ⟨l', hl', hrest⟩)
      · exact Or.inl h1
      · exact Or.inr ⟨l', List.mem_cons_of_mem _ hl', hrest⟩
    split at h
    · split at h
      · rename_i itemName countStr more hc
        rcases ih _ x h with h1 | h1
        · rcases List.mem_append.mp h1 with h2 | h2
          · exact Or.inl h2
          · simp only [List.mem_singleton] at h2
            exact Or.inr ⟨l, by simp, itemName, countStr, more, hc, h2⟩
        · exact lift (Or.inr h1)
      · exact lift (ih items x h)
    · exact lift (ih items x h)

theorem produceLoop_source (timestamp : Str) : ∀ (ls : List Str) (items : List JsVal)
    (x : JsVal), x ∈ produceLoop timestamp ls items →
    x ∈ items ∨ ∃ l ∈ ls, ∃ produce freshness expectedLifespan more,
      columnsOf (trim l) = produce :: freshness :: expectedLifespan :: more ∧
      keepProduce produce = true ∧
      x = produceRecord produce freshness expectedLifespan timestamp := by
  intro ls
  induction ls with
  | nil => intro items x h; left; simpa [produceLoop] using h
  | cons l rest ih =>
    intro items x h
    rw [produceLoop] at h
    have lift : (x ∈ items ∨ ∃ l' ∈ rest, ∃ produce freshness expectedLifespan more,
        columnsOf (trim l') = produce :: freshness :: expectedLifespan :: more ∧
        keepProduce produce = true ∧
        x = produceRecord produce freshness expectedLifespan timestamp) →
        (x ∈ items ∨ ∃ l' ∈ l :: rest, ∃ produce freshness expectedLifespan more,
        columnsOf (trim l') = produce :: freshness :: expectedLifespan :: more ∧
        keepProduce produce = true ∧
        x = produceRecord produce freshness expectedLifespan timestamp) := by
      rintro (h1 | ⟨l', hl', hrest⟩)
      · exact Or.inl h1
      · exact Or.inr ⟨l', List.mem_cons_of_mem _ hl', hrest⟩
    split at h
    · split at h
      · rename_i produce freshness expectedLifespan more hc
        split at h
        · rename_i hk
          rcases ih _ x h with h1 | h1
          · rcases List.mem_append.mp h1 with h2 | h2
            · exact Or.inl h2
            · simp only [List.mem_singleton] at h2
              exact Or.inr ⟨l, by simp, produce, freshness, expectedLifespan, more, hc, hk, h2⟩
          · exact lift (Or.inr h1)
        · exact lift (ih items x h)
      · exact lift (ih items x h)
    · exact lift (ih items x h)

theorem itemsTable_source (now text : Str) (items : List JsVal)
    (h : itemsTable now text = .arr items) (x : JsVal) (hx : x ∈ items) :
    ∃ l itemName countStr more, columnsOf (trim l) = itemName :: countStr :: more ∧
      x = itemRecord itemName (parseIntOr1 countStr) now := by
  unfold itemsTable at h
  split at h
  · simp only [JsVal.arr.injEq] at h
    subst h
    simp at hx
  · simp only [JsVal.arr.injEq] at h
    subst h
    rcases itemsLoop_source now _ [] x hx with h1 | ⟨l, _, r⟩
    · simp at h1
    · exact ⟨l, r⟩

theorem produceTable_source (now text : Str) (items : List JsVal)
    (h : produceTable now text = .arr items) (x : JsVal) (hx : x ∈ items) :
    ∃ l produce freshness expectedLifespan more,
      columnsOf (trim l) = produce :: freshness :: expectedLifespan :: more ∧
      keepProduce produce = true ∧
      x = produceRecord produce freshness expectedLifespan now := by
  unfold produceTable at h
  split at h
  · simp only [JsVal.arr.injEq] at h
    subst h
    simp at hx
  · simp only [JsVal.arr.injEq] at h
    subst h
    rcases produceLoop_source now _ [] x hx with h1 | ⟨l, _, r⟩
    · simp at h1
    · exact ⟨l, r⟩

theorem cleanField_of_column (line col : Str) (h : col ∈ columnsOf line) : CleanField col := by
  obtain ⟨h1, h2, h3⟩ := mem_columnsOf line col h
  exact ⟨h1, h2, fun hp => (h3 PIPE hp).2 rfl⟩


/-- C28, as the claim states it, fails: the JSON tier of `parseTextToProduce`
returns the parsed array without any filter. The record with `produce` "N/A"
is returned. -/
theorem C28_counterexample :
    parseTextToProduce (js "T")
        (js "[\x7b\"produce\":\"N/A\",\"freshness\":\"-\",\"expectedLifespan\":\"-\"\x7d]")
      = .ok (.arr [.obj [(js "produce", .str (js "N/A")), (js "freshness", .str (js "-")),
                         (js "expectedLifespan", .str (js "-"))]]) ∧
    (JsVal.obj [(js "produce", .str (js "N/A")), (js "freshness", .str (js "-")),
                (js "expectedLifespan", .str (js "-"))]).get (js "produce")
      = some (.str (js "N/A")) :=
  ⟨by rfl, by rfl⟩

/-- C28, amended. For every text on which the JSON tier does not return, no
record returned by `parseTextToProduce` (the table tier) has a produce name
equal to "N/A" or "-" or containing "packaged" in any letter case. -/
theorem C28_table_names_filtered (now text : Str) (items : List JsVal)
    (hj : jsonTier text = none) (h : parseTextToProduce now text = .ok (.arr items)) :
    ∀ x ∈ items, ∃ produce freshness expectedLifespan,
      x = produceRecord produce freshness expectedLifespan now ∧
      x.get (js "produce") = some (.str produce) ∧
      produce ≠ js "N/A" ∧ produce ≠ js "-" ∧ ¬ ContainsAnyCase produce (js "packaged") := by
  intro x hx
  rw [parseTextToProduce_table now text hj] at h
  simp only [Except.ok.injEq] at h
  obtain ⟨l, produce, freshness, expectedLifespan, more, _, hk, rfl⟩ :=
    produceTable_source now text items h x hx
  have hk2 := (keepProduce_eq produce).mp hk
  simp only [not_or] at hk2
  refine ⟨produce, freshness, expectedLifespan, rfl, rfl, hk2.1, hk2.2.1, ?_⟩
  intro hc
  exact hk2.2.2 (includes_lower_of_containsAnyCase produce hc)

/-- Witness of the amended C28: a table with a kept row and three skipped
rows. -/
theorem C28_table_names_filtered_witness :
    ∃ produce freshness expectedLifespan,
      produceRecord (js "Gala Apple") (js "crisp") (js "5 days") (js "T")
        = produceRecord produce freshness expectedLifespan (js "T") ∧
      (produceRecord (js "Gala Apple") (js "crisp") (js "5 days") (js "T")).get (js "produce")
        = some (.str produce) ∧
      produce ≠ js "N/A" ∧ produce ≠ js "-" ∧ ¬ ContainsAnyCase produce (js "packaged") :=
  C28_table_names_filtered (js "T")
    (js "| Produce | Freshness | Expected Lifespan |\n| Gala Apple | crisp | 5 days |\n| N/A | - | - |\n| - | - | - |\n| Packaged Rice | n/a | n/a |")
    [produceRecord (js "Gala Apple") (js "crisp") (js "5 days") (js "T")] (by rfl) (by rfl)
    (produceRecord (js "Gala Apple") (js "crisp") (js "5 days") (js "T"))
    (List.mem_singleton.mpr rfl)

/-- C29. Every record produced by the table tier of `parseTextToItems` or of
`parseTextToProduce` has text fields (`itemName`; `produce`, `freshness`,
`expectedLifespan`) that are non-empty, have no white space at either end, and
contain no `|`. -/
theorem C29_table_fields_clean (now text : Str) (items : List JsVal) :
    (itemsTable now text = .arr items →
      ∀ x ∈ items, ∃ itemName count,
        x = itemRecord itemName count now ∧ CleanField itemName) ∧
    (produceTable now text = .arr items →
      ∀ x ∈ items, ∃ produce freshness expectedLifespan,
        x = produceRecord produce freshness expectedLifespan now ∧
        CleanField produce ∧ CleanField freshness ∧ CleanField expectedLifespan) := by
  constructor
  · intro h x hx
    obtain ⟨l, itemName, countStr, more, hc, rfl⟩ := itemsTable_source now text items h x hx
    exact ⟨itemName, _, rfl, cleanField_of_column (trim l) itemName (by rw [hc]; simp)⟩
  · intro h x hx
    obtain ⟨l, produce, freshness, expectedLifespan, more, hc, _, rfl⟩ :=
      produceTable_source now text items h x hx
    exact ⟨produce, freshness, expectedLifespan, rfl,
      cleanField_of_column (trim l) produce (by rw [hc]; simp),
      cleanField_of_column (trim l) freshness (by rw [hc]; simp),
      cleanField_of_column (trim l) expectedLifespan (by rw [hc]; simp)⟩

/-- Witness of C29: a row with padded cells. -/
theorem C29_table_fields_clean_witness :
    ∃ itemName count,
      itemRecord (js "Red Apple") (.int 3) (js "T") = itemRecord itemName count (js "T") ∧
      CleanField itemName :=
  (C29_table_fields_clean (js "T") (js "| Item Name | Count |\n|   Red Apple  |  3  |")
    [itemRecord (js "Red Apple") (.int 3) (js "T")]).1 (by rfl)
    (itemRecord (js "Red Apple") (.int 3) (js "T")) (List.mem_singleton.mpr rfl)

theorem roundToDouble_large (m v : Nat) (h53 : 2 ^ 53 ≤ m) (h : roundToDouble m = some v) :
    2 ^ 52 ≤ v := by
  unfold roundToDouble at h
  rw [if_neg (by omega)] at h
  have hspec := excessBits_spec m 0 m (by
    have : (2 : Nat) ^ (52 + 0) ≤ 2 ^ 53 := by norm_num
    omega)
  generalize excessBits m 0 m = e at h hspec
  have hpe : 0 < 2 ^ e := Nat.two_pow_pos e
  have hq : 2 ^ 52 ≤ m / 2 ^ e := by
    rw [Nat.le_div_iff_mul_le hpe, ← Nat.pow_add]
    exact hspec
  dsimp only at h
  generalize hq1 : (if 2 ^ (e - 1) < m % 2 ^ e ∨ m % 2 ^ e = 2 ^ (e - 1) ∧ m / 2 ^ e % 2 = 1
    then m / 2 ^ e + 1 else m / 2 ^ e) = q1 at h
  have hq1ge : 2 ^ 52 ≤ q1 := by
    rw [← hq1]
    split <;> omega
  by_cases hc : e < 971 ∨ e = 971 ∧ q1 < 2 ^ 53
  · rw [if_pos hc] at h
    simp only [Option.some.injEq] at h
    rw [← h]
    calc 2 ^ 52 ≤ q1 := hq1ge
      _ = q1 * 1 := (Nat.mul_one q1).symm
      _ ≤ q1 * 2 ^ e := Nat.mul_le_mul_left q1 hpe
  · rw [if_neg hc] at h
    cases h

theorem numLe_toNumber (m : Nat) (k : Nat) (hk : k < 2 ^ 52) :
    numLe (some (toNumber false m)) (k : Int) = decide (m ≤ k) := by
  unfold toNumber
  by_cases hm : m < 2 ^ 53
  · have hr : roundToDouble m = some m := by unfold roundToDouble; rw [if_pos hm]
    rw [hr]
    simp [numLe]
  · cases hr : roundToDouble m with
    | none =>
      have : ¬ m ≤ k := by
        have : (2 : Nat) ^ 52 ≤ 2 ^ 53 := by norm_num
        omega
      simp [numLe, this]
    | some v =>
      have hv := roundToDouble_large m v (by omega) hr
      have h1 : ¬ m ≤ k := by
        have : (2 : Nat) ^ 52 ≤ 2 ^ 53 := by norm_num
        omega
      have h2 : ¬ ((v : Int) ≤ (k : Int)) := by omega
      simp [numLe, h1, h2]

theorem parseIntNumber_run (d : Nat) (r : Str) (hd : isDigit d = true)
    (hr : ∀ x ∈ r, isDigit x = true) :
    parseIntNumber (d :: r) = some (toNumber false (digitsValue (d :: r))) := by
  have hall : ∀ x ∈ d :: r, isDigit x = true := by
    intro x hx
    rcases List.mem_cons.mp hx with e | e
    · rw [e]; exact hd
    · exact hr x e
  have hx : startsWith ((d :: r) ++ []) [48, 120] = false ∧
      startsWith ((d :: r) ++ []) [48, 88] = false :=
    ⟨no_hex_start 120 (by decide) d r [] hr (by simp),
     no_hex_start 88 (by decide) d r [] hr (by simp)⟩
  have hp := parseInt_digits (d :: r) [] (by simp) hall (by simp) hx
  rw [List.append_nil] at hp
  unfold parseIntNumber
  rw [hp]

theorem isDigit_iff (c : Nat) : isDigit c = true ↔ IsDecimalDigit c := by
  simp [isDigit, IsDecimalDigit]

theorem isDigit_false_iff (c : Nat) : isDigit c = false ↔ ¬ IsDecimalDigit c := by
  rw [← isDigit_iff]
  simp

theorem firstRun_cons_digit (c : Nat) (s : Str) (hc : IsDecimalDigit c) :
    firstRun (c :: s) = (c :: s).takeWhile isDigit := by
  have hp : (fun x => decide (IsDecimalDigit x)) = isDigit := by
    funext x
    by_cases hx : IsDecimalDigit x
    · simp [hx, (isDigit_iff x).mpr hx]
    · simp [hx, (isDigit_false_iff x).mpr hx]
  unfold firstRun
  rw [List.dropWhile_cons_of_neg (by simpa using hc), hp]

theorem firstRun_cons_other (c : Nat) (s : Str) (hc : ¬ IsDecimalDigit c) :
    firstRun (c :: s) = firstRun s := by
  unfold firstRun
  rw [List.dropWhile_cons_of_pos (by simpa using hc)]

theorem firstDigitRun_firstRun : ∀ (s : Str),
    firstDigitRun s = if firstRun s = [] then none else some (firstRun s) := by
  intro s
  induction s with
  | nil => rfl
  | cons c s ih =>
    by_cases hc : IsDecimalDigit c
    · have hd : isDigit c = true := (isDigit_iff c).mpr hc
      rw [firstDigitRun, if_pos hd, firstRun_cons_digit c s hc, List.takeWhile_cons_of_pos hd]
      simp
    · have hd : ¬ isDigit c = true := by
        rw [isDigit_iff]
        exact hc
      rw [firstDigitRun, if_neg hd, firstRun_cons_other c s hc]
      exact ih

theorem firstRun_of_some (s run : Str) (h : firstDigitRun s = some run) : firstRun s = run := by
  rw [firstDigitRun_firstRun] at h
  by_cases hne : firstRun s = []
  · rw [if_pos hne] at h
    cases h
  · rw [if_neg hne] at h
    exact Option.some.inj h

theorem firstRun_of_none (s : Str) (h : firstDigitRun s = none) : firstRun s = [] := by
  rw [firstDigitRun_firstRun] at h
  by_cases hne : firstRun s = []
  · exact hne
  · rw [if_neg hne] at h
    cases h

theorem firstDigitRun_decomp (pre run post : Str) (hpre : ∀ c ∈ pre, ¬ IsDecimalDigit c)
    (hne : run ≠ []) (hrun : ∀ c ∈ run, IsDecimalDigit c)
    (hpost : ∀ c, post.head? = some c → ¬ IsDecimalDigit c) :
    firstDigitRun (pre ++ run ++ post) = some run := by
  induction pre with
  | nil =>
    cases run with
    | nil => exact absurd rfl hne
    | cons d r =>
      have hd : isDigit d = true := (isDigit_iff d).mpr (hrun d (by simp))
      have ht := takeWhile_append_stop isDigit (d :: r) post
        (fun x hx => (isDigit_iff x).mpr (hrun x hx))
        (fun c hc => (isDigit_false_iff c).mpr (hpost c hc))
      simp only [List.nil_append, List.cons_append] at ht ⊢
      rw [firstDigitRun, if_pos hd, ht]
  | cons c pre ih =>
    have hd : ¬ isDigit c = true := by
      rw [isDigit_iff]
      exact hpre c (by simp)
    simp only [List.cons_append]
    rw [firstDigitRun, if_neg hd]
    have := ih (fun x hx => hpre x (List.mem_cons_of_mem _ hx))
    simpa using this

theorem firstDigitRun_no_digit : ∀ (s : Str), (∀ c ∈ s, ¬ IsDecimalDigit c) →
    firstDigitRun s = none := by
  intro s
  induction s with
  | nil => intro _; rfl
  | cons c s ih =>
    intro h
    have hd : ¬ isDigit c = true := by
      rw [isDigit_iff]
      exact h c (by simp)
    rw [firstDigitRun, if_neg hd]
    exact ih (fun x hx => h x (List.mem_cons_of_mem _ hx))

theorem daysOf_decomp (pre run post : Str) (hpre : ∀ c ∈ pre, ¬ IsDecimalDigit c)
    (hne : run ≠ []) (hrun : ∀ c ∈ run, IsDecimalDigit c)
    (hpost : ∀ c, post.head? = some c → ¬ IsDecimalDigit c) :
    daysOf (pre ++ run ++ post) = decimalValue run := by
  unfold daysOf
  rw [firstRun_of_some _ run (firstDigitRun_decomp pre run post hpre hne hrun hpost)]

theorem daysOf_no_digit (s : Str) (h : ∀ c ∈ s, ¬ IsDecimalDigit c) : daysOf s = 0 := by
  unfold daysOf
  rw [firstRun_of_none s (firstDigitRun_no_digit s h)]
  rfl

theorem lifespanDays_eq (s : Str) : lifespanDays s = some (toNumber false (daysOf s)) := by
  unfold lifespanDays daysOf
  cases h : firstDigitRun s with
  | none =>
    rw [firstRun_of_none s h]
    rfl
  | some run =>
    obtain ⟨_, d, r, rfl, hd, hr⟩ := firstDigitRun_some s run h
    rw [firstRun_of_some s _ h]
    unfold decimalValue
    rw [← digitsValue_eq_ofDigits]
    exact parseIntNumber_run d r hd hr

theorem toNumber_small_days (n : Nat) (h : n < 2 ^ 53) : toNumber false n = .int (n : Int) := by
  unfold toNumber roundToDouble
  rw [if_pos h]
  rfl

theorem severity_of_days (darkMode : Bool) (s : Str) (hs : s ≠ []) :
    getFreshnessBadgeColors darkMode (some s) = badgeOf darkMode (bucketOf (daysOf s)) ∧
    getRowGradient darkMode (some s) = gradientOf darkMode (bucketOf (daysOf s)) ∧
    getFreshnessEmoji (some s)
      = (if daysOf s ≤ 1 then getFreshnessEmoji (some (js "0"))
         else if daysOf s ≤ 3 then getFreshnessEmoji (some (js "2"))
         else getFreshnessEmoji (some (js "4"))) := by
  have h1 : numLe (lifespanDays s) 1 = decide (daysOf s ≤ 1) := by
    rw [lifespanDays_eq]
    exact numLe_toNumber (daysOf s) 1 (by norm_num)
  have h3 : numLe (lifespanDays s) 3 = decide (daysOf s ≤ 3) := by
    rw [lifespanDays_eq]
    exact numLe_toNumber (daysOf s) 3 (by norm_num)
  have e0 : getFreshnessEmoji (some (js "0")) = js "‚ö†Ô∏è" := by rfl
  have e2 : getFreshnessEmoji (some (js "2")) = js "‚è≥" := by rfl
  have e4 : getFreshnessEmoji (some (js "4")) = js "‚úÖ" := by rfl
  rw [e0, e2, e4]
  generalize daysOf s = days at h1 h3
  unfold getFreshnessBadgeColors getRowGradient getFreshnessEmoji
  simp only [isAbsent_some s hs, Option.getD_some, h1, h3, bucketOf]
  by_cases a1 : days ≤ 1
  · simp [a1, badgeOf, gradientOf]
  · by_cases a3 : days ≤ 3
    · simp [a1, a3, badgeOf, gradientOf]
    · simp [a1, a3, badgeOf, gradientOf]

theorem emoji_distinct :
    getFreshnessEmoji (some (js "0")) ≠ getFreshnessEmoji (some (js "2")) ∧
    getFreshnessEmoji (some (js "0")) ≠ getFreshnessEmoji (some (js "4")) ∧
    getFreshnessEmoji (some (js "2")) ≠ getFreshnessEmoji (some (js "4")) ∧
    getFreshnessEmoji none ≠ getFreshnessEmoji (some (js "0")) ∧
    getFreshnessEmoji none ≠ getFreshnessEmoji (some (js "2")) ∧
    getFreshnessEmoji none ≠ getFreshnessEmoji (some (js "4")) :=
  ⟨by decide, by decide, by decide, by decide, by decide, by decide⟩

/-- C17, as the claim states it, fails: an absent lifespan is not classified as
zero days. For `undefined`/`null` and for the empty string the badge is gray
and there is no gradient, where "0" gets the red badge and the red gradient;
and `getFreshnessEmoji` answers an absent lifespan with another string than it
answers "0". -/
theorem C17_counterexample :
    getFreshnessBadgeColors false none = js "bg-gray-100 text-gray-800" ∧
    getFreshnessBadgeColors false (some (js "")) = js "bg-gray-100 text-gray-800" ∧
    getFreshnessBadgeColors false (some (js "0")) = js "bg-red-100 text-red-800" ∧
    getRowGradient false none = js "" ∧
    getRowGradient false (some (js "")) = js "" ∧
    getRowGradient false (some (js "0")) = js "bg-gradient-to-r from-transparent to-red-50" ∧
    getFreshnessEmoji none ≠ getFreshnessEmoji (some (js "0")) ∧
    getFreshnessEmoji (some (js "")) ≠ getFreshnessEmoji (some (js "0")) :=
  ⟨by rfl, by rfl, by rfl, by rfl, by rfl, by rfl, by decide, by decide⟩

/-- C17, amended. The three functions take as days the value of the first run
of decimal digits of the lifespan: for a lifespan `pre ++ run ++ post`, where
`pre` has no digit, `run` is a non-empty run of digits and `post` does not
start with a digit, `days` is the value of `run`, the badge and the gradient
are those of the bucket of that value, and `getFreshnessEmoji` answers as for
"0" exactly when the value is at most 1. A non-empty lifespan that has no
digit is classified as zero days, in the most severe bucket (red badge, red
gradient, the answer of `getFreshnessEmoji` for "0"). An absent lifespan
(`undefined`, `null` or the empty string) is not classified as zero days: it
gets the gray badge, no gradient, and an answer of `getFreshnessEmoji` that no
non-empty lifespan gets. -/
theorem C17_severity_of_lifespan (darkMode : Bool) :
    (∀ pre run post : Str, (∀ c ∈ pre, ¬ IsDecimalDigit c) → run ≠ [] →
      (∀ c ∈ run, IsDecimalDigit c) → (∀ c, post.head? = some c → ¬ IsDecimalDigit c) →
      (decimalValue run < 2 ^ 53 →
        lifespanDays (pre ++ run ++ post) = some (.int (decimalValue run))) ∧
      getFreshnessBadgeColors darkMode (some (pre ++ run ++ post))
        = badgeOf darkMode (bucketOf (decimalValue run)) ∧
      getRowGradient darkMode (some (pre ++ run ++ post))
        = gradientOf darkMode (bucketOf (decimalValue run)) ∧
      (getFreshnessEmoji (some (pre ++ run ++ post)) = getFreshnessEmoji (some (js "0")) ↔
        decimalValue run ≤ 1)) ∧
    (∀ s : Str, s ≠ [] → (∀ c ∈ s, ¬ IsDecimalDigit c) →
      lifespanDays s = some (.int 0) ∧
      getFreshnessBadgeColors darkMode (some s) = badgeOf darkMode .severe ∧
      getRowGradient darkMode (some s) = gradientOf darkMode .severe ∧
      getFreshnessEmoji (some s) = getFreshnessEmoji (some (js "0"))) ∧
    (getFreshnessBadgeColors darkMode none
        = (if darkMode then js "bg-gray-700 text-gray-300" else js "bg-gray-100 text-gray-800") ∧
      getFreshnessBadgeColors darkMode (some [])
        = (if darkMode then js "bg-gray-700 text-gray-300" else js "bg-gray-100 text-gray-800") ∧
      getRowGradient darkMode none = js "" ∧ getRowGradient darkMode (some []) = js "" ∧
      getFreshnessEmoji (some []) = getFreshnessEmoji none ∧
      (∀ s : Str, s ≠ [] →
        getFreshnessBadgeColors darkMode none ≠ getFreshnessBadgeColors darkMode (some s) ∧
        getRowGradient darkMode none ≠ getRowGradient darkMode (some s) ∧
        getFreshnessEmoji none ≠ getFreshnessEmoji (some s))) := by
  obtain ⟨d02, d04, d24, dn0, dn2, dn4⟩ := emoji_distinct
  refine ⟨?_, ?_, by rfl, by rfl, by rfl, by rfl, by rfl, ?_⟩
  · intro pre run post hpre hne hrun hpost
    have hs : pre ++ run ++ post ≠ [] := by
      intro h
      have := congrArg List.length h
      have hl : 0 < run.length := List.length_pos.mpr hne
      simp only [List.length_append, List.length_nil] at this
      omega
    have hdays := daysOf_decomp pre run post hpre hne hrun hpost
    obtain ⟨hb, hg, he⟩ := severity_of_days darkMode (pre ++ run ++ post) hs
    rw [hdays] at hb hg he
    refine ⟨?_, hb, hg, ?_⟩
    · intro hlt
      rw [lifespanDays_eq, hdays, toNumber_small_days _ hlt]
    · rw [he]
      by_cases a1 : decimalValue run ≤ 1
      · simp [a1]
      · by_cases a3 : decimalValue run ≤ 3
        · simp only [a1, a3, if_true, if_false, iff_false]
          exact fun h => d02 h.symm
        · simp only [a1, a3, if_false, iff_false]
          exact fun h => d04 h.symm
  · intro s hs hno
    have hdays := daysOf_no_digit s hno
    obtain ⟨hb, hg, he⟩ := severity_of_days darkMode s hs
    rw [hdays] at hb hg he
    refine ⟨?_, hb, hg, ?_⟩
    · rw [lifespanDays_eq, hdays]
      rfl
    · rw [he]
      rfl
  · intro s hs
    obtain ⟨hb, hg, he⟩ := severity_of_days darkMode s hs
    rw [hb, hg, he]
    refine ⟨?_, ?_, ?_⟩
    · cases darkMode <;> unfold bucketOf <;> split <;> try split
      all_goals decide
    · cases darkMode <;> unfold bucketOf <;> split <;> try split
      all_goals decide
    · split
      · exact dn0
      · split
        · exact dn2
        · exact dn4

/-- Witness of the amended C17: in "about 2-3 days" the first run is "2"
(yellow), in "best within 10 days" it is "10", not the digit "1" (green), and
"soon" has no digit (red). -/
theorem C17_severity_of_lifespan_witness :
    (lifespanDays (js "about 2-3 days") = some (.int 2) ∧
      getFreshnessBadgeColors false (some (js "about 2-3 days")) = js "bg-yellow-100 text-yellow-800" ∧
      getRowGradient false (some (js "about 2-3 days"))
        = js "bg-gradient-to-r from-transparent to-yellow-50") ∧
    (lifespanDays (js "best within 10 days") = some (.int 10) ∧
      getFreshnessBadgeColors false (some (js "best within 10 days"))
        = js "bg-green-100 text-green-800") ∧
    (lifespanDays (js "soon") = some (.int 0) ∧
      getFreshnessBadgeColors false (some (js "soon")) = js "bg-red-100 text-red-800" ∧
      getFreshnessEmoji (some (js "soon")) = getFreshnessEmoji (some (js "0"))) :=
  ⟨⟨((C17_severity_of_lifespan false).1 (js "about ") (js "2") (js "-3 days")
        (by decide) (by decide) (by decide) (by decide)).1 (by decide),
    ((C17_severity_of_lifespan false).1 (js "about ") (js "2") (js "-3 days")
        (by decide) (by decide) (by decide) (by decide)).2.1,
    ((C17_severity_of_lifespan false).1 (js "about ") (js "2") (js "-3 days")
        (by decide) (by decide) (by decide) (by decide)).2.2.1⟩,
   ⟨((C17_severity_of_lifespan false).1 (js "best within ") (js "10") (js " days")
        (by decide) (by decide) (by decide) (by decide)).1 (by decide),
    ((C17_severity_of_lifespan false).1 (js "best within ") (js "10") (js " days")
        (by decide) (by decide) (by decide) (by decide)).2.1⟩,
   ⟨((C17_severity_of_lifespan false).2.1 (js "soon") (by decide) (by decide)).1,
    ((C17_severity_of_lifespan false).2.1 (js "soon") (by decide) (by decide)).2.1,
    ((C17_severity_of_lifespan false).2.1 (js "soon") (by decide) (by decide)).2.2.2⟩⟩

/-- C30. For every non-empty lifespan string, `getFreshnessBadgeColors` and
`getRowGradient` select the bucket of its days (the value of the first digit
run, 0 if none): severe (red) for days up to 1, intermediate (yellow) for 2
and 3, fresh (green) above 3; and `getFreshnessEmoji` selects by the same
bucket, two lifespans getting the same answer exactly when their buckets are
the same. The answer of `getFreshnessEmoji` is none of the three emoji (warning sign,
hourglass, check mark): the literals of the source file are the UTF-8 bytes of
these emoji read as Mac Roman text. -/
theorem C30_same_bucket (darkMode : Bool) (s : Str) (hs : s ≠ []) :
    getFreshnessBadgeColors darkMode (some s) = badgeOf darkMode (bucketOf (daysOf s)) ∧
    getRowGradient darkMode (some s) = gradientOf darkMode (bucketOf (daysOf s)) ∧
    (∀ t : Str, t ≠ [] →
      (getFreshnessEmoji (some s) = getFreshnessEmoji (some t) ↔
        bucketOf (daysOf s) = bucketOf (daysOf t))) ∧
    (∀ b : Bucket, getFreshnessEmoji (some s) ≠ emojiOf b) ∧
    (bucketOf (daysOf s) = .severe ↔ daysOf s ≤ 1) ∧
    (bucketOf (daysOf s) = .intermediate ↔ 2 ≤ daysOf s ∧ daysOf s ≤ 3) ∧
    (bucketOf (daysOf s) = .fresh ↔ 3 < daysOf s) := by
  obtain ⟨d02, d04, d24, _, _, _⟩ := emoji_distinct
  obtain ⟨hb, hg, he⟩ := severity_of_days darkMode s hs
  refine ⟨hb, hg, ?_, ?_, ?_, ?_, ?_⟩
  · intro t ht
    have het := (severity_of_days darkMode t ht).2.2
    rw [he, het]
    generalize daysOf s = n
    generalize daysOf t = m
    unfold bucketOf
    by_cases n1 : n ≤ 1 <;> by_cases n3 : n ≤ 3 <;> by_cases m1 : m ≤ 1 <;>
      by_cases m3 : m ≤ 3 <;>
      simp [n1, n3, m1, m3, d02, d04, d24, d02.symm, d04.symm, d24.symm]
  · intro b
    rw [he]
    cases b <;> split <;> try split
    all_goals decide
  · unfold bucketOf
    split
    · simp [*]
    · split <;> simp <;> omega
  · unfold bucketOf
    split
    · simp; omega
    · split <;> simp <;> omega
  · unfold bucketOf
    split
    · simp; omega
    · split <;> simp <;> omega

/-- Witness of C30: "2-3 days" has 2 days and falls in the intermediate bucket,
yellow badge and yellow gradient; `getFreshnessEmoji` answers it as "3 days"
and not as "5 days", and not with the hourglass. -/
theorem C30_same_bucket_witness :
    daysOf (js "2-3 days") = 2 ∧ bucketOf (daysOf (js "2-3 days")) = .intermediate ∧
    getFreshnessBadgeColors false (some (js "2-3 days")) = js "bg-yellow-100 text-yellow-800" ∧
    getRowGradient false (some (js "2-3 days"))
      = js "bg-gradient-to-r from-transparent to-yellow-50" ∧
    getFreshnessEmoji (some (js "2-3 days")) = getFreshnessEmoji (some (js "3 days")) ∧
    getFreshnessEmoji (some (js "2-3 days")) ≠ getFreshnessEmoji (some (js "5 days")) ∧
    getFreshnessEmoji (some (js "2-3 days")) ≠ [0x23F3] :=
  ⟨by decide, by decide,
   (C30_same_bucket false (js "2-3 days") (by decide)).1,
   (C30_same_bucket false (js "2-3 days") (by decide)).2.1,
   ((C30_same_bucket false (js "2-3 days") (by decide)).2.2.1 (js "3 days") (by decide)).mpr
     (by decide),
   fun h => absurd
     (((C30_same_bucket false (js "2-3 days") (by decide)).2.2.1 (js "5 days") (by decide)).mp h)
     (by decide),
   (C30_same_bucket false (js "2-3 days") (by decide)).2.2.2.1 .intermediate⟩

end GroceryVision
